import Mathlib

/-!
# Statement lowering of the translator (`translator/statements.go`)

A shallow embedding of `translateStmtList`, `translateStmt`,
`translateBranchingStmt`, `translateAssign`, `hasFallthrough` and
`HasBreakVisitor`, followed by theorems about the emitted target text.

Conventions of the embedding.

* The syntax tree of `go/ast` is the pair of inductive types `Expr` and `Stmt`;
  a Go interface value that may be `nil` is an `Option`.
* The emission context `PkgContext` carries the emitted lines, the indentation,
  the loop context table `postLoopStmt`, the result bindings, and the state `ext`
  of the collaborators whose code is outside `statements.go` (expression
  lowering, semantic model, name allocator).  Those collaborators are the fields
  of `Externals`; every theorem holds for every choice of them.
* A Go `panic` is the error `Fatal.panic`; the recursion of `translateStmt` is
  bounded by a fuel argument and `Fatal.fuel` reports its exhaustion.
-/

namespace Translator

/-! ## Syntax -/

/-- Tokens of `go/token` that the statement lowering inspects. -/
inductive Token
  | ILLEGAL | ASSIGN | DEFINE
  | ADD_ASSIGN | SUB_ASSIGN | MUL_ASSIGN | QUO_ASSIGN | REM_ASSIGN
  | AND_ASSIGN | OR_ASSIGN | XOR_ASSIGN | SHL_ASSIGN | SHR_ASSIGN | AND_NOT_ASSIGN
  | ADD | SUB | MUL | QUO | REM | AND | OR | XOR | SHL | SHR | AND_NOT
  | EQL | LAND | INC | DEC | BREAK | CONTINUE | GOTO | FALLTHROUGH
  deriving DecidableEq, Repr

/-- Types of `go/types`, as far as the lowering distinguishes them. -/
inductive GoType
  | basic (name : String)
  | array (elem : GoType) (len : Nat)
  | slice (elem : GoType)
  | pointer (elem : GoType)
  | map (key : GoType) (elem : GoType)
  | chan (elem : GoType)
  | struct (fields : List (String × GoType))
  | tuple (vars : List GoType)
  | signature (params : List GoType) (results : List GoType)
  | interface
  | named (name : String) (underlying : GoType)
  deriving Repr

/-- The method `Underlying()` of a type: a named type yields the type it was
declared from, every other type is its own underlying type. -/
def GoType.Underlying : GoType → GoType
  | .named _ u => u
  | t => t

/-- Objects of `go/types` (the entities identifiers are bound to). -/
inductive Object
  | builtin (name : String)
  | var (name : String) (type : GoType)
  deriving Repr

/-- Expressions of `go/ast`.  The lowering of this file only looks at the
outermost constructor of a target; everything else is handed to the expression
lowering. -/
inductive Expr
  | ident (name : String)
  | basicLit (kind : String) (value : String)
  | paren (x : Expr)
  | selector (x : Expr) (sel : String)
  | star (x : Expr)
  | index (x : Expr) (index : Expr)
  | binary (x : Expr) (op : Token) (y : Expr)
  | call (fn : Expr) (args : List Expr) (ellipsis : Bool)
  | typeAssert (x : Expr) (type : Option Expr)
  | funcLit (name : String)
  | other (kind : String) (args : List Expr)
  deriving Repr

/-- Statements of `go/ast`.  `spec` of a declaration statement is kept as the
list of its specs, each an opaque name handed to `translateSpec`; `genDecl`
tells whether the declaration is a `*ast.GenDecl`. -/
inductive Stmt
  | block (list : List Stmt)
  | ifStmt (init : Option Stmt) (cond : Expr) (body : List Stmt) (els : Option Stmt)
  | caseClause (list : Option (List Expr)) (body : List Stmt)
  | switchStmt (init : Option Stmt) (tag : Option Expr) (body : List Stmt)
  | typeSwitchStmt (init : Option Stmt) (assign : Stmt) (body : List Stmt)
  | forStmt (init : Option Stmt) (cond : Option Expr) (post : Option Stmt) (body : List Stmt)
  | rangeStmt (key : Option Expr) (value : Option Expr) (x : Expr) (body : List Stmt)
  | branch (tok : Token) (label : Option String)
  | returnStmt (results : List Expr)
  | deferStmt (fn : Expr) (args : List Expr) (ellipsis : Bool)
  | exprStmt (x : Expr)
  | declStmt (genDecl : Bool) (specs : List String)
  | labeled (label : String) (stmt : Option Stmt)
  | assign (lhs : List Expr) (tok : Token) (rhs : List Expr)
  | incDec (x : Expr) (tok : Token)
  | selectStmt (body : List Stmt)
  | goStmt (call : Expr)
  | send (chan : Expr) (value : Expr)
  | empty
  | bad (kind : String)
  deriving Repr

/-! ## Emission context -/

/-- Failures of a lowering run: a Go `panic`, or the exhaustion of the fuel
that bounds the recursion of the embedding. -/
inductive Fatal
  | panic (msg : String)
  | fuel
  deriving DecidableEq, Repr

/-- One emitted line: the indentation in force when it was printed, and its
text. -/
structure Line where
  indent : Nat
  text : String
  deriving DecidableEq, Repr

/-- The receiver `*PkgContext` of the lowering methods.  `ext` is the state
owned by the collaborators (semantic model `c.info`, `c.objectVars`, the name
allocator). -/
structure PkgContext (σ : Type) where
  ext : σ
  output : List Line
  indentation : Nat
  postLoopStmt : List (String × Option Stmt)
  resultNames : Option (List Expr)
  functionSig : List GoType

/-- The collaborators of the statement lowering whose code lies outside
`statements.go`.  Each may read and update its own state `σ`; none of them
prints a line. -/
structure Externals (σ : Type) where
  /-- The map `c.info.Types`, read at a node. -/
  typeOf : σ → Expr → Option GoType
  /-- The assignment `c.info.Types[e] = t`. -/
  setType : σ → Expr → Option GoType → σ
  /-- The assignment `c.info.Values[e] = exact.MakeInt64(v)`. -/
  setValue : σ → Expr → Int → σ
  /-- The map `c.info.Objects`, read at an identifier. -/
  objectOf : σ → Expr → Option Object
  /-- The map `c.info.Implicits`, read at a case clause. -/
  implicitOf : σ → Stmt → Option Object
  /-- The assignment `c.objectVars[o] = name`. -/
  setObjectVar : σ → Option Object → String → σ
  translateExpr : σ → Expr → String × σ
  translateExprToType : σ → Expr → Option GoType → String × σ
  translateExprSlice : σ → List Expr → List String × σ
  translateArgs : σ → GoType → List Expr → Bool → String × σ
  typeCheck : σ → String → Option GoType → String × σ
  objectName : σ → Option Object → String × σ
  newVariable : σ → String → String × σ
  translateSpec : σ → String → List String × σ
  hasId : GoType → Bool
  elemType : GoType → GoType

variable {σ : Type}

/-- Modelled from the spec: `Printf` of the emission context (its code is not
in `statements.go`), the indent-aware statement writer: the formatted text is
appended as one line at the current indentation. -/
def PkgContext.Printf (c : PkgContext σ) (text : String) : PkgContext σ :=
  { c with output := c.output ++ [⟨c.indentation, text⟩] }

/-- Replace the collaborator state of a context. -/
def PkgContext.withExt (c : PkgContext σ) (e : σ) : PkgContext σ :=
  { c with ext := e }

/-- Modelled from the spec: `Indent` of the emission context (its code is not
in `statements.go`): run `f` one indentation level deeper, then restore the
level. -/
def PkgContext.Indent (c : PkgContext σ)
    (f : PkgContext σ → Except Fatal (PkgContext σ)) : Except Fatal (PkgContext σ) :=
  match f { c with indentation := c.indentation + 1 } with
  | .ok c1 => .ok { c1 with indentation := c1.indentation - 1 }
  | .error e => .error e

/-- Modelled from the spec: `isUnderscore` (its code is not in
`statements.go`): the expression is the blank identifier `_`. -/
def isUnderscore : Expr → Bool
  | .ident name => name == "_"
  | _ => false

/-- Reading the Go map `c.postLoopStmt`: an absent key yields `nil`. -/
def lookupPost (m : List (String × Option Stmt)) (k : String) : Option Stmt :=
  match m.find? (fun p => p.1 == k) with
  | some p => p.2
  | none => none

/-- The Go statement `delete(m, k)`. -/
def deletePost (m : List (String × Option Stmt)) (k : String) : List (String × Option Stmt) :=
  m.filter (fun p => !(p.1 == k))

/-- The Go assignment `m[k] = v`. -/
def setPost (m : List (String × Option Stmt)) (k : String) (v : Option Stmt) :
    List (String × Option Stmt) :=
  (k, v) :: deletePost m k

/-- The two loops of `translateAssign` that strip enclosing parentheses. -/
def stripParens : Expr → Expr
  | .paren x => stripParens x
  | e => e

/-- The field writes emitted by the loop over `NumFields()`. -/
def printFields (c : PkgContext σ) (l r : String) : List (String × GoType) → PkgContext σ
  | [] => c
  | f :: fs => printFields (c.Printf (l ++ "." ++ f.1 ++ " = " ++ r ++ "." ++ f.1 ++ ";")) l r fs

/-- The method `translateAssign`: the write of the text `rhs` to one target. -/
def translateAssign (E : Externals σ) (lhs : Option Expr) (rhs : String)
    (c : PkgContext σ) : Except Fatal (PkgContext σ) :=
  match lhs.map stripParens with
  | none => .ok c
  | some lhs =>
    if isUnderscore lhs then .ok c
    else
      match lhs with
      | .ident _ =>
        let n := E.objectName c.ext (E.objectOf c.ext lhs)
        .ok ((c.withExt n.2).Printf (n.1 ++ " = " ++ rhs ++ ";"))
      | .selector _ _ =>
        match E.typeOf c.ext lhs with
        | none => .error (.panic "nil type")
        | some t =>
          match t.Underlying with
          | .struct fields =>
            let c1 := c.Printf ("Go$obj = " ++ rhs ++ ";")
            let s := E.translateExpr c1.ext lhs
            .ok (printFields (c1.withExt s.2) s.1 "Go$obj" fields)
          | _ =>
            let s := E.translateExpr c.ext lhs
            .ok ((c.withExt s.2).Printf (s.1 ++ " = " ++ rhs ++ ";"))
      | .star x =>
        match E.typeOf c.ext lhs with
        | none => .error (.panic "nil type")
        | some t =>
          match t.Underlying with
          | .struct fields =>
            let lVar := E.newVariable c.ext "l"
            let rVar := E.newVariable lVar.2 "r"
            let xs := E.translateExpr rVar.2 x
            let c1 := (c.withExt xs.2).Printf (lVar.1 ++ " = " ++ xs.1 ++ ";")
            let c2 := c1.Printf (rVar.1 ++ " = " ++ rhs ++ ";")
            .ok (printFields c2 lVar.1 rVar.1 fields)
          | .array _ len =>
            let lVar := E.newVariable c.ext "l"
            let rVar := E.newVariable lVar.2 "r"
            let xs := E.translateExpr rVar.2 x
            let c1 := (c.withExt xs.2).Printf (lVar.1 ++ " = " ++ xs.1 ++ ";")
            let c2 := c1.Printf (rVar.1 ++ " = " ++ rhs ++ ";")
            let iVar := E.newVariable c2.ext "i"
            .ok ((c2.withExt iVar.2).Printf
              ("for (" ++ iVar.1 ++ " = 0; " ++ iVar.1 ++ " < " ++ toString len ++ "; "
                ++ iVar.1 ++ "++) \x7b " ++ lVar.1 ++ "[" ++ iVar.1 ++ "] = " ++ rVar.1
                ++ "[" ++ iVar.1 ++ "]; \x7d"))
          | _ =>
            let xs := E.translateExpr c.ext x
            .ok ((c.withExt xs.2).Printf (xs.1 ++ ".Go$set(" ++ rhs ++ ");"))
      | .index x idx =>
        match E.typeOf c.ext x with
        | none => .error (.panic "nil type")
        | some t =>
          match t.Underlying with
          | .array _ _ | .pointer _ =>
            let xs := E.translateExpr c.ext x
            let is := E.translateExpr xs.2 idx
            .ok ((c.withExt is.2).Printf (xs.1 ++ "[" ++ is.1 ++ "] = " ++ rhs ++ ";"))
          | .slice _ =>
            let xs := E.translateExpr c.ext x
            let c1 := (c.withExt xs.2).Printf ("Go$obj = " ++ xs.1 ++ ";")
            let is := E.translateExpr c1.ext idx
            let c2 := (c1.withExt is.2).Printf ("Go$index = " ++ is.1 ++ ";")
            let c3 := c2.Printf
              "if (Go$index < 0 || Go$index >= Go$obj.length) \x7b Go$throwRuntimeError(\"index out of range\"); \x7d"
            .ok (c3.Printf ("Go$obj.array[Go$obj.offset + Go$index] = " ++ rhs ++ ";"))
          | .map key _ =>
            let keyVar := E.newVariable c.ext "_key"
            let ks := E.translateExprToType keyVar.2 idx (some key)
            let c1 := (c.withExt ks.2).Printf (keyVar.1 ++ " = " ++ ks.1 ++ ";")
            let key1 :=
              if E.hasId key then "(" ++ keyVar.1 ++ " || Go$Map.Go$nil).Go$key()" else keyVar.1
            let xs := E.translateExpr c1.ext x
            .ok ((c1.withExt xs.2).Printf
              (xs.1 ++ "[" ++ key1 ++ "] = \x7b k: " ++ keyVar.1 ++ ", v: " ++ rhs ++ " \x7d;"))
          | _ => .error (.panic "Unhandled lhs type")
      | _ => .error (.panic "Unhandled lhs type")

/-! ## Branching -/

/-- The function `hasFallthrough`: the body of the clause ends in a
`fallthrough` statement. -/
def hasFallthrough : Stmt → Bool
  | .caseClause _ body =>
    match body.getLast? with
    | some (.branch tok _) => tok == Token.FALLTHROUGH
    | _ => false
  | _ => false

/-- The statement `clauseStmts[j] = append(clauseStmts[j], body...)`. -/
def appendAt (cs : List (List Stmt)) (j : Nat) (body : List Stmt) : List (List Stmt) :=
  cs.set j (cs.getD j [] ++ body)

/-- The loop of `translateBranchingStmt` that fills `clauseStmts`: `i` is the
index of the first clause of `caseClauses` still to visit, `openClauses` the
indices that are still accumulating bodies. -/
def clauseStmtsLoop : List Stmt → Nat → List (List Stmt) → List Nat →
    Except Fatal (List (List Stmt))
  | [], _, clauseStmts, _ => .ok clauseStmts
  | child :: rest, i, clauseStmts, openClauses =>
    match child with
    | .caseClause _ body =>
      let openClauses1 := openClauses ++ [i]
      let clauseStmts1 := openClauses1.foldl (fun cs j => appendAt cs j body) clauseStmts
      clauseStmtsLoop rest (i + 1) clauseStmts1 (if hasFallthrough child then openClauses1 else [])
    | _ => .error (.panic "interface conversion: not *ast.CaseClause")

/-- The slice `clauseStmts` that `translateBranchingStmt` computes from its
clause list. -/
def clauseStmts (caseClauses : List Stmt) : Except Fatal (List (List Stmt)) :=
  clauseStmtsLoop caseClauses 0 (List.replicate caseClauses.length []) []

/-- The method `translateStmtList`, over a given lowering `tr` of one
statement. -/
def translateStmtListWith (tr : Option Stmt → String → PkgContext σ → Except Fatal (PkgContext σ)) :
    List Stmt → PkgContext σ → Except Fatal (PkgContext σ)
  | [], c => .ok c
  | stmt :: rest, c =>
    match tr (some stmt) "" c with
    | .ok c1 => translateStmtListWith tr rest c1
    | .error e => .error e

/-- The loop that lowers the conditions of one clause with `translateCond`. -/
def translateConds (translateCond : σ → Expr → String × σ) : σ → List Expr → List String × σ
  | e, [] => ([], e)
  | e, cond :: rest =>
    let r := translateCond e cond
    let rs := translateConds translateCond r.2 rest
    (r.1 :: rs.1, rs.2)

/-- The optional call of `printCaseBodyPrefix`. -/
def callPrefix (printCaseBodyPrefix : Option (Option (List Expr) → PkgContext σ →
    Except Fatal (PkgContext σ))) (conds : Option (List Expr)) (c : PkgContext σ) :
    Except Fatal (PkgContext σ) :=
  match printCaseBodyPrefix with
  | none => .ok c
  | some f => f conds c

/-- The loop of the closure `printBody` over the clauses: `i` is the index of
the first clause still to visit; the result carries the final
`defaultClause`. -/
def printBodyLoop (tr : Option Stmt → String → PkgContext σ → Except Fatal (PkgContext σ))
    (translateCond : σ → Expr → String × σ)
    (printCaseBodyPrefix : Option (Option (List Expr) → PkgContext σ → Except Fatal (PkgContext σ)))
    (groups : List (List Stmt)) :
    List Stmt → Nat → Option (List Stmt) → String → PkgContext σ →
      Except Fatal (Option (List Stmt) × PkgContext σ)
  | [], _, defaultClause, _, c => .ok (defaultClause, c)
  | child :: rest, i, defaultClause, elsePrefix, c =>
    match child with
    | .caseClause list _ =>
      if (list.getD []).length = 0 then
        printBodyLoop tr translateCond printCaseBodyPrefix groups rest (i + 1)
          (some (groups.getD i [])) elsePrefix c
      else
        let conds := translateConds translateCond c.ext (list.getD [])
        let c1 := (c.withExt conds.2).Printf
          (elsePrefix ++ "if (" ++ String.intercalate " || " conds.1 ++ ") \x7b")
        match c1.Indent (fun c2 =>
            match callPrefix printCaseBodyPrefix list c2 with
            | .ok c3 => translateStmtListWith tr (groups.getD i []) c3
            | .error e => .error e) with
        | .ok c4 =>
          printBodyLoop tr translateCond printCaseBodyPrefix groups rest (i + 1)
            defaultClause "\x7d else " c4
        | .error e => .error e
    | _ => .error (.panic "interface conversion: not *ast.CaseClause")

/-- The closure `printBody` of `translateBranchingStmt`. -/
def printBody (tr : Option Stmt → String → PkgContext σ → Except Fatal (PkgContext σ))
    (translateCond : σ → Expr → String × σ)
    (printCaseBodyPrefix : Option (Option (List Expr) → PkgContext σ → Except Fatal (PkgContext σ)))
    (caseClauses : List Stmt) (groups : List (List Stmt)) (c : PkgContext σ) :
    Except Fatal (PkgContext σ) :=
  match printBodyLoop tr translateCond printCaseBodyPrefix groups caseClauses 0 none "" c with
  | .error e => .error e
  | .ok (none, c1) => .ok (c1.Printf "\x7d")
  | .ok (some defaultClause, c1) =>
    match (c1.Printf "\x7d else \x7b").Indent (fun c2 =>
        match callPrefix printCaseBodyPrefix none c2 with
        | .ok c3 => translateStmtListWith tr defaultClause c3
        | .error e => .error e) with
    | .ok c4 => .ok (c4.Printf "\x7d")
    | .error e => .error e

/-! ## The visitor that looks for an unlabeled `break` -/

/-- The method `HasBreakVisitor.Visit` at a statement node: from the field
`hasBreak` before the call, the field after it and whether a visitor (rather
than `nil`) is returned, that is whether the walk descends into the node. -/
def HasBreakVisitor.Visit (hasBreak : Bool) (node : Stmt) : Bool × Bool :=
  if hasBreak then (true, false)
  else
    match node with
    | .branch tok label =>
      if tok == Token.BREAK && label.isNone then (true, false) else (false, true)
    | .forStmt _ _ _ _ | .rangeStmt _ _ _ _ | .switchStmt _ _ _ | .typeSwitchStmt _ _ _
    | .selectStmt _ => (false, false)
    | _ => (false, true)

mutual
/-- The function `ast.Walk` of the Go library run with a `HasBreakVisitor` on
a statement; the result is the field `hasBreak` after the walk.  Expression
children are not modelled: a statement below an expression lies in a function
literal, where `Visit` returns `nil`. -/
def Walk (hasBreak : Bool) : Stmt → Bool
  | .block list =>
    if (HasBreakVisitor.Visit hasBreak (.block list)).2 then WalkList hasBreak list
    else (HasBreakVisitor.Visit hasBreak (.block list)).1
  | .ifStmt init cond body els =>
    if (HasBreakVisitor.Visit hasBreak (.ifStmt init cond body els)).2 then
      WalkOpt
        (if (HasBreakVisitor.Visit (WalkOpt hasBreak init) (.block body)).2 then
          WalkList (WalkOpt hasBreak init) body
        else (HasBreakVisitor.Visit (WalkOpt hasBreak init) (.block body)).1) els
    else (HasBreakVisitor.Visit hasBreak (.ifStmt init cond body els)).1
  | .caseClause list body =>
    if (HasBreakVisitor.Visit hasBreak (.caseClause list body)).2 then WalkList hasBreak body
    else (HasBreakVisitor.Visit hasBreak (.caseClause list body)).1
  | .labeled label stmt =>
    if (HasBreakVisitor.Visit hasBreak (.labeled label stmt)).2 then WalkOpt hasBreak stmt
    else (HasBreakVisitor.Visit hasBreak (.labeled label stmt)).1
  | node => (HasBreakVisitor.Visit hasBreak node).1
/-- The walk over a statement list, in order. -/
def WalkList (hasBreak : Bool) : List Stmt → Bool
  | [] => hasBreak
  | stmt :: rest => WalkList (Walk hasBreak stmt) rest
/-- The walk over a statement that may be `nil`. -/
def WalkOpt (hasBreak : Bool) : Option Stmt → Bool
  | none => hasBreak
  | some stmt => Walk hasBreak stmt
end

/-- The part of `translateBranchingStmt` after its two early returns: the
clause groups, the chained conditional and, for a switch with a label or an
unlabeled `break`, the block around it. -/
def translateBranchingGeneral
    (tr : Option Stmt → String → PkgContext σ → Except Fatal (PkgContext σ))
    (caseClauses : List Stmt) (isSwitch : Bool) (translateCond : σ → Expr → String × σ)
    (printCaseBodyPrefix : Option (Option (List Expr) → PkgContext σ → Except Fatal (PkgContext σ)))
    (label : String) (c : PkgContext σ) : Except Fatal (PkgContext σ) :=
  match clauseStmts caseClauses with
  | .error e => .error e
  | .ok groups =>
    if !isSwitch then
      printBody tr translateCond printCaseBodyPrefix caseClauses groups c
    else if !(WalkList false caseClauses) && label == "" then
      printBody tr translateCond printCaseBodyPrefix caseClauses groups c
    else
      match ((c.Printf (label ++ "switch (undefined) \x7b")).Printf "default:").Indent
          (printBody tr translateCond printCaseBodyPrefix caseClauses groups) with
      | .ok c1 => .ok (c1.Printf "\x7d")
      | .error e => .error e

/-- The method `translateBranchingStmt`, over a given lowering `tr` of one
statement. -/
def translateBranchingStmtWith
    (tr : Option Stmt → String → PkgContext σ → Except Fatal (PkgContext σ))
    (caseClauses : List Stmt) (isSwitch : Bool) (translateCond : σ → Expr → String × σ)
    (printCaseBodyPrefix : Option (Option (List Expr) → PkgContext σ → Except Fatal (PkgContext σ)))
    (label : String) (c : PkgContext σ) : Except Fatal (PkgContext σ) :=
  match caseClauses with
  | [] => .ok c
  | [.caseClause none body] => translateStmtListWith tr body c
  | [.caseClause (some _) _] =>
    translateBranchingGeneral tr caseClauses isSwitch translateCond printCaseBodyPrefix label c
  | [_] => .error (.panic "interface conversion: not *ast.CaseClause")
  | _ => translateBranchingGeneral tr caseClauses isSwitch translateCond printCaseBodyPrefix label c

/-! ## Statements -/

mutual
/-- The loop of the `*ast.IfStmt` case that turns an `if` / `else if` chain
into case clauses; `cond` and `body` are those of the current `ifStmt`, the
argument is its `Else`. -/
def ifClauses (cond : Expr) (body : List Stmt) : Option Stmt → Except Fatal (List Stmt)
  | none => .ok [.caseClause (some [cond]) body]
  | some elseStmt => ifClausesElse cond body elseStmt
/-- The type switch on a non-nil `ifStmt.Else` in the loop of the `*ast.IfStmt`
case. -/
def ifClausesElse (cond : Expr) (body : List Stmt) : Stmt → Except Fatal (List Stmt)
  | .ifStmt _ cond1 body1 els1 =>
    match ifClauses cond1 body1 els1 with
    | .ok rest => .ok (.caseClause (some [cond]) body :: rest)
    | .error e => .error e
  | .block list => .ok [.caseClause (some [cond]) body, .caseClause none list]
  | .empty => .ok [.caseClause (some [cond]) body]
  | _ => .error (.panic "Unhandled else")
end

/-- The method `Type()` of an object. -/
def Object.Type : Object → GoType
  | .builtin _ => .basic "invalid type"
  | .var _ t => t

/-- The loop of the `*ast.AssignStmt` case that records the types of the
targets of a define. -/
def defineTypes (E : Externals σ) : σ → List Expr → Except Fatal σ
  | e, [] => .ok e
  | e, lhs :: rest =>
    if !isUnderscore lhs then
      match lhs with
      | .ident _ =>
        match E.objectOf e lhs with
        | some o => defineTypes E (E.setType e lhs (some o.Type)) rest
        | none => .error (.panic "nil object")
      | _ => .error (.panic "interface conversion: not *ast.Ident")
    else defineTypes E e rest

/-- The loop of the N-to-1 arity: `i` is the index of the first target of
the list; the texts `rhss[i]` are returned in order. -/
def tupleRhss (E : Externals σ) (tuple : List GoType) : σ → Nat → List Expr →
    Except Fatal (List String × σ)
  | e, _, [] => .ok ([], e)
  | e, i, lhs :: rest =>
    match tuple.get? i with
    | none => .error (.panic "index out of range")
    | some ti =>
      let id := Expr.ident ("Go$tuple[" ++ toString i ++ "]")
      let e1 := E.setType e id (some ti)
      let r := E.translateExprToType e1 id (E.typeOf e1 lhs)
      match tupleRhss E tuple r.2 (i + 1) rest with
      | .ok rs => .ok (r.1 :: rs.1, rs.2)
      | .error err => .error err

/-- The loop of the N-to-N arity that fills `parts`: `lhs` are the targets
from the current index on. -/
def tupleParts (E : Externals σ) : σ → List Expr → List Expr → List String × σ
  | e, _, [] => ([], e)
  | e, lhs, rhs :: rest =>
    let r := E.translateExprToType e rhs (lhs.head?.bind (E.typeOf e))
    let rs := tupleParts E r.2 lhs.tail rest
    (r.1 :: rs.1, rs.2)

/-- The texts `Go$tuple[i]` for `i = start, .., start + n - 1`. -/
def tupleSlots : Nat → Nat → List String
  | _, 0 => []
  | start, n + 1 => ("Go$tuple[" ++ toString start ++ "]") :: tupleSlots (start + 1) n

/-- The final loop of the `*ast.AssignStmt` case: one `translateAssign` per
target. -/
def assignAll (E : Externals σ) : List Expr → List String → PkgContext σ →
    Except Fatal (PkgContext σ)
  | [], _, c => .ok c
  | lhs :: rest, rhss, c =>
    match translateAssign E (some lhs) (rhss.headD "") c with
    | .ok c1 => assignAll E rest rhss.tail c1
    | .error e => .error e

/-- The binary operator of a compound assignment token; `none` is the
`default: panic(s.Tok)` branch. -/
def compoundOp : Token → Option Token
  | .ADD_ASSIGN => some .ADD
  | .SUB_ASSIGN => some .SUB
  | .MUL_ASSIGN => some .MUL
  | .QUO_ASSIGN => some .QUO
  | .REM_ASSIGN => some .REM
  | .AND_ASSIGN => some .AND
  | .OR_ASSIGN => some .OR
  | .XOR_ASSIGN => some .XOR
  | .SHL_ASSIGN => some .SHL
  | .SHR_ASSIGN => some .SHR
  | .AND_NOT_ASSIGN => some .AND_NOT
  | _ => none

/-- The `*ast.AssignStmt` case of `translateStmt` (it makes no recursive
call). -/
def translateAssignStmt (E : Externals σ) (lhs : List Expr) (tok : Token) (rhs : List Expr)
    (c : PkgContext σ) : Except Fatal (PkgContext σ) :=
  if tok ≠ Token.ASSIGN ∧ tok ≠ Token.DEFINE then
    match compoundOp tok with
    | none => .error (.panic "unhandled assignment token")
    | some op =>
      match rhs, lhs with
      | rhs0 :: _, lhs0 :: _ =>
        let parenExpr := Expr.paren rhs0
        let e1 := E.setType c.ext parenExpr (E.typeOf c.ext rhs0)
        let binaryExpr := Expr.binary lhs0 op parenExpr
        let e2 := E.setType e1 binaryExpr (E.typeOf e1 lhs0)
        let r := E.translateExpr e2 binaryExpr
        translateAssign E (some lhs0) r.1 (c.withExt r.2)
      | _, _ => .error (.panic "index out of range")
  else
    match (if tok = Token.DEFINE then defineTypes E c.ext lhs else .ok c.ext) with
    | .error e => .error e
    | .ok e0 =>
      let c0 := c.withExt e0
      if lhs.length = 1 ∧ rhs.length = 1 then
        let r := E.translateExprToType e0 (rhs.headD (.ident "")) (lhs.head?.bind (E.typeOf e0))
        if (lhs.head?.map isUnderscore).getD false then
          .ok ((c0.withExt r.2).Printf (r.1 ++ ";"))
        else assignAll E lhs [r.1] (c0.withExt r.2)
      else if 1 < lhs.length ∧ rhs.length = 1 then
        match E.typeOf e0 (rhs.headD (.ident "")) with
        | some (.tuple tuple) =>
          match tupleRhss E tuple e0 0 lhs with
          | .error e => .error e
          | .ok rhss =>
            let r := E.translateExpr rhss.2 (rhs.headD (.ident ""))
            assignAll E lhs rhss.1 ((c0.withExt r.2).Printf ("Go$tuple = " ++ r.1 ++ ";"))
        | _ => .error (.panic "interface conversion: not *types.Tuple")
      else if lhs.length = rhs.length then
        let parts := tupleParts E e0 lhs rhs
        assignAll E lhs (tupleSlots 0 rhs.length)
          ((c0.withExt parts.2).Printf
            ("Go$tuple = [" ++ String.intercalate ", " parts.1 ++ "];"))
      else .error (.panic "Invalid arity of AssignStmt.")

/-- The loop of the `*ast.ReturnStmt` case that fills `values`: the results
from index `i` on, each converted to the `i`-th result type of the
signature. -/
def returnValues (E : Externals σ) (sig : List GoType) : σ → Nat → List Expr →
    Except Fatal (List String × σ)
  | e, _, [] => .ok ([], e)
  | e, i, result :: rest =>
    match sig.get? i with
    | none => .error (.panic "index out of range")
    | some ti =>
      let r := E.translateExprToType e result (some ti)
      match returnValues E sig r.2 (i + 1) rest with
      | .ok rs => .ok (r.1 :: rs.1, rs.2)
      | .error err => .error err

/-- The loop of the `*ast.DeferStmt` case that makes one fresh identifier per
argument of a deferred builtin call. -/
def deferArgs (E : Externals σ) : σ → List Expr → List Expr × σ
  | e, [] => ([], e)
  | e, arg :: rest =>
    let v := E.newVariable e "_arg"
    let e1 := E.setType v.2 (.ident v.1) (E.typeOf v.2 arg)
    let rs := deferArgs E e1 rest
    (Expr.ident v.1 :: rs.1, rs.2)

/-- The `*ast.DeferStmt` case of `translateStmt` (it makes no recursive
call). -/
def translateDeferStmt (E : Externals σ) (fn : Expr) (args : List Expr) (ellipsis : Bool)
    (c : PkgContext σ) : Except Fatal (PkgContext σ) :=
  let general : Except Fatal (PkgContext σ) :=
    match (E.typeOf c.ext fn).map GoType.Underlying with
    | some (.signature params results) =>
      let a := E.translateArgs c.ext (.signature params results) args ellipsis
      match fn with
      | .selector x sel =>
        let r := E.translateExpr a.2 x
        .ok ((c.withExt r.2).Printf
          ("Go$deferred.push(\x7b recv: " ++ r.1 ++ ", method: \"" ++ sel ++ "\", args: ["
            ++ a.1 ++ "] \x7d);"))
      | _ =>
        let r := E.translateExpr a.2 fn
        .ok ((c.withExt r.2).Printf
          ("Go$deferred.push(\x7b fun: " ++ r.1 ++ ", args: [" ++ a.1 ++ "] \x7d);"))
    | _ => .error (.panic "interface conversion: not *types.Signature")
  match fn with
  | .ident _ =>
    match E.objectOf c.ext fn with
    | some (.builtin name) =>
      if name == "recover" then
        .ok (c.Printf "Go$deferred.push(\x7b fun: Go$recover, args: [] \x7d);")
      else
        let ids := deferArgs E c.ext args
        let call := E.translateExpr ids.2 (.call fn ids.1 ellipsis)
        let params := E.translateExprSlice call.2 ids.1
        let values := E.translateExprSlice params.2 args
        .ok ((c.withExt values.2).Printf
          ("Go$deferred.push(\x7b fun: function(" ++ String.intercalate ", " params.1 ++ ") \x7b "
            ++ call.1 ++ "; \x7d, args: [" ++ String.intercalate ", " values.1 ++ "] \x7d);"))
    | _ => general
  | _ => general

/-- The head of the `*ast.TypeSwitchStmt` case: the asserted expression, the
name `typeSwitchVar` (empty without a binding) and the collaborator state after
the bindings of the clauses were recorded. -/
def typeSwitchHead (E : Externals σ) (assign : Stmt) (body : List Stmt) (e : σ) :
    Except Fatal (Option Expr × String × σ) :=
  match assign with
  | .assign lhs _ rhs =>
    match rhs with
    | .typeAssert x _ :: _ =>
      match lhs with
      | .ident name :: _ =>
        let v := E.newVariable e name
        .ok (some x, v.1, body.foldl (fun e1 cl => E.setObjectVar e1 (E.implicitOf e1 cl) v.1) v.2)
      | _ => .error (.panic "interface conversion: not *ast.Ident")
    | _ => .error (.panic "interface conversion: not *ast.TypeAssertExpr")
  | .exprStmt (.typeAssert x _) => .ok (some x, "", e)
  | .exprStmt _ => .error (.panic "interface conversion: not *ast.TypeAssertExpr")
  | _ => .ok (none, "", e)

/-- The closure `printCaseBodyPrefix` of the `*ast.TypeSwitchStmt` case. -/
def typeSwitchPrefix (E : Externals σ) (typeSwitchVar refVar : String)
    (conds : Option (List Expr)) (c : PkgContext σ) : Except Fatal (PkgContext σ) :=
  if typeSwitchVar == "" then .ok c
  else
    match conds with
    | some [cond] =>
      match E.typeOf c.ext cond with
      | none => .error (.panic "nil type")
      | some t =>
        let isInterface := match t.Underlying with
          | .interface => true
          | _ => false
        let isNil := match t with
          | .basic name => name == "untyped nil"
          | _ => false
        .ok (c.Printf (typeSwitchVar ++ " = "
          ++ (if !isInterface && !isNil then refVar ++ ".Go$val" else refVar) ++ ";"))
    | _ => .ok (c.Printf (typeSwitchVar ++ " = " ++ refVar ++ ";"))

/-- The lines printed by the specs of a declaration statement, through
`translateSpec`. -/
def translateSpecs (E : Externals σ) : List String → PkgContext σ → PkgContext σ
  | [], c => c
  | spec :: rest, c =>
    let r := E.translateSpec c.ext spec
    translateSpecs E rest (r.1.foldl (fun c1 text => c1.Printf text) (c.withExt r.2))

/-- The text `length` of the bound of a range loop over an array, a pointer
to an array, or a slice. -/
def rangeLength (refVar : String) : GoType → Except Fatal String
  | .array _ len => .ok (toString len)
  | .pointer (.array _ len) => .ok (toString len)
  | .pointer _ => .error (.panic "interface conversion: not *types.Array")
  | _ => .ok (refVar ++ ".length")

/-- The loop of the `*ast.RangeStmt` case for an array, a pointer to an array
or a slice; `t` is the underlying type of the ranged expression. -/
def translateRangeIndexed (E : Externals σ)
    (tr : Option Stmt → String → PkgContext σ → Except Fatal (PkgContext σ))
    (key value : Option Expr) (body : List Stmt) (label refVar iVar : String) (t : GoType)
    (c : PkgContext σ) : Except Fatal (PkgContext σ) :=
  match rangeLength refVar t with
  | .error e => .error e
  | .ok length =>
    let c1 := c.Printf (label ++ "for (; " ++ iVar ++ " < " ++ length ++ "; " ++ iVar ++ "++) \x7b")
    match c1.Indent (fun c2 =>
        let assigned : Except Fatal (PkgContext σ) :=
          match value with
          | none => .ok c2
          | some v =>
            if !isUnderscore v then
              let x := Expr.ident refVar
              let index := Expr.ident iVar
              let indexExpr := Expr.index x index
              let e1 := E.setType c2.ext x (some t)
              let e2 := E.setType e1 index (some (.basic "int"))
              let et := E.elemType t
              let e3 := E.setType e2 indexExpr (some et)
              let r := E.translateExprToType e3 indexExpr (some et)
              translateAssign E value r.1 (c2.withExt r.2)
            else .ok c2
        match assigned with
        | .error e => .error e
        | .ok c3 =>
          match translateAssign E key iVar c3 with
          | .error e => .error e
          | .ok c4 => translateStmtListWith tr body c4) with
    | .ok c5 => .ok (c5.Printf "\x7d")
    | .error e => .error e

/-- The three loop shapes of the `*ast.RangeStmt` case that have a body, run
after `refVar` and `iVar` were printed; `t` is the underlying type of the
ranged expression. -/
def translateRangeBody (E : Externals σ)
    (tr : Option Stmt → String → PkgContext σ → Except Fatal (PkgContext σ))
    (key value : Option Expr) (body : List Stmt) (label refVar iVar : String) (t : GoType)
    (c : PkgContext σ) : Except Fatal (PkgContext σ) :=
  match t with
  | .basic _ =>
    let runeVar := E.newVariable c.ext "_rune"
    let c1 := (c.withExt runeVar.2).Printf
      (label ++ "for (; " ++ iVar ++ " < " ++ refVar ++ ".length; " ++ iVar ++ " += "
        ++ runeVar.1 ++ "[1]) \x7b")
    match c1.Indent (fun c2 =>
        match translateAssign E value (runeVar.1 ++ "[0]")
            (c2.Printf (runeVar.1 ++ " = Go$decodeRune(" ++ refVar ++ ", " ++ iVar ++ ");")) with
        | .error e => .error e
        | .ok c3 =>
          match translateAssign E key iVar c3 with
          | .error e => .error e
          | .ok c4 => translateStmtListWith tr body c4) with
    | .ok c5 => .ok (c5.Printf "\x7d")
    | .error e => .error e
  | .map _ _ =>
    let keysVar := E.newVariable c.ext "_keys"
    let c1 := (c.withExt keysVar.2).Printf
      (keysVar.1 ++ " = " ++ refVar ++ " !== null ? Go$keys(" ++ refVar ++ ") : [];")
    let c2 := c1.Printf
      (label ++ "for (; " ++ iVar ++ " < " ++ keysVar.1 ++ ".length; " ++ iVar ++ "++) \x7b")
    match c2.Indent (fun c3 =>
        let entryVar := E.newVariable c3.ext "_entry"
        match translateAssign E value (entryVar.1 ++ ".v")
            ((c3.withExt entryVar.2).Printf
              (entryVar.1 ++ " = " ++ refVar ++ "[" ++ keysVar.1 ++ "[" ++ iVar ++ "]];")) with
        | .error e => .error e
        | .ok c4 =>
          match translateAssign E key (entryVar.1 ++ ".k") c4 with
          | .error e => .error e
          | .ok c5 => translateStmtListWith tr body c5) with
    | .ok c6 => .ok (c6.Printf "\x7d")
    | .error e => .error e
  | .array _ _ | .pointer _ | .slice _ =>
    translateRangeIndexed E tr key value body label refVar iVar t c
  | .chan _ => .ok (c.Printf "throw new Go$Panic(\"Channels not supported\");")
  | _ => .error (.panic "")

/-- The `*ast.ForStmt` case of `translateStmt`: `trInit` lowers the init
statement, `trBody` the statements of the body and the post statement (in
`translateStmt` both are `translateStmt` itself). -/
def translateForWith (E : Externals σ)
    (trInit trBody : Option Stmt → String → PkgContext σ → Except Fatal (PkgContext σ))
    (init : Option Stmt) (cond : Option Expr) (post : Option Stmt) (body : List Stmt)
    (label : String) (c : PkgContext σ) : Except Fatal (PkgContext σ) :=
  match trInit init "" c with
  | .error e => .error e
  | .ok c1 =>
    let condText : String × σ :=
      match cond with
      | none => ("true", c1.ext)
      | some x => E.translateExpr c1.ext x
    let p := lookupPost c1.postLoopStmt ""
    let c2 : PkgContext σ :=
      { c1 with ext := condText.2,
                postLoopStmt := setPost (setPost c1.postLoopStmt "" post) label post }
    match (c2.Printf (label ++ "while (" ++ condText.1 ++ ") \x7b")).Indent (fun c3 =>
        match translateStmtListWith trBody body c3 with
        | .error e => .error e
        | .ok c4 => trBody post "" c4) with
    | .error e => .error e
    | .ok c5 =>
      let c6 := c5.Printf "\x7d"
      .ok { c6 with postLoopStmt := setPost (deletePost c6.postLoopStmt label) "" p }

/-- The `*ast.RangeStmt` case of `translateStmt`, over a given lowering `tr` of
one statement. -/
def translateRangeWith (E : Externals σ)
    (tr : Option Stmt → String → PkgContext σ → Except Fatal (PkgContext σ))
    (key value : Option Expr) (x : Expr) (body : List Stmt) (label : String)
    (c : PkgContext σ) : Except Fatal (PkgContext σ) :=
  let p := lookupPost c.postLoopStmt ""
  let c0 : PkgContext σ := { c with postLoopStmt := deletePost c.postLoopStmt "" }
  let refVar := E.newVariable c0.ext "_ref"
  let xs := E.translateExpr refVar.2 x
  let c1 := (c0.withExt xs.2).Printf (refVar.1 ++ " = " ++ xs.1 ++ ";")
  let iVar := E.newVariable c1.ext "_i"
  let c2 := (c1.withExt iVar.2).Printf (iVar.1 ++ " = 0;")
  match E.typeOf c2.ext x with
  | none => .error (.panic "nil type")
  | some t =>
    match translateRangeBody E tr key value body label refVar.1 iVar.1
        t.Underlying c2 with
    | .error e => .error e
    | .ok c3 => .ok { c3 with postLoopStmt := setPost c3.postLoopStmt "" p }

/-- The body of the method `translateStmt`, with its recursive calls made
through `tr`; a `nil` statement is `none`. -/
def translateStmtVia (E : Externals σ)
    (tr : Option Stmt → String → PkgContext σ → Except Fatal (PkgContext σ))
    (stmt : Option Stmt) (label : String) (c : PkgContext σ) : Except Fatal (PkgContext σ) :=
    match stmt with
    | none => .ok c
    | some (.block list) =>
      match (c.Printf "\x7b").Indent (translateStmtListWith (tr) list) with
      | .ok c1 => .ok (c1.Printf "\x7d")
      | .error e => .error e
    | some (.ifStmt init cond body els) =>
      match tr init "" c with
      | .error e => .error e
      | .ok c1 =>
        match ifClauses cond body els with
        | .error e => .error e
        | .ok caseClauses =>
          translateBranchingStmtWith (tr) caseClauses false E.translateExpr
            none label c1
    | some (.switchStmt init tag body) =>
      match tr init "" c with
      | .error e => .error e
      | .ok c1 =>
        match tag with
        | none =>
          translateBranchingStmtWith (tr) body true E.translateExpr none label c1
        | some tagExpr =>
          let refVar := E.newVariable c1.ext "_ref"
          let t := E.translateExpr refVar.2 tagExpr
          translateBranchingStmtWith (tr) body true
            (fun e cond =>
              E.translateExpr (E.setType e (.ident refVar.1) (E.typeOf e tagExpr))
                (.binary (.ident refVar.1) Token.EQL cond))
            none label ((c1.withExt t.2).Printf (refVar.1 ++ " = " ++ t.1 ++ ";"))
    | some (.typeSwitchStmt init assign body) =>
      match tr init "" c with
      | .error e => .error e
      | .ok c1 =>
        match typeSwitchHead E assign body c1.ext with
        | .error e => .error e
        | .ok (expr, typeSwitchVar, e1) =>
          let refVar := E.newVariable e1 "_ref"
          let typeVar := E.newVariable refVar.2 "_type"
          match expr with
          | none => .error (.panic "nil expression")
          | some x =>
            let t := E.translateExpr typeVar.2 x
            let c2 := (c1.withExt t.2).Printf (refVar.1 ++ " = " ++ t.1 ++ ";")
            let c3 := c2.Printf
              (typeVar.1 ++ " = " ++ refVar.1 ++ " !== null ? " ++ refVar.1 ++ ".constructor : null;")
            translateBranchingStmtWith (tr) body true
              (fun e cond => E.typeCheck e typeVar.1 (E.typeOf e cond))
              (some (typeSwitchPrefix E typeSwitchVar refVar.1)) label c3
    | some (.forStmt init cond post body) =>
      translateForWith E tr tr init cond post body label c
    | some (.rangeStmt key value x body) =>
      translateRangeWith E tr key value x body label c
    | some (.branch tok branchLabel) =>
      let label1 : String :=
        match branchLabel with
        | none => ""
        | some name => " " ++ name
      let postLoopStmt : Option Stmt :=
        match branchLabel with
        | none => lookupPost c.postLoopStmt ""
        | some name => lookupPost c.postLoopStmt (name ++ ": ")
      match tok with
      | .BREAK => .ok (c.Printf ("break" ++ label1 ++ ";"))
      | .CONTINUE =>
        match tr postLoopStmt "" c with
        | .error e => .error e
        | .ok c1 => .ok (c1.Printf ("continue" ++ label1 ++ ";"))
      | .GOTO => .ok (c.Printf "throw new Go$Panic(\"Statement not supported: goto\");")
      | .FALLTHROUGH => .ok c
      | _ => .error (.panic "Unhandled branch statment")
    | some (.returnStmt results0) =>
      let assigned : Except Fatal (PkgContext σ) :=
        match c.resultNames with
        | none => .ok c
        | some names =>
          if results0.length ≠ 0 then
            tr (some (.assign names Token.ASSIGN results0)) label c
          else .ok c
      match assigned with
      | .error e => .error e
      | .ok c1 =>
        match (match c1.resultNames with
          | none => results0
          | some names => names) with
        | [] => .ok (c1.Printf "return;")
        | [result] =>
          if 1 < c1.functionSig.length then
            let r := E.translateExpr c1.ext result
            .ok ((c1.withExt r.2).Printf ("return " ++ r.1 ++ ";"))
          else
            match c1.functionSig.get? 0 with
            | none => .error (.panic "index out of range")
            | some t0 =>
              let r := E.translateExprToType c1.ext result (some t0)
              .ok ((c1.withExt r.2).Printf ("return " ++ r.1 ++ ";"))
        | results =>
          match returnValues E c1.functionSig c1.ext 0 results with
          | .error e => .error e
          | .ok values =>
            .ok ((c1.withExt values.2).Printf
              ("return [" ++ String.intercalate ", " values.1 ++ "];"))
    | some (.deferStmt fn args ellipsis) => translateDeferStmt E fn args ellipsis c
    | some (.exprStmt x) =>
      let r := E.translateExpr c.ext x
      .ok ((c.withExt r.2).Printf (r.1 ++ ";"))
    | some (.declStmt genDecl specs) =>
      if genDecl then .ok (translateSpecs E specs c)
      else .error (.panic "interface conversion: not *ast.GenDecl")
    | some (.labeled name stmt1) => tr stmt1 (name ++ ": ") c
    | some (.assign lhs tok rhs) => translateAssignStmt E lhs tok rhs c
    | some (.incDec x tok) =>
      let t : Except Fatal (Option GoType) :=
        match x with
        | .index x1 _ =>
          match E.typeOf c.ext x1 with
          | none => .error (.panic "nil type")
          | some tx =>
            match tx.Underlying with
            | .array elem _ => .ok (some elem)
            | .slice elem => .ok (some elem)
            | .map _ elem => .ok (some elem)
            | _ => .ok (E.typeOf c.ext x)
        | _ => .ok (E.typeOf c.ext x)
      match t with
      | .error e => .error e
      | .ok t =>
        let one := Expr.basicLit "INT" "1"
        let e1 := E.setValue (E.setType c.ext one t) one 1
        tr
          (some (.assign [x] (if tok = Token.DEC then Token.SUB_ASSIGN else Token.ADD_ASSIGN) [one]))
          label (c.withExt e1)
    | some (.selectStmt _) =>
      .ok (c.Printf "throw new Go$Panic(\"Statement not supported: select\");")
    | some (.goStmt _) => .ok (c.Printf "throw new Go$Panic(\"Statement not supported: go\");")
    | some (.send _ _) => .ok (c.Printf "throw new Go$Panic(\"Statement not supported: send\");")
    | some .empty => .ok c
    | some _ => .error (.panic "Unhandled statement")

/-- The method `translateStmt`.  `fuel` bounds the depth of the recursive
calls. -/
def translateStmt (E : Externals σ) : Nat → Option Stmt → String → PkgContext σ →
    Except Fatal (PkgContext σ)
  | 0, _, _, _ => .error .fuel
  | fuel + 1, stmt, label, c => translateStmtVia E (translateStmt E fuel) stmt label c

/-- The method `translateStmtList`. -/
def translateStmtList (E : Externals σ) (fuel : Nat) (stmts : List Stmt) (c : PkgContext σ) :
    Except Fatal (PkgContext σ) :=
  translateStmtListWith (translateStmt E fuel) stmts c

/-- The method `translateBranchingStmt`. -/
def translateBranchingStmt (E : Externals σ) (fuel : Nat) (caseClauses : List Stmt)
    (isSwitch : Bool) (translateCond : σ → Expr → String × σ)
    (printCaseBodyPrefix : Option (Option (List Expr) → PkgContext σ → Except Fatal (PkgContext σ)))
    (label : String) (c : PkgContext σ) : Except Fatal (PkgContext σ) :=
  translateBranchingStmtWith (translateStmt E fuel) caseClauses isSwitch translateCond
    printCaseBodyPrefix label c

/-! ## Definitions used to state the properties -/

/-- The body of a case clause. -/
def clauseBody : Stmt → List Stmt
  | .caseClause _ body => body
  | _ => []

/-- After the spec's words: the concatenation, in source order, of the bodies
of the clauses `j, j+1, .., k`. -/
def bodiesBetween (caseClauses : List Stmt) (j k : Nat) : List Stmt :=
  ((List.range (k + 1 - j)).map (fun d => clauseBody (caseClauses.getD (j + d) .empty))).flatten

/-- The group of the first clause of a list, by recursion on the list. -/
def groupFrom : List Stmt → List Stmt
  | [] => []
  | child :: rest => clauseBody child ++ (if hasFallthrough child then groupFrom rest else [])

/-- Every element of the list is a `*ast.CaseClause`. -/
def allClauses (caseClauses : List Stmt) : Prop :=
  ∀ s ∈ caseClauses, ∃ list body, s = Stmt.caseClause list body

/-- A switch of three clauses
`case a: f(); case b: g(); fallthrough; case c: h()`. -/
def sampleFallthroughClauses : List Stmt :=
  [ .caseClause (some [.ident "a"]) [.exprStmt (.call (.ident "f") [] false)],
    .caseClause (some [.ident "b"])
      [.exprStmt (.call (.ident "g") [] false), .branch Token.FALLTHROUGH none],
    .caseClause (some [.ident "c"]) [.exprStmt (.call (.ident "h") [] false)] ]

/-! ## A sample instance of the collaborators -/

/-- The text of a binary operator. -/
def Token.text : Token → String
  | .ADD => "+" | .SUB => "-" | .MUL => "*" | .QUO => "/" | .REM => "%"
  | .AND => "&" | .OR => "|" | .XOR => "^" | .SHL => "<<" | .SHR => ">>"
  | .AND_NOT => "&^" | .EQL => "===" | .LAND => "&&"
  | _ => "?"

mutual
/-- A sample expression lowering: the expression printed operand by operand. -/
def render : Expr → String
  | .ident name => name
  | .basicLit _ value => value
  | .paren x => "(" ++ render x ++ ")"
  | .selector x sel => render x ++ "." ++ sel
  | .star x => render x ++ ".Go$get()"
  | .index x index => render x ++ "[" ++ render index ++ "]"
  | .binary x op y => render x ++ " " ++ op.text ++ " " ++ render y
  | .call fn args _ => render fn ++ "(" ++ renderArgs args ++ ")"
  | .typeAssert x _ => render x
  | .funcLit name => name
  | .other kind args => kind ++ "(" ++ renderArgs args ++ ")"
/-- The arguments of a call, separated by commas. -/
def renderArgs : List Expr → String
  | [] => ""
  | [x] => render x
  | x :: y :: rest => render x ++ ", " ++ renderArgs (y :: rest)
end

/-- A sample semantic model: the types of the expressions used in the
examples. -/
def sampleTypes : Expr → Option GoType
  | .ident "a" => some (.basic "int")
  | .ident "b" => some (.basic "int")
  | .ident "i" => some (.basic "int")
  | .ident "xs" => some (.slice (.basic "int"))
  | .ident "m" => some (.map (.basic "string") (.basic "int"))
  | .ident "text" => some (.basic "string")
  | .index (.ident "xs") _ => some (.basic "int")
  | .selector (.ident "p") "pos" =>
    some (.named "Point" (.struct [("x", .basic "int"), ("y", .basic "int")]))
  | .star (.ident "q") =>
    some (.named "Point" (.struct [("x", .basic "int"), ("y", .basic "int")]))
  | .star (.ident "r") => some (.array (.basic "int") 4)
  | .call (.ident "f") _ _ => some (.basic "int")
  | _ => none

/-- A sample instance of the collaborators: expressions are lowered by
`render`, types are read from `sampleTypes`, and the name allocator numbers its
names with a counter, which is the whole collaborator state. -/
def sampleExternals : Externals Nat where
  typeOf := fun _ e => sampleTypes e
  setType := fun n _ _ => n
  setValue := fun n _ _ => n
  objectOf := fun _ e =>
    match e with
    | .ident "recover" => some (.builtin "recover")
    | .ident name => some (.var name (.basic "int"))
    | _ => none
  implicitOf := fun _ _ => none
  setObjectVar := fun n _ _ => n
  translateExpr := fun n e => (render e, n)
  translateExprToType := fun n e _ => (render e, n)
  translateExprSlice := fun n es => (es.map render, n)
  translateArgs := fun n _ es _ => (renderArgs es, n)
  typeCheck := fun n v _ => (v ++ " === T", n)
  objectName := fun n o =>
    match o with
    | some (.var name _) => (name, n)
    | some (.builtin name) => (name, n)
    | none => ("", n)
  newVariable := fun n name => (name ++ toString n, n + 1)
  translateSpec := fun n spec => ([spec ++ ";"], n)
  hasId := fun _ => false
  elemType := fun t =>
    match t with
    | .array elem _ => elem
    | .slice elem => elem
    | .pointer (.array elem _) => elem
    | _ => t

/-- An empty emission context for the sample collaborators. -/
def sampleContext : PkgContext Nat where
  ext := 0
  output := []
  indentation := 0
  postLoopStmt := []
  resultNames := none
  functionSig := []

/-- The texts of the lines a lowering run printed, or `none` when it failed. -/
def outputTexts (r : Except Fatal (PkgContext σ)) : Option (List String) :=
  match r with
  | .ok c => some (c.output.map Line.text)
  | .error _ => none

/-- The condition `Go$index < 0 || Go$index >= Go$obj.length` of the emitted
guard line, read on the values of the index and of the length. -/
def indexOutOfRange (index length : Int) : Bool :=
  decide (index < 0) || decide (index ≥ length)

/-- The guard line printed before a store into a slice. -/
def sliceGuardLine : String :=
  "if (Go$index < 0 || Go$index >= Go$obj.length) \x7b Go$throwRuntimeError(\"index out of range\"); \x7d"

/-- The field writes `l.f = r.f;` for the fields of a struct type, in
declaration order, at one indentation. -/
def fieldWrites (indent : Nat) (l r : String) (fields : List (String × GoType)) : List Line :=
  fields.map (fun f => ⟨indent, l ++ "." ++ f.1 ++ " = " ++ r ++ "." ++ f.1 ++ ";"⟩)

/-- The eleven compound assignment operators, each with its binary
operator. -/
def compoundOperators : List (Token × Token) :=
  [ (.ADD_ASSIGN, .ADD), (.SUB_ASSIGN, .SUB), (.MUL_ASSIGN, .MUL), (.QUO_ASSIGN, .QUO),
    (.REM_ASSIGN, .REM), (.AND_ASSIGN, .AND), (.OR_ASSIGN, .OR), (.XOR_ASSIGN, .XOR),
    (.SHL_ASSIGN, .SHL), (.SHR_ASSIGN, .SHR), (.AND_NOT_ASSIGN, .AND_NOT) ]

/-- The collaborator state in which a compound assignment lowers its binary
expression: the types of the two synthetic nodes have been recorded. -/
def compoundExt (E : Externals σ) (e : σ) (lhs0 rhs0 : Expr) (op : Token) : σ :=
  E.setType (E.setType e (.paren rhs0) (E.typeOf e rhs0)) (.binary lhs0 op (.paren rhs0))
    (E.typeOf (E.setType e (.paren rhs0) (E.typeOf e rhs0)) lhs0)

/-- The shapes of the lines that an N-to-N assignment to plain variables
prints: the batch `Go$tuple = [v0, .., vk];` of variable reads, and the write
`name = Go$tuple[slot];`. -/
inductive TupleLine
  | setTuple (reads : List String)
  | setVar (name : String) (slot : Nat)

/-- The text of a line of that shape. -/
def TupleLine.text : TupleLine → String
  | .setTuple reads => "Go$tuple = [" ++ String.intercalate ", " reads ++ "];"
  | .setVar name slot => name ++ " = Go$tuple[" ++ toString slot ++ "];"

/-- The effect of a line of that shape on the variables and on the register
`Go$tuple`. -/
def TupleLine.run (s : (String → Int) × List Int) : TupleLine → (String → Int) × List Int
  | .setTuple reads => (s.1, reads.map s.1)
  | .setVar name slot => (fun v => if v = name then s.2.getD slot 0 else s.1 v, s.2)

/-- The variables `a = 1`, `b = 2`, every other variable `0`. -/
def sampleVars : String → Int :=
  fun v => if v = "a" then 1 else if v = "b" then 2 else 0

/-- The context `c1` continues `c`: same indentation, result bindings and
signature, and the output of `c` extended at its end. -/
def Frame (c c1 : PkgContext σ) : Prop :=
  c1.indentation = c.indentation ∧ c.output <+: c1.output ∧
    c1.resultNames = c.resultNames ∧ c1.functionSig = c.functionSig

/-- A lowering step keeps the frame: whenever it succeeds, its result
continues its argument. -/
def Framed (f : PkgContext σ → Except Fatal (PkgContext σ)) : Prop :=
  ∀ c c1, f c = .ok c1 → Frame c c1

/-- The statement `switch { default: break }`. -/
def sampleDefaultOnlySwitch : Stmt :=
  .switchStmt none none [.caseClause none [.branch Token.BREAK none]]

/-- The clauses that have conditions, each with its conditions and its body
group, in source order; the argument pairs every clause with its group. -/
def condBranches : List (Stmt × List Stmt) → List (List Expr × List Stmt)
  | [] => []
  | (.caseClause list _, group) :: rest =>
    if (list.getD []).length = 0 then condBranches rest
    else (list.getD [], group) :: condBranches rest
  | _ :: rest => condBranches rest

/-- The body groups of the clauses without conditions, in source order. -/
def defaultGroups : List (Stmt × List Stmt) → List (List Stmt)
  | [] => []
  | (.caseClause list _, group) :: rest =>
    if (list.getD []).length = 0 then group :: defaultGroups rest else defaultGroups rest
  | _ :: rest => defaultGroups rest

/-- The lowering of one branch body: the optional body prefix, then the
statements of the group. -/
def lowerBranchBody (tr : Option Stmt → String → PkgContext σ → Except Fatal (PkgContext σ))
    (printCaseBodyPrefix : Option (Option (List Expr) → PkgContext σ → Except Fatal (PkgContext σ)))
    (conds : Option (List Expr)) (group : List Stmt) (c : PkgContext σ) :
    Except Fatal (PkgContext σ) :=
  match callPrefix printCaseBodyPrefix conds c with
  | .ok c1 => translateStmtListWith tr group c1
  | .error e => .error e

/-- After the claim's words: the conditional branches in order as one chain,
the first opened by `head ++ "if (C) {"` and each later one by
`} else if (C) {`, where `C` is the lowered conditions of the branch joined by
` || `; every branch body is printed one level deeper. -/
def emitChain (tr : Option Stmt → String → PkgContext σ → Except Fatal (PkgContext σ))
    (translateCond : σ → Expr → String × σ)
    (printCaseBodyPrefix : Option (Option (List Expr) → PkgContext σ → Except Fatal (PkgContext σ))) :
    List (List Expr × List Stmt) → String → PkgContext σ → Except Fatal (PkgContext σ)
  | [], _, c => .ok c
  | (conds, group) :: rest, head, c =>
    match ((c.withExt (translateConds translateCond c.ext conds).2).Printf
        (head ++ "if (" ++ String.intercalate " || " (translateConds translateCond c.ext conds).1
          ++ ") \x7b")).Indent
        (lowerBranchBody tr printCaseBodyPrefix (some conds) group) with
    | .ok c1 => emitChain tr translateCond printCaseBodyPrefix rest "\x7d else " c1
    | .error e => .error e

/-- After the claim's words: the chain of the conditional branches, then, if
`elseGroup` is given, the branch `} else {` holding that group, then the
closing brace. -/
def emitChainWithElse (tr : Option Stmt → String → PkgContext σ → Except Fatal (PkgContext σ))
    (translateCond : σ → Expr → String × σ)
    (printCaseBodyPrefix : Option (Option (List Expr) → PkgContext σ → Except Fatal (PkgContext σ)))
    (branches : List (List Expr × List Stmt)) (elseGroup : Option (List Stmt))
    (c : PkgContext σ) : Except Fatal (PkgContext σ) :=
  match emitChain tr translateCond printCaseBodyPrefix branches "" c with
  | .error e => .error e
  | .ok c1 =>
    match elseGroup with
    | none => .ok (c1.Printf "\x7d")
    | some group =>
      match (c1.Printf "\x7d else \x7b").Indent
          (lowerBranchBody tr printCaseBodyPrefix none group) with
      | .ok c2 => .ok (c2.Printf "\x7d")
      | .error e => .error e

/-- The branch body that an `if` / `else if` / `else` chain runs: that of the
first branch whose condition holds, else the `else` body if there is one. -/
def chainRuns {β : Type} : List (Bool × β) → Option β → Option β
  | [], elseBody => elseBody
  | (true, body) :: _, _ => some body
  | (false, _) :: rest, elseBody => chainRuns rest elseBody

/-- The clause has no conditions (`len(caseClause.List) == 0`): the `default`
clause of a switch, the `else` of an `if` chain. -/
def unconditional : Stmt → Bool
  | .caseClause list _ => (list.getD []).length == 0
  | _ => false

/-- The chain `if a || b { f() } else if i { g() } else { h() }` as
clauses. -/
def sampleChainClauses : List Stmt :=
  [ .caseClause (some [.ident "a", .ident "b"]) [.exprStmt (.call (.ident "f") [] false)],
    .caseClause none [.exprStmt (.call (.ident "h") [] false)],
    .caseClause (some [.ident "i"]) [.exprStmt (.call (.ident "g") [] false)] ]

/-- The fresh variable `refVar` of a range statement lowered from the
collaborator state `e`, with the state after its allocation. -/
def rangeRef (E : Externals σ) (e : σ) : String × σ :=
  E.newVariable e "_ref"

/-- The lowered ranged expression of a range statement. -/
def rangeExpr (E : Externals σ) (e : σ) (x : Expr) : String × σ :=
  E.translateExpr (rangeRef E e).2 x

/-- The fresh counter `iVar` of a range statement. -/
def rangeCounter (E : Externals σ) (e : σ) (x : Expr) : String × σ :=
  E.newVariable (rangeExpr E e x).2 "_i"

/-- The fresh variable `keysVar` of a range statement over a map. -/
def rangeKeys (E : Externals σ) (e : σ) (x : Expr) : String × σ :=
  E.newVariable (rangeCounter E e x).2 "_keys"

/-- The fresh variable `entryVar` of a range statement over a map. -/
def rangeEntry (E : Externals σ) (e : σ) (x : Expr) : String × σ :=
  E.newVariable (rangeKeys E e x).2 "_entry"

/-- The statement `for k, v := range m { m[k] = v }`. -/
def sampleMapRange : Stmt :=
  .rangeStmt (some (.ident "a")) (some (.ident "b")) (.ident "m")
    [.assign [.index (.ident "m") (.ident "a")] Token.ASSIGN [.ident "b"]]

/-- The snapshot `ref !== null ? Go$keys(ref) : []` of the emitted code, read
on a map given as its entries, `none` being the null map. -/
def keySnapshot (m : Option (List (String × Int))) : List String :=
  match m with
  | none => []
  | some entries => entries.map Prod.fst

/-- The number of positions of `text` at which `needle` starts. -/
def occurrencesIn (needle : List Char) : List Char → Nat
  | [] => 0
  | ch :: rest =>
    (if needle.isPrefixOf (ch :: rest) then 1 else 0) + occurrencesIn needle rest

/-- The number of times the text `needle` occurs in the lines of an output. -/
def occurrences (needle : String) (lines : List String) : Nat :=
  (lines.map (fun line => occurrencesIn needle.data line.data)).sum

/-- The statement `xs[f()] += 1`, `xs` a slice. -/
def sampleIndexedCompound : Stmt :=
  .assign [.index (.ident "xs") (.call (.ident "f") [] false)] Token.ADD_ASSIGN
    [.basicLit "INT" "1"]

/-- The statement `xs[f()] = 1`, `xs` a slice. -/
def sampleIndexedPlain : Stmt :=
  .assign [.index (.ident "xs") (.call (.ident "f") [] false)] Token.ASSIGN
    [.basicLit "INT" "1"]

/-- The statement `m[f()] += 1`, `m` a map. -/
def sampleMapCompound : Stmt :=
  .assign [.index (.ident "m") (.call (.ident "f") [] false)] Token.ADD_ASSIGN
    [.basicLit "INT" "1"]

/-- The assignment `(_) = f()`. -/
def sampleBlankParen : Stmt :=
  .assign [.paren (.ident "_")] Token.ASSIGN [.call (.ident "f") [] false]

/-- The simple statements of Go (`SimpleStmt`), the only ones its grammar
admits as the init and post statement of a `for`: none, assignment, increment
or decrement, expression, send, empty. -/
def isSimple : Option Stmt → Bool
  | none => true
  | some (.assign _ _ _) => true
  | some (.incDec _ _) => true
  | some (.exprStmt _) => true
  | some (.send _ _) => true
  | some .empty => true
  | _ => false

mutual

/-- Well-formedness of the loops of a statement that is lowered with the label
`label` while the label keys `bound` are those of the enclosing labeled `for`
loops: every post statement is a simple statement and no `for` loop carries a
label that is already bound.  Go's grammar and its rule that the labels of a
function are distinct make every parsed statement well scoped. -/
def wellScoped (bound : List String) (label : String) : Stmt → Bool
  | .block list => wellScopedList bound list
  | .ifStmt init _ body els =>
    wellScopedOpt bound "" init && wellScopedList bound body && wellScopedOpt bound "" els
  | .caseClause _ body => wellScopedList bound body
  | .switchStmt init _ body => wellScopedOpt bound "" init && wellScopedList bound body
  | .typeSwitchStmt init _ body => wellScopedOpt bound "" init && wellScopedList bound body
  | .forStmt init _ post body =>
    wellScopedOpt bound "" init && isSimple post && (label == "" || !bound.contains label)
      && wellScopedList (label :: bound) body
  | .rangeStmt _ _ _ body => wellScopedList bound body
  | .labeled name stmt => wellScopedOpt bound (name ++ ": ") stmt
  | _ => true

/-- Well-formedness of the statements of a list, each lowered without label. -/
def wellScopedList (bound : List String) : List Stmt → Bool
  | [] => true
  | stmt :: rest => wellScoped bound "" stmt && wellScopedList bound rest

/-- Well-formedness of a statement that may be `nil`. -/
def wellScopedOpt (bound : List String) (label : String) : Option Stmt → Bool
  | none => true
  | some stmt => wellScoped bound label stmt
end

/-- The lexical loop environment `env` with the key `k` bound to `v`. -/
def envSet (env : String → Option Stmt) (k : String) (v : Option Stmt) : String → Option Stmt :=
  fun k1 => if k1 = k then v else env k1

/-- After the claim's words: the lowering of statements in which a `continue`
emits the lowering of the post statement of the loop it targets, followed by
`continue;` or `continue L;`.  The targeted loop is found lexically: `env` maps
the empty key to the post statement of the nearest enclosing `for` loop (to
`nil` inside a nearer range loop) and the key of a label to the post statement
of the enclosing `for` loop with that label.  Every other statement is lowered
as by `translateStmt`. -/
def lexStmt (E : Externals σ) : (String → Option Stmt) → Nat → Option Stmt → String →
    PkgContext σ → Except Fatal (PkgContext σ)
  | _, 0, _, _, _ => .error .fuel
  | env, fuel + 1, stmt, label, c =>
    match stmt with
    | some (.branch Token.CONTINUE none) =>
      match translateStmt E fuel (env "") "" c with
      | .error e => .error e
      | .ok c1 => .ok (c1.Printf "continue;")
    | some (.branch Token.CONTINUE (some name)) =>
      match translateStmt E fuel (env (name ++ ": ")) "" c with
      | .error e => .error e
      | .ok c1 => .ok (c1.Printf ("continue " ++ name ++ ";"))
    | some (.forStmt init cond post body) =>
      translateForWith E (lexStmt E env fuel)
        (lexStmt E (envSet (envSet env "" post) label post) fuel) init cond post body label c
    | some (.rangeStmt key value x body) =>
      translateRangeWith E (lexStmt E (envSet env "" none) fuel) key value x body label c
    | _ => translateStmtVia E (lexStmt E env fuel) stmt label c

/-- The lexical environment `env` fits the bound label keys: a key that is
neither empty nor bound maps to `nil`, and every post statement is simple. -/
def EnvOK (bound : List String) (env : String → Option Stmt) : Prop :=
  (∀ k, k ≠ "" → k ∉ bound → env k = none) ∧ ∀ k, isSimple (env k) = true

/-- The loop context table of `c` holds the lexical environment `env`. -/
def TableIs (env : String → Option Stmt) (c : PkgContext σ) : Prop :=
  ∀ k, lookupPost c.postLoopStmt k = env k

/-- Two lowering steps agree on every context whose table holds `env`, and
leave such a table in place. -/
def Step (env : String → Option Stmt) (f g : PkgContext σ → Except Fatal (PkgContext σ)) : Prop :=
  ∀ c, TableIs env c → f c = g c ∧ ∀ c1, f c = .ok c1 → TableIs env c1

/-- Two lowerings of one statement agree, in the sense of `Step`, on the
statements of a list lowered without label. -/
def AgreeOn (env : String → Option Stmt)
    (tr1 tr2 : Option Stmt → String → PkgContext σ → Except Fatal (PkgContext σ))
    (stmts : List Stmt) : Prop :=
  ∀ s ∈ stmts, Step env (tr1 (some s) "") (tr2 (some s) "")

/-- The context `c1` has the loop context table of `c`. -/
def SameTable (c c1 : PkgContext σ) : Prop :=
  c1.postLoopStmt = c.postLoopStmt

/-- A lowering step that leaves the loop context table as it found it. -/
def KeepsTable (f : PkgContext σ → Except Fatal (PkgContext σ)) : Prop :=
  ∀ c c1, f c = .ok c1 → SameTable c c1

/-- The statement
`L: for i = 0; i == n; i++ { if a { continue }; for ; ; j++ { if b { continue L }; continue };
for range xs { continue }; f() }`. -/
def sampleContinueLoop : Stmt :=
  .labeled "L" (some (.forStmt (some (.assign [.ident "i"] Token.ASSIGN [.basicLit "INT" "0"]))
    (some (.binary (.ident "i") Token.EQL (.ident "n")))
    (some (.incDec (.ident "i") Token.INC))
    [ .ifStmt none (.ident "a") [.branch Token.CONTINUE none] none,
      .forStmt none none (some (.incDec (.ident "j") Token.INC))
        [ .ifStmt none (.ident "b") [.branch Token.CONTINUE (some "L")] none,
          .branch Token.CONTINUE none ],
      .rangeStmt none none (.ident "xs") [.branch Token.CONTINUE none],
      .exprStmt (.call (.ident "f") [] false) ]))

/-- The integer literal `1` that the `*ast.IncDecStmt` case builds. -/
def literalOne : Expr := .basicLit "INT" "1"

/-- After the claim's words: the static type given to the literal operand of
the compound assignment that `x++` or `x--` stands for: the element type of the
container when `x` is an index expression into an array, slice or map, else the
type of `x`. -/
def incDecOperandType (E : Externals σ) (e : σ) (x : Expr) : Option GoType :=
  match x with
  | .index x1 _ =>
    match (E.typeOf e x1).map GoType.Underlying with
    | some (.array elem _) => some elem
    | some (.slice elem) => some elem
    | some (.map _ elem) => some elem
    | _ => E.typeOf e x
  | _ => E.typeOf e x

/-- The collaborator state in which the compound assignment is lowered: the
literal has the type `incDecOperandType` and the constant value 1. -/
def incDecExt (E : Externals σ) (e : σ) (x : Expr) : σ :=
  E.setValue (E.setType e literalOne (incDecOperandType E e x)) literalOne 1

/-- After the claim's words: the storage writes of an assignment, in order:
each target that is not the blank identifier `_` (parentheses set aside), with
the text that is written to it. -/
def storageWrites (lhs : List Expr) (rhss : List String) : List (Expr × String) :=
  (lhs.zip rhss).filter (fun p => !isUnderscore (stripParens p.1))

/-- After the claim's words: the write `f` puts the text handed to it into
the output exactly once: from `c` it prints fixed lines `before`, then one line
`pre ++ rhs ++ post`, then fixed lines `after`, none of which depends on the
text `rhs`. -/
def PrintsOnce (f : String → PkgContext σ → Except Fatal (PkgContext σ)) (c : PkgContext σ) :
    Prop :=
  ∃ (e : σ) (before after : List Line) (pre post : String), ∀ rhs : String,
    f rhs c = .ok { c with ext := e,
                           output := c.output ++
                             (before ++ [⟨c.indentation, pre ++ rhs ++ post⟩] ++ after) }

/-- The assignment `_, a = b, f()`. -/
def sampleBlankTuple : Stmt :=
  .assign [.ident "_", .ident "a"] Token.ASSIGN [.ident "b", .call (.ident "f") [] false]

/-- The emission context of a function `func f() (x int)` with one named
result. -/
def sampleNamedResult : PkgContext Nat :=
  { sampleContext with resultNames := some [.ident "x"], functionSig := [.basic "int"] }

/-- The emission context of a function `func f() (a, b int)` with two named
results. -/
def sampleNamedResults : PkgContext Nat :=
  { sampleContext with resultNames := some [.ident "a", .ident "b"],
                       functionSig := [.basic "int", .basic "int"] }

/-- A sample instance of the collaborators for type switches: as
`sampleExternals`, with the type `int` known to the semantic model. -/
def sampleTypeSwitchExternals : Externals Nat :=
  { sampleExternals with
    typeOf := fun _ e =>
      match e with
      | .ident "int" => some (.basic "int")
      | _ => none }

/-- The type switch `switch x := v.(type) { default: g(x) }`, whose only clause
is the default clause. -/
def sampleDefaultOnlyTypeSwitch : Stmt :=
  .typeSwitchStmt none (.assign [.ident "x"] Token.DEFINE [.typeAssert (.ident "v") none])
    [.caseClause none [.exprStmt (.call (.ident "g") [.ident "x"] false)]]

/-- The type switch `switch x := v.(type) { case int: g(x); default: g(x) }`. -/
def sampleTypeSwitch : Stmt :=
  .typeSwitchStmt none (.assign [.ident "x"] Token.DEFINE [.typeAssert (.ident "v") none])
    [ .caseClause (some [.ident "int"]) [.exprStmt (.call (.ident "g") [.ident "x"] false)],
      .caseClause none [.exprStmt (.call (.ident "g") [.ident "x"] false)] ]

/-- The labeled loop `M: for ; ; j++ { continue M }`. -/
def sampleInnerLoop : Stmt :=
  .labeled "M" (some (.forStmt none none (some (.incDec (.ident "j") Token.INC))
    [.branch Token.CONTINUE (some "M")]))

/-- The loop `for ; ; i++ { M: for ; ; j++ { continue M }; for range xs { }; continue }`. -/
def sampleNestedLoops : Stmt :=
  .forStmt none none (some (.incDec (.ident "i") Token.INC))
    [ sampleInnerLoop,
      .rangeStmt none none (.ident "xs") [],
      .branch Token.CONTINUE none ]

/-- An emission context inside the body of a loop `for ; ; i++`: the table
binds the unlabeled key to `i++`. -/
def sampleLoopContext : PkgContext Nat :=
  { sampleContext with postLoopStmt := [("", some (.incDec (.ident "i") Token.INC))] }

/-- The fresh variable `runeVar` of a range statement over a string. -/
def rangeRune (E : Externals σ) (e : σ) (x : Expr) : String × σ :=
  E.newVariable (rangeCounter E e x).2 "_rune"

/-- The statement `for a, b = range text { f() }`, `text` a string. -/
def sampleStringRange : Stmt :=
  .rangeStmt (some (.ident "a")) (some (.ident "b")) (.ident "text")
    [.exprStmt (.call (.ident "f") [] false)]

/-- The width that `Go$decodeRune(ref, pos)` yields, read on a string given as
the byte widths of its code points: the width of the code point that starts at
the byte offset `pos`, and 1 at any other offset. -/
def decodeWidth : List Nat → Nat → Nat
  | [], _ => 1
  | w :: rest, pos =>
    if pos = 0 then w else if pos < w then 1 else decodeWidth rest (pos - w)

/-- After the claim's words: the starting byte offsets `start, start + w1,
start + w1 + w2, ..` of code points of the widths `w1, w2, ..`. -/
def startOffsets : Nat → List Nat → List Nat
  | _, [] => []
  | start, w :: rest => start :: startOffsets (start + w) rest

/-- A sample instance of the collaborators in which every expression has a
channel type. -/
def sampleChanExternals : Externals Nat :=
  { sampleExternals with typeOf := fun _ _ => some (.chan (.basic "int")) }

/-- After the claim's words: the line that raises the fatal failure with the
fixed message `message`. -/
def unsupportedLine (message : String) : String :=
  "throw new Go$Panic(\"" ++ message ++ "\");"

/-- After the claim's words: the deferred-call records: the recover marker, a
bound receiver with a method name and the lowered arguments, or a callee value
with the lowered arguments. -/
inductive DeferRecord
  | recover
  | method (recv : String) (name : String) (args : String)
  | call (callee : String) (args : String)
  deriving DecidableEq, Repr

/-- The registration line of a deferred-call record. -/
def DeferRecord.text : DeferRecord → String
  | .recover => "Go$deferred.push(\x7b fun: Go$recover, args: [] \x7d);"
  | .method recv name args =>
    "Go$deferred.push(\x7b recv: " ++ recv ++ ", method: \"" ++ name ++ "\", args: [" ++ args
      ++ "] \x7d);"
  | .call callee args =>
    "Go$deferred.push(\x7b fun: " ++ callee ++ ", args: [" ++ args ++ "] \x7d);"

/-- The name of the builtin that the callee of a call is bound to, if the
callee is an identifier bound to a builtin. -/
def calleeBuiltin (E : Externals σ) (e : σ) (fn : Expr) : Option String :=
  match fn with
  | .ident _ =>
    match E.objectOf e fn with
    | some (.builtin name) => some name
    | _ => none
  | _ => none

/-- After the claim's words: the record that a defer statement registers, with
the collaborator state after the lowering of its parts: the recover marker when
the callee is an identifier bound to the builtin `recover`; for a selector
callee the receiver, the method name and the arguments; in every other case the
callee and the arguments (for another builtin the callee is a function that
makes the call).  The arguments are lowered here, at the defer statement. -/
def deferRecord (E : Externals σ) (e : σ) (fn : Expr) (args : List Expr) (ellipsis : Bool) :
    Except Fatal (DeferRecord × σ) :=
  match calleeBuiltin E e fn with
  | some name =>
    if name == "recover" then .ok (.recover, e)
    else
      let ids := deferArgs E e args
      let call := E.translateExpr ids.2 (.call fn ids.1 ellipsis)
      let params := E.translateExprSlice call.2 ids.1
      let values := E.translateExprSlice params.2 args
      .ok (.call ("function(" ++ String.intercalate ", " params.1 ++ ") \x7b " ++ call.1 ++ "; \x7d")
        (String.intercalate ", " values.1), values.2)
  | none =>
    match (E.typeOf e fn).map GoType.Underlying with
    | some (.signature params results) =>
      let a := E.translateArgs e (.signature params results) args ellipsis
      match fn with
      | .selector x sel => .ok (.method (E.translateExpr a.2 x).1 sel a.1, (E.translateExpr a.2 x).2)
      | _ => .ok (.call (E.translateExpr a.2 fn).1 a.1, (E.translateExpr a.2 fn).2)
    | _ => .error (.panic "interface conversion: not *types.Signature")

/-- The records of a list of defer statements, given by callee, arguments and
ellipsis, in source order. -/
def deferRecords (E : Externals σ) : σ → List (Expr × List Expr × Bool) →
    Except Fatal (List DeferRecord × σ)
  | e, [] => .ok ([], e)
  | e, d :: rest =>
    match deferRecord E e d.1 d.2.1 d.2.2 with
    | .error err => .error err
    | .ok r =>
      match deferRecords E r.2 rest with
      | .error err => .error err
      | .ok rs => .ok (r.1 :: rs.1, rs.2)

/-- The statements `defer recover(); defer p.close(a); defer f(b)`. -/
def sampleDefers : List (Expr × List Expr × Bool) :=
  [ (.ident "recover", [], false),
    (.selector (.ident "p") "close", [.ident "a"], false),
    (.ident "f", [.ident "b"], false) ]

/-- A sample instance of the collaborators in which every callee has a function
type. -/
def sampleFuncExternals : Externals Nat :=
  { sampleExternals with typeOf := fun _ _ => some (.signature [] []) }

mutual

/-- After the claim's words: the statement contains a `break` without a label
that does not lie inside a `for`, range, switch, type switch or select statement
of the tree, nor inside a function literal (where every statement below an
expression lies). -/
def hasFreeBreak : Stmt → Bool
  | .branch tok label => tok == Token.BREAK && label.isNone
  | .block list => hasFreeBreakList list
  | .ifStmt init _ body els =>
    hasFreeBreakOpt init || hasFreeBreakList body || hasFreeBreakOpt els
  | .caseClause _ body => hasFreeBreakList body
  | .labeled _ stmt => hasFreeBreakOpt stmt
  | _ => false

/-- One of the statements of the list contains such a `break`. -/
def hasFreeBreakList : List Stmt → Bool
  | [] => false
  | stmt :: rest => hasFreeBreak stmt || hasFreeBreakList rest

/-- The statement, if there is one, contains such a `break`. -/
def hasFreeBreakOpt : Option Stmt → Bool
  | none => false
  | some stmt => hasFreeBreak stmt
end

/-- The clause body `if a { break }; L: for { break }; continue`. -/
def sampleBreakBody : List Stmt :=
  [ .ifStmt none (.ident "a") [.branch Token.BREAK none] none,
    .labeled "L" (some (.forStmt none none none [.branch Token.BREAK none])),
    .branch Token.CONTINUE none ]

/-- The statement `if a { f() } else if x := g(); x == b { h(x) }`. -/
def sampleElseIfInit : Stmt :=
  .ifStmt none (.ident "a") [.exprStmt (.call (.ident "f") [] false)]
    (some (.ifStmt (some (.assign [.ident "x"] Token.DEFINE [.call (.ident "g") [] false]))
      (.binary (.ident "x") Token.EQL (.ident "b"))
      [.exprStmt (.call (.ident "h") [.ident "x"] false)] none))

/-- The statement `if x := g(); x == b { h(x) }`. -/
def sampleIfInit : Stmt :=
  .ifStmt (some (.assign [.ident "x"] Token.DEFINE [.call (.ident "g") [] false]))
    (.binary (.ident "x") Token.EQL (.ident "b"))
    [.exprStmt (.call (.ident "h") [.ident "x"] false)] none

/-- After the claim's words: the shapes of the lines that the lowering of a
range statement over a map prints itself. -/
inductive MapRangeLine
  | setRef (ref value : String)
  | setCounter (counter : String)
  | setKeys (keys ref : String)
  | header (label counter keys : String)
  | readEntry (entry ref keys counter : String)
  | close
  deriving DecidableEq

/-- The text of a line of that shape. -/
def MapRangeLine.text : MapRangeLine → String
  | .setRef ref value => ref ++ " = " ++ value ++ ";"
  | .setCounter counter => counter ++ " = 0;"
  | .setKeys keys ref => keys ++ " = " ++ ref ++ " !== null ? Go$keys(" ++ ref ++ ") : [];"
  | .header label counter keys =>
    label ++ "for (; " ++ counter ++ " < " ++ keys ++ ".length; " ++ counter ++ "++) \x7b"
  | .readEntry entry ref keys counter =>
    entry ++ " = " ++ ref ++ "[" ++ keys ++ "[" ++ counter ++ "]];"
  | .close => "\x7d"

/-- The variable that a line of that shape assigns: the loop header assigns
the counter, by its increment. -/
def MapRangeLine.assigns : MapRangeLine → Option String
  | .setRef ref _ => some ref
  | .setCounter counter => some counter
  | .setKeys keys _ => some keys
  | .header _ counter _ => some counter
  | .readEntry entry _ _ _ => some entry
  | .close => none

/-- After the claim's words: the context in which the writes of the value and
key targets of a range statement over a map are lowered: `ref`, the counter, the key snapshot and the
loop header were printed at the indentation of the statement, and the entry
read one level deeper. -/
def mapRangeStart (E : Externals σ) (x : Expr) (label : String) (c : PkgContext σ) :
    PkgContext σ :=
  { c with
    ext := (rangeEntry E c.ext x).2,
    output := c.output ++
      [ ⟨c.indentation,
          (MapRangeLine.setRef (rangeRef E c.ext).1 (rangeExpr E c.ext x).1).text⟩,
        ⟨c.indentation, (MapRangeLine.setCounter (rangeCounter E c.ext x).1).text⟩,
        ⟨c.indentation,
          (MapRangeLine.setKeys (rangeKeys E c.ext x).1 (rangeRef E c.ext).1).text⟩,
        ⟨c.indentation,
          (MapRangeLine.header label (rangeCounter E c.ext x).1 (rangeKeys E c.ext x).1).text⟩,
        ⟨c.indentation + 1,
          (MapRangeLine.readEntry (rangeEntry E c.ext x).1 (rangeRef E c.ext).1
            (rangeKeys E c.ext x).1 (rangeCounter E c.ext x).1).text⟩ ],
    indentation := c.indentation + 1,
    postLoopStmt := deletePost c.postLoopStmt "" }

/-- After the claim's words: the context in which a range statement that
started in `c` returns, `c6` being the context after the last statement of the
loop body: the closing brace
is printed at the indentation of the statement. -/
def rangeEnd (c c6 : PkgContext σ) : PkgContext σ :=
  { c6 with
    output := c6.output ++ [⟨c.indentation, "\x7d"⟩],
    indentation := c.indentation,
    postLoopStmt := setPost c6.postLoopStmt "" (lookupPost c.postLoopStmt "") }

/-- The store of the emitted code with the variable `v` set to `a`. -/
def assignVar {α : Type} (s : String → α) (v : String) (a : α) : String → α :=
  fun w => if w = v then a else s w

/-- The values that the variables of the loop emitted for a range over a map
hold: a number, a map given as its entries (`none` being the null map), a list
of keys, an entry of the map named by its key. -/
inductive MapVal
  | undefined
  | number (n : Nat)
  | map (entries : Option (List (String × Int)))
  | keys (ks : List String)
  | entry (k : String)
  deriving DecidableEq

/-- The effect of a line of that shape on the variables, `m` being the map
that the ranged expression evaluates to; for the loop header it is the effect
of its increment `counter++`. -/
def MapRangeLine.run (m : Option (List (String × Int))) (s : String → MapVal) :
    MapRangeLine → (String → MapVal)
  | .setRef ref _ => assignVar s ref (.map m)
  | .setCounter counter => assignVar s counter (.number 0)
  | .setKeys keys ref =>
    assignVar s keys
      (match s ref with
        | .map m1 => .keys (keySnapshot m1)
        | _ => .undefined)
  | .header _ counter _ =>
    assignVar s counter
      (match s counter with
        | .number i => .number (i + 1)
        | _ => .undefined)
  | .readEntry entry _ keys counter =>
    assignVar s entry
      (match s keys, s counter with
        | .keys ks, .number i =>
          match ks.get? i with
          | some k => .entry k
          | none => .undefined
        | _, _ => .undefined)
  | .close => s

/-- The condition `counter < keys.length` of the loop header, read on the
variables. -/
def MapRangeLine.test (s : String → MapVal) : MapRangeLine → Bool
  | .header _ counter keys =>
    match s counter, s keys with
    | .number i, .keys ks => decide (i < ks.length)
    | _, _ => false
  | _ => true

/-- The emitted loop `header \x7b read; rest \x7d` run on the variables `s`:
while the condition of the header holds, the line `read`, then the rest of the
loop body (the writes of the value and key targets and the lowered statements,
with the effect `rest` on the variables), then the increment of the header.
The result lists the variables with which the rest of the body started, one per
iteration.  `fuel` bounds the number of iterations. -/
def runMapRange (m : Option (List (String × Int))) (header read : MapRangeLine)
    (rest : (String → MapVal) → (String → MapVal)) : Nat → (String → MapVal) →
    List (String → MapVal)
  | 0, _ => []
  | fuel + 1, s =>
    if header.test s then
      read.run m s :: runMapRange m header read rest fuel (header.run m (rest (read.run m s)))
    else []

/-- The line is an assignment statement to the variable `v`: it starts with
`v = `. -/
def assignsText (v : String) (line : String) : Bool :=
  (v ++ " = ").data.isPrefixOf line.data

/-- The effect of the loop body `m[a] = b` of the sample on the variables when
it inserts the key `c`: the map held by `_ref0` gets the entry `c`. -/
def sampleInsert (s : String → MapVal) : String → MapVal :=
  assignVar s "_ref0"
    (match s "_ref0" with
      | .map (some entries) => .map (some (entries ++ [("c", 3)]))
      | v => v)

/-- After the claim's words: the shapes of the lines that the lowering of a
range statement over a string prints itself. -/
inductive StringRangeLine
  | setRef (ref value : String)
  | setCounter (counter : String)
  | header (label counter ref rune : String)
  | decode (rune ref counter : String)
  | close
  deriving DecidableEq

/-- The text of a line of that shape. -/
def StringRangeLine.text : StringRangeLine → String
  | .setRef ref value => ref ++ " = " ++ value ++ ";"
  | .setCounter counter => counter ++ " = 0;"
  | .header label counter ref rune =>
    label ++ "for (; " ++ counter ++ " < " ++ ref ++ ".length; " ++ counter ++ " += "
      ++ rune ++ "[1]) \x7b"
  | .decode rune ref counter => rune ++ " = Go$decodeRune(" ++ ref ++ ", " ++ counter ++ ");"
  | .close => "\x7d"

/-- The values that the variables of the loop emitted for a range over a
string hold: a number, a string given as the byte widths of its code points,
and the pair that `Go$decodeRune` yields, the code point named by the byte
offset at which it starts, with its width. -/
inductive RuneVal
  | undefined
  | number (n : Nat)
  | text (widths : List Nat)
  | rune (start width : Nat)
  deriving DecidableEq

/-- The effect of a line of that shape on the variables, `widths` being the
string that the ranged expression evaluates to; for the loop header it is the
effect of its step `counter += rune[1]`. -/
def StringRangeLine.run (widths : List Nat) (s : String → RuneVal) :
    StringRangeLine → (String → RuneVal)
  | .setRef ref _ => assignVar s ref (.text widths)
  | .setCounter counter => assignVar s counter (.number 0)
  | .header _ counter _ rune =>
    assignVar s counter
      (match s counter, s rune with
        | .number i, .rune _ w => .number (i + w)
        | _, _ => .undefined)
  | .decode rune ref counter =>
    assignVar s rune
      (match s ref, s counter with
        | .text ws, .number i => .rune i (decodeWidth ws i)
        | _, _ => .undefined)
  | .close => s

/-- The condition `counter < ref.length` of the loop header, read on the
variables. -/
def StringRangeLine.test (s : String → RuneVal) : StringRangeLine → Bool
  | .header _ counter ref _ =>
    match s counter, s ref with
    | .number i, .text ws => decide (i < ws.sum)
    | _, _ => false
  | _ => true

/-- The emitted loop `header \x7b decode; rest \x7d` run on the variables `s`:
while the condition of the header holds, the line `decode`, then the rest of
the loop body (the writes of the value and key targets and the lowered
statements, with the effect `rest` on the variables), then the step of the
header.  The result lists the variables with which the rest of the body
started, one per iteration.  `fuel` bounds the number of iterations. -/
def runStringRange (widths : List Nat) (header decode : StringRangeLine)
    (rest : (String → RuneVal) → (String → RuneVal)) : Nat → (String → RuneVal) →
    List (String → RuneVal)
  | 0, _ => []
  | fuel + 1, s =>
    if header.test s then
      decode.run widths s ::
        runStringRange widths header decode rest fuel
          (header.run widths (rest (decode.run widths s)))
    else []

/-- After the claim's words: the context in which the writes of the value and
key targets of a range statement over a string are lowered: `ref`, the counter and the loop header
were printed at the indentation of the statement, and the decoding one level
deeper. -/
def stringRangeStart (E : Externals σ) (x : Expr) (label : String) (c : PkgContext σ) :
    PkgContext σ :=
  { c with
    ext := (rangeRune E c.ext x).2,
    output := c.output ++
      [ ⟨c.indentation,
          (StringRangeLine.setRef (rangeRef E c.ext).1 (rangeExpr E c.ext x).1).text⟩,
        ⟨c.indentation, (StringRangeLine.setCounter (rangeCounter E c.ext x).1).text⟩,
        ⟨c.indentation,
          (StringRangeLine.header label (rangeCounter E c.ext x).1 (rangeRef E c.ext).1
            (rangeRune E c.ext x).1).text⟩,
        ⟨c.indentation + 1,
          (StringRangeLine.decode (rangeRune E c.ext x).1 (rangeRef E c.ext).1
            (rangeCounter E c.ext x).1).text⟩ ],
    indentation := c.indentation + 1,
    postLoopStmt := deletePost c.postLoopStmt "" }

/-! ## Theorems -/

theorem appendAt_length (cs : List (List Stmt)) (j : Nat) (b : List Stmt) :
    (appendAt cs j b).length = cs.length := by
  simp [appendAt]

theorem appendAt_getD (cs : List (List Stmt)) (j k : Nat) (b : List Stmt) (hj : j < cs.length) :
    (appendAt cs j b).getD k [] = if k = j then cs.getD k [] ++ b else cs.getD k [] := by
  simp only [appendAt, List.getD_eq_getElem?_getD, List.getElem?_set]
  by_cases h : j = k
  · subst h; simp [hj]
  · have h' : ¬ k = j := fun e => h e.symm
    simp [h, h']

theorem foldl_appendAt (b : List Stmt) (os : List Nat) :
    ∀ cs : List (List Stmt), os.Nodup → (∀ j ∈ os, j < cs.length) →
      (os.foldl (fun cs j => appendAt cs j b) cs).length = cs.length ∧
      ∀ k, (os.foldl (fun cs j => appendAt cs j b) cs).getD k [] =
        if k ∈ os then cs.getD k [] ++ b else cs.getD k [] := by
  induction os with
  | nil => intro cs _ _; simp
  | cons o os ih =>
    intro cs hnd hlt
    have hnd' := List.nodup_cons.mp hnd
    have ho : o < cs.length := hlt o (List.mem_cons_self _ _)
    have ih' := ih (appendAt cs o b) hnd'.2 (by
      intro j hj
      rw [appendAt_length]
      exact hlt j (List.mem_cons_of_mem _ hj))
    simp only [List.foldl_cons]
    refine ⟨by rw [ih'.1, appendAt_length], ?_⟩
    intro k
    rw [ih'.2 k, appendAt_getD cs o k b ho]
    by_cases hk : k = o
    · subst hk
      simp [hnd'.1]
    · simp [hk]

theorem clauseStmtsLoop_spec : ∀ (rest : List Stmt) (i : Nat) (cs : List (List Stmt))
    (os : List Nat), allClauses rest → cs.length = i + rest.length → os.Nodup →
    (∀ j ∈ os, j < i) →
    ∃ res, clauseStmtsLoop rest i cs os = .ok res ∧ res.length = cs.length ∧
      ∀ j, res.getD j [] = cs.getD j [] ++
        (if j ∈ os then groupFrom rest
         else if i ≤ j then groupFrom (rest.drop (j - i)) else []) := by
  intro rest
  induction rest with
  | nil =>
    intro i cs os _ _ _ _
    refine ⟨cs, rfl, rfl, ?_⟩
    intro j
    simp [groupFrom]
  | cons child rest ih =>
    intro i cs os hall hlen hnd hlt
    obtain ⟨list, body, rfl⟩ := hall child (List.mem_cons_self _ _)
    have hall' : allClauses rest := fun s hs => hall s (List.mem_cons_of_mem _ hs)
    have hnd1 : (os ++ [i]).Nodup := by
      rw [List.nodup_append]
      refine ⟨hnd, List.nodup_singleton _, ?_⟩
      intro a ha hb
      simp at hb
      have := hlt a ha
      omega
    have hlt1 : ∀ j ∈ os ++ [i], j < cs.length := by
      intro j hj
      simp at hj
      rcases hj with hj | hj
      · have := hlt j hj
        simp at hlen
        omega
      · simp at hlen; omega
    obtain ⟨hfl, hfg⟩ := foldl_appendAt body (os ++ [i]) cs hnd1 hlt1
    simp only [clauseStmtsLoop]
    by_cases hft : hasFallthrough (Stmt.caseClause list body) = true
    · have hlt2 : ∀ j ∈ os ++ [i], j < i + 1 := by
        intro j hj
        simp at hj
        rcases hj with hj | hj
        · have := hlt j hj; omega
        · omega
      obtain ⟨res, hres, hrl, hrg⟩ := ih (i + 1) _ (os ++ [i]) hall'
        (by rw [hfl, hlen]; simp; omega) hnd1 hlt2
      refine ⟨res, by simpa [hft] using hres, by rw [hrl, hfl], ?_⟩
      intro j
      rw [hrg j, hfg j]
      by_cases h1 : j ∈ os
      · have : j ∈ os ++ [i] := by simp [h1]
        simp [this, h1, groupFrom, clauseBody, hft]
      · by_cases h2 : j = i
        · subst h2
          simp [h1, groupFrom, clauseBody, hft]
        · have h3 : j ∉ os ++ [i] := by simp [h1, h2]
          simp only [h3, h1, if_false]
          by_cases h4 : i ≤ j
          · have h5 : i + 1 ≤ j := by omega
            have h6 : j - i = (j - (i + 1)) + 1 := by omega
            simp [h4, h5, h6]
          · have h5 : ¬ i + 1 ≤ j := by omega
            simp [h4, h5]
    · obtain ⟨res, hres, hrl, hrg⟩ := ih (i + 1) _ [] hall'
        (by rw [hfl, hlen]; simp; omega) List.nodup_nil (by simp)
      refine ⟨res, by simpa [hft] using hres, by rw [hrl, hfl], ?_⟩
      intro j
      rw [hrg j, hfg j]
      by_cases h1 : j ∈ os
      · have : j ∈ os ++ [i] := by simp [h1]
        have h5 : ¬ i + 1 ≤ j := by have := hlt j h1; omega
        simp [this, h1, groupFrom, clauseBody, hft, h5]
      · by_cases h2 : j = i
        · subst h2
          simp [h1, groupFrom, clauseBody, hft]
        · have h3 : j ∉ os ++ [i] := by simp [h1, h2]
          simp only [h3, h1, if_false]
          by_cases h4 : i ≤ j
          · have h5 : i + 1 ≤ j := by omega
            have h6 : j - i = (j - (i + 1)) + 1 := by omega
            simp [h4, h5, h6]
          · have h5 : ¬ i + 1 ≤ j := by omega
            simp [h4, h5]

theorem bodiesBetween_self (cls : List Stmt) (j : Nat) :
    bodiesBetween cls j j = clauseBody (cls.getD j .empty) := by
  simp [bodiesBetween, List.range_succ]

theorem bodiesBetween_succ (cls : List Stmt) (j k : Nat) (h : j < k) :
    bodiesBetween cls j k = clauseBody (cls.getD j .empty) ++ bodiesBetween cls (j + 1) k := by
  unfold bodiesBetween
  have h1 : k + 1 - j = (k + 1 - (j + 1)) + 1 := by omega
  rw [h1, List.range_succ_eq_map]
  simp only [List.map_cons, List.flatten_cons, List.map_map, Nat.add_zero]
  congr 2
  apply List.map_congr_left
  intro d _
  simp only [Function.comp]
  congr 2
  omega

theorem groupFrom_drop (cls : List Stmt) : ∀ (n j k : Nat), k = j + n → k < cls.length →
    (∀ m, j ≤ m → m < k → hasFallthrough (cls.getD m .empty) = true) →
    (hasFallthrough (cls.getD k .empty) = false ∨ k + 1 = cls.length) →
    groupFrom (cls.drop j) = bodiesBetween cls j k := by
  intro n
  induction n with
  | zero =>
    intro j k hk hlt _ hstop
    simp at hk
    subst hk
    rw [List.drop_eq_getElem_cons hlt, bodiesBetween_self]
    have hg : cls.getD k .empty = cls[k] := by
      simp [List.getD_eq_getElem?_getD, List.getElem?_eq_getElem hlt]
    rw [hg] at hstop ⊢
    simp only [groupFrom]
    rcases hstop with h | h
    · simp [h]
    · have : cls.drop (k + 1) = [] := by
        apply List.drop_eq_nil_of_le; omega
      simp [this, groupFrom]
  | succ n ih =>
    intro j k hk hlt hall hstop
    have hj : j < cls.length := by omega
    have hjk : j < k := by omega
    rw [List.drop_eq_getElem_cons hj, bodiesBetween_succ cls j k hjk]
    have hg : cls.getD j .empty = cls[j] := by
      simp [List.getD_eq_getElem?_getD, List.getElem?_eq_getElem hj]
    have hft := hall j (Nat.le_refl _) hjk
    rw [hg] at hft ⊢
    simp only [groupFrom, hft, if_true]
    rw [ih (j + 1) k (by omega) hlt (fun m h1 h2 => hall m (by omega) h2) hstop]

theorem stop_exists (cls : List Stmt) : ∀ (n j : Nat), cls.length = j + n + 1 →
    ∃ k, j ≤ k ∧ k < cls.length ∧
      (∀ m, j ≤ m → m < k → hasFallthrough (cls.getD m .empty) = true) ∧
      (hasFallthrough (cls.getD k .empty) = false ∨ k + 1 = cls.length) := by
  intro n
  induction n with
  | zero =>
    intro j h
    exact ⟨j, Nat.le_refl _, by omega, fun m h1 h2 => by omega, Or.inr (by omega)⟩
  | succ n ih =>
    intro j h
    by_cases hft : hasFallthrough (cls.getD j .empty) = true
    · obtain ⟨k, h1, h2, h3, h4⟩ := ih (j + 1) (by omega)
      refine ⟨k, by omega, h2, ?_, h4⟩
      intro m hm1 hm2
      by_cases hm : m = j
      · subst hm; exact hft
      · exact h3 m (by omega) hm2
    · exact ⟨j, Nat.le_refl _, by omega, fun m h1 h2 => by omega, Or.inl (by simpa using hft)⟩

/-- C1: the slice `clauseStmts` computed by `translateBranchingStmt` holds, at
every clause index `j`, the concatenation in source order of the bodies of the
clauses `j, .., k`, where `k` is the smallest index from `j` on whose clause
does not end in `fallthrough`, or the last index when there is none; such a
`k` exists for every `j`.  So a clause that does not end in `fallthrough` gets
exactly its own body, and in a three clause switch where only one clause ends
in `fallthrough` that clause gets its body followed by the next body while the
next clause gets its own body only.  For a clause list that is not a single
unconditional clause these groups are the bodies that `printBody` lowers. -/
theorem clauseStmts_fallthrough_groups (caseClauses : List Stmt)
    (hcl : allClauses caseClauses) :
    ∃ groups, clauseStmts caseClauses = .ok groups ∧
      groups.length = caseClauses.length ∧
      (∀ j, j < caseClauses.length → ∃ k, j ≤ k ∧ k < caseClauses.length ∧
        (∀ m, j ≤ m → m < k → hasFallthrough (caseClauses.getD m .empty) = true) ∧
        (hasFallthrough (caseClauses.getD k .empty) = false ∨ k + 1 = caseClauses.length)) ∧
      (∀ j k, j ≤ k → k < caseClauses.length →
        (∀ m, j ≤ m → m < k → hasFallthrough (caseClauses.getD m .empty) = true) →
        (hasFallthrough (caseClauses.getD k .empty) = false ∨ k + 1 = caseClauses.length) →
        groups.getD j [] = bodiesBetween caseClauses j k) ∧
      (∀ j, j < caseClauses.length → hasFallthrough (caseClauses.getD j .empty) = false →
        groups.getD j [] = clauseBody (caseClauses.getD j .empty)) ∧
      (∀ l0 l1 l2 b0 b1 b2,
        caseClauses = [.caseClause l0 b0, .caseClause l1 b1, .caseClause l2 b2] →
        hasFallthrough (.caseClause l0 b0) = false →
        hasFallthrough (.caseClause l1 b1) = true →
        hasFallthrough (.caseClause l2 b2) = false →
        groups = [b0, b1 ++ b2, b2]) ∧
      (∀ l0 l1 l2 b0 b1 b2,
        caseClauses = [.caseClause l0 b0, .caseClause l1 b1, .caseClause l2 b2] →
        hasFallthrough (.caseClause l0 b0) = true →
        hasFallthrough (.caseClause l1 b1) = false →
        hasFallthrough (.caseClause l2 b2) = false →
        groups = [b0 ++ b1, b1, b2]) ∧
      (∀ {σ : Type} (tr : Option Stmt → String → PkgContext σ → Except Fatal (PkgContext σ))
        (translateCond : σ → Expr → String × σ)
        (printCaseBodyPrefix :
          Option (Option (List Expr) → PkgContext σ → Except Fatal (PkgContext σ)))
        (label : String) (c : PkgContext σ),
        caseClauses ≠ [] → (∀ body, caseClauses ≠ [.caseClause none body]) →
        translateBranchingStmtWith tr caseClauses false translateCond printCaseBodyPrefix label c
          = printBody tr translateCond printCaseBodyPrefix caseClauses groups c) := by
  obtain ⟨groups, hg, hlen, hget⟩ :=
    clauseStmtsLoop_spec caseClauses 0 (List.replicate caseClauses.length []) [] hcl
      (by simp) List.nodup_nil (by simp)
  have hget' : ∀ j, groups.getD j [] = groupFrom (caseClauses.drop j) := by
    intro j
    rw [hget j]
    simp [List.getD_eq_getElem?_getD, List.getElem?_replicate]
    split <;> rfl
  have hgrp : ∀ j k, j ≤ k → k < caseClauses.length →
      (∀ m, j ≤ m → m < k → hasFallthrough (caseClauses.getD m .empty) = true) →
      (hasFallthrough (caseClauses.getD k .empty) = false ∨ k + 1 = caseClauses.length) →
      groups.getD j [] = bodiesBetween caseClauses j k := by
    intro j k hjk hk hall hstop
    rw [hget' j]
    exact groupFrom_drop caseClauses (k - j) j k (by omega) hk hall hstop
  have h3 : ∀ (g : List (List Stmt)) (x y z : List Stmt), g.length = 3 →
      g.getD 0 [] = x → g.getD 1 [] = y → g.getD 2 [] = z → g = [x, y, z] := by
    intro g x y z hl h0 h1 h2
    match g, hl with
    | [a, b, d], _ =>
      simp at h0 h1 h2
      rw [h0, h1, h2]
  refine ⟨groups, hg, by simpa using hlen, ?_, hgrp, ?_, ?_, ?_, ?_⟩
  · intro j hj
    exact stop_exists caseClauses (caseClauses.length - j - 1) j (by omega)
  · intro j hj hft
    rw [hgrp j j (Nat.le_refl _) hj (fun m h1 h2 => by omega) (Or.inl hft), bodiesBetween_self]
  · intro l0 l1 l2 b0 b1 b2 hc h0 h1 h2
    subst hc
    apply h3 groups _ _ _ (by simpa using hlen)
    · rw [hget' 0]; simp [groupFrom, clauseBody, h0]
    · rw [hget' 1]; simp [groupFrom, clauseBody, h1, h2]
    · rw [hget' 2]; simp [groupFrom, clauseBody, h2]
  · intro l0 l1 l2 b0 b1 b2 hc h0 h1 h2
    subst hc
    apply h3 groups _ _ _ (by simpa using hlen)
    · rw [hget' 0]; simp [groupFrom, clauseBody, h0, h1]
    · rw [hget' 1]; simp [groupFrom, clauseBody, h1]
    · rw [hget' 2]; simp [groupFrom, clauseBody, h2]
  · intro σ tr translateCond printCaseBodyPrefix label c hne hsingle
    unfold clauseStmts at *
    match caseClauses, hne, hsingle, hg with
    | [.caseClause none body], _, hs, _ => exact absurd rfl (hs body)
    | [.caseClause (some l) body], _, _, hg =>
      simp only [translateBranchingStmtWith, translateBranchingGeneral, clauseStmts]
      rw [hg]; rfl
    | a :: b :: rest, _, _, hg =>
      simp only [translateBranchingStmtWith, translateBranchingGeneral, clauseStmts]
      rw [hg]; rfl
    | [.block _], _, _, hg => simp [clauseStmtsLoop] at hg
    | [.ifStmt _ _ _ _], _, _, hg => simp [clauseStmtsLoop] at hg

/-- The hypothesis of `clauseStmts_fallthrough_groups` holds for the switch
`case a: f(); case b: g(); fallthrough; case c: h()`, whose groups are the body
of the first clause, the bodies of the second and third, and the body of the
third. -/
theorem clauseStmts_fallthrough_groups_witness :
    allClauses sampleFallthroughClauses ∧
    clauseStmts sampleFallthroughClauses = .ok
      [ [.exprStmt (.call (.ident "f") [] false)],
        [.exprStmt (.call (.ident "g") [] false), .branch Token.FALLTHROUGH none,
          .exprStmt (.call (.ident "h") [] false)],
        [.exprStmt (.call (.ident "h") [] false)] ] :=
  have h : allClauses sampleFallthroughClauses := by
    simp [allClauses, sampleFallthroughClauses]
  ⟨h, by
    obtain ⟨groups, hg, _, _, _, _, h3, _⟩ :=
      clauseStmts_fallthrough_groups sampleFallthroughClauses h
    rw [hg, h3 _ _ _ _ _ _ rfl rfl rfl rfl]
    rfl⟩

theorem printf_output (c : PkgContext σ) (text : String) :
    (c.Printf text).output = c.output ++ [⟨c.indentation, text⟩] := rfl

/-- C7: a write whose target is an index expression into a slice prints
exactly four lines: the slice loaded into `Go$obj`, the index loaded into
`Go$index`, the guard that raises `index out of range` when `Go$index < 0` or
`Go$index >= Go$obj.length`, and the store through `Go$obj.array` at
`Go$obj.offset + Go$index`.  The guard lets pass exactly the indices with
`0 <= index < length`; index 3 at length 3 raises. -/
theorem translateAssign_slice_index (E : Externals σ) (lhs x idx : Expr) (rhs : String)
    (c : PkgContext σ) (t elem : GoType)
    (hl : stripParens lhs = .index x idx) (ht : E.typeOf c.ext x = some t)
    (hu : t.Underlying = .slice elem) :
    ∃ c1, translateAssign E (some lhs) rhs c = .ok c1 ∧
      c1.output = c.output ++
        [ ⟨c.indentation, "Go$obj = " ++ (E.translateExpr c.ext x).1 ++ ";"⟩,
          ⟨c.indentation,
            "Go$index = " ++ (E.translateExpr (E.translateExpr c.ext x).2 idx).1 ++ ";"⟩,
          ⟨c.indentation, sliceGuardLine⟩,
          ⟨c.indentation, "Go$obj.array[Go$obj.offset + Go$index] = " ++ rhs ++ ";"⟩ ] ∧
      (∀ index length : Int,
        indexOutOfRange index length = false ↔ 0 ≤ index ∧ index < length) ∧
      indexOutOfRange 3 3 = true := by
  have h : translateAssign E (some lhs) rhs c = .ok
      ((((((c.withExt (E.translateExpr c.ext x).2).Printf
          ("Go$obj = " ++ (E.translateExpr c.ext x).1 ++ ";")).withExt
          (E.translateExpr (E.translateExpr c.ext x).2 idx).2).Printf
          ("Go$index = " ++ (E.translateExpr (E.translateExpr c.ext x).2 idx).1 ++ ";")).Printf
          sliceGuardLine).Printf ("Go$obj.array[Go$obj.offset + Go$index] = " ++ rhs ++ ";")) := by
    simp only [translateAssign, Option.map_some', hl, isUnderscore, ht, hu]
    rfl
  refine ⟨_, h, ?_, ?_, by decide⟩
  · simp [PkgContext.Printf, PkgContext.withExt]
  · intro index length
    simp [indexOutOfRange]

theorem translateAssign_slice_index_witness :
    stripParens (.paren (.index (.ident "xs") (.ident "i"))) = .index (.ident "xs") (.ident "i") ∧
    sampleExternals.typeOf sampleContext.ext (.ident "xs") = some (.slice (.basic "int")) ∧
    outputTexts (translateAssign sampleExternals
      (some (.paren (.index (.ident "xs") (.ident "i")))) "v" sampleContext) =
      some ["Go$obj = xs;", "Go$index = i;", sliceGuardLine,
        "Go$obj.array[Go$obj.offset + Go$index] = v;"] :=
  ⟨rfl, rfl, by
    obtain ⟨c1, h1, h2, _⟩ := translateAssign_slice_index sampleExternals
      (.paren (.index (.ident "xs") (.ident "i"))) (.ident "xs") (.ident "i") "v" sampleContext
      (.slice (.basic "int")) (.basic "int") rfl rfl rfl
    rw [h1]
    simp only [outputTexts, h2]
    decide⟩

theorem printFields_output (l r : String) (fields : List (String × GoType)) :
    ∀ c : PkgContext σ, (printFields c l r fields).output =
      c.output ++ fieldWrites c.indentation l r fields := by
  induction fields with
  | nil => intro c; simp [printFields, fieldWrites]
  | cons f fs ih =>
    intro c
    simp only [printFields, ih, fieldWrites, List.map_cons]
    simp [PkgContext.Printf]

/-- C8: a write to a selector expression of struct type prints the store of
the right-hand text into the temporary `Go$obj` and then one field write
`target.f = Go$obj.f;` per field of the struct type, in declaration order, and
nothing else; a write through a pointer dereference of struct type prints the
pointer into a fresh `l`, the right-hand text into a fresh `r`, and then one
field write `l.f = r.f;` per field; a write through a pointer dereference of a
fixed array of length `N` prints the same two temporaries and one loop that
copies the elements at the indices below `N`. -/
theorem translateAssign_struct_copy (E : Externals σ) (lhs : Expr) (rhs : String)
    (c : PkgContext σ) (t : GoType) (ht : E.typeOf c.ext (stripParens lhs) = some t) :
    (∀ x sel fields, stripParens lhs = .selector x sel → t.Underlying = .struct fields →
      ∃ c1, translateAssign E (some lhs) rhs c = .ok c1 ∧
        c1.output = c.output ++ ⟨c.indentation, "Go$obj = " ++ rhs ++ ";"⟩ ::
          fieldWrites c.indentation (E.translateExpr c.ext (.selector x sel)).1 "Go$obj" fields ∧
        (fieldWrites c.indentation (E.translateExpr c.ext (.selector x sel)).1 "Go$obj"
          fields).length = fields.length) ∧
    (∀ x fields, stripParens lhs = .star x → t.Underlying = .struct fields →
      ∃ c1, translateAssign E (some lhs) rhs c = .ok c1 ∧
        c1.output = c.output ++
          ⟨c.indentation, (E.newVariable c.ext "l").1 ++ " = " ++
            (E.translateExpr (E.newVariable (E.newVariable c.ext "l").2 "r").2 x).1 ++ ";"⟩ ::
          ⟨c.indentation,
            (E.newVariable (E.newVariable c.ext "l").2 "r").1 ++ " = " ++ rhs ++ ";"⟩ ::
          fieldWrites c.indentation (E.newVariable c.ext "l").1
            (E.newVariable (E.newVariable c.ext "l").2 "r").1 fields) ∧
    (∀ x elem len, stripParens lhs = .star x → t.Underlying = .array elem len →
      ∃ c1 lVar rVar iVar, translateAssign E (some lhs) rhs c = .ok c1 ∧
        lVar = (E.newVariable c.ext "l").1 ∧
        rVar = (E.newVariable (E.newVariable c.ext "l").2 "r").1 ∧
        iVar = (E.newVariable
          (E.translateExpr (E.newVariable (E.newVariable c.ext "l").2 "r").2 x).2 "i").1 ∧
        c1.output = c.output ++
          [ ⟨c.indentation, lVar ++ " = " ++
              (E.translateExpr (E.newVariable (E.newVariable c.ext "l").2 "r").2 x).1 ++ ";"⟩,
            ⟨c.indentation, rVar ++ " = " ++ rhs ++ ";"⟩,
            ⟨c.indentation, "for (" ++ iVar ++ " = 0; " ++ iVar ++ " < " ++ toString len ++ "; "
              ++ iVar ++ "++) \x7b " ++ lVar ++ "[" ++ iVar ++ "] = " ++ rVar ++ "[" ++ iVar
              ++ "]; \x7d"⟩ ]) := by
  refine ⟨?_, ?_, ?_⟩
  · intro x sel fields hl hu
    rw [hl] at ht
    have h : translateAssign E (some lhs) rhs c = .ok
        (printFields ((c.Printf ("Go$obj = " ++ rhs ++ ";")).withExt
          (E.translateExpr c.ext (.selector x sel)).2)
          (E.translateExpr c.ext (.selector x sel)).1 "Go$obj" fields) := by
      simp only [translateAssign, Option.map_some', hl, isUnderscore, ht, hu]
      rfl
    refine ⟨_, h, ?_, by simp [fieldWrites]⟩
    rw [printFields_output]
    simp [PkgContext.Printf, PkgContext.withExt]
  · intro x fields hl hu
    rw [hl] at ht
    have h : translateAssign E (some lhs) rhs c = .ok
        (printFields
          (((c.withExt (E.translateExpr (E.newVariable (E.newVariable c.ext "l").2 "r").2 x).2).Printf
            ((E.newVariable c.ext "l").1 ++ " = " ++
              (E.translateExpr (E.newVariable (E.newVariable c.ext "l").2 "r").2 x).1 ++ ";")).Printf
            ((E.newVariable (E.newVariable c.ext "l").2 "r").1 ++ " = " ++ rhs ++ ";"))
          (E.newVariable c.ext "l").1 (E.newVariable (E.newVariable c.ext "l").2 "r").1 fields) := by
      simp only [translateAssign, Option.map_some', hl, isUnderscore, ht, hu]
      rfl
    refine ⟨_, h, ?_⟩
    rw [printFields_output]
    simp [PkgContext.Printf, PkgContext.withExt]
  · intro x elem len hl hu
    rw [hl] at ht
    obtain ⟨c1, h⟩ : ∃ c1, c1 = ((((c.withExt
        (E.translateExpr (E.newVariable (E.newVariable c.ext "l").2 "r").2 x).2).Printf
        ((E.newVariable c.ext "l").1 ++ " = " ++
          (E.translateExpr (E.newVariable (E.newVariable c.ext "l").2 "r").2 x).1 ++ ";")).Printf
        ((E.newVariable (E.newVariable c.ext "l").2 "r").1 ++ " = " ++ rhs ++ ";")).withExt
        (E.newVariable
          (E.translateExpr (E.newVariable (E.newVariable c.ext "l").2 "r").2 x).2 "i").2).Printf
        ("for (" ++ (E.newVariable
            (E.translateExpr (E.newVariable (E.newVariable c.ext "l").2 "r").2 x).2 "i").1
          ++ " = 0; " ++ (E.newVariable
            (E.translateExpr (E.newVariable (E.newVariable c.ext "l").2 "r").2 x).2 "i").1
          ++ " < " ++ toString len ++ "; " ++ (E.newVariable
            (E.translateExpr (E.newVariable (E.newVariable c.ext "l").2 "r").2 x).2 "i").1
          ++ "++) \x7b " ++ (E.newVariable c.ext "l").1 ++ "[" ++ (E.newVariable
            (E.translateExpr (E.newVariable (E.newVariable c.ext "l").2 "r").2 x).2 "i").1
          ++ "] = " ++ (E.newVariable (E.newVariable c.ext "l").2 "r").1 ++ "[" ++ (E.newVariable
            (E.translateExpr (E.newVariable (E.newVariable c.ext "l").2 "r").2 x).2 "i").1
          ++ "]; \x7d") := ⟨_, rfl⟩
    refine ⟨c1, _, _, _, ?_, rfl, rfl, rfl, ?_⟩
    · simp only [translateAssign, Option.map_some', hl, isUnderscore, ht, hu, h]
      rfl
    · simp [h, PkgContext.Printf, PkgContext.withExt]

/-- The hypotheses of `translateAssign_struct_copy` hold for the write
`p.pos = v` where `p.pos` is a struct with the fields `x` and `y`. -/
theorem translateAssign_struct_copy_witness :
    sampleExternals.typeOf sampleContext.ext (stripParens (.selector (.ident "p") "pos")) =
      some (.named "Point" (.struct [("x", .basic "int"), ("y", .basic "int")])) ∧
    outputTexts (translateAssign sampleExternals (some (.selector (.ident "p") "pos")) "v"
      sampleContext) = some ["Go$obj = v;", "p.pos.x = Go$obj.x;", "p.pos.y = Go$obj.y;"] :=
  ⟨rfl, by
    obtain ⟨c1, h1, h2, _⟩ := (translateAssign_struct_copy sampleExternals
      (.selector (.ident "p") "pos") "v" sampleContext _ rfl).1 (.ident "p") "pos" _ rfl rfl
    rw [h1]
    simp only [outputTexts, h2]
    decide⟩

theorem compoundOp_of_mem (p : Token × Token) (h : p ∈ compoundOperators) :
    compoundOp p.1 = some p.2 ∧ p.1 ≠ Token.ASSIGN ∧ p.1 ≠ Token.DEFINE := by
  simp [compoundOperators] at h
  rcases h with h | h | h | h | h | h | h | h | h | h | h <;> subst h <;> simp [compoundOp]

theorem compoundOp_none (tok : Token) (h : ∀ p ∈ compoundOperators, p.1 ≠ tok) :
    compoundOp tok = none := by
  cases tok <;> simp [compoundOperators] at h <;> rfl

/-- C9: for each of the eleven compound operators, `translateStmt` on an
assignment with that operator is the single-target write (`translateAssign`) of
the first left-hand operand, with value text the lowering of the binary
expression `lhs OP (rhs)`, `OP` the binary operator of the compound operator
and the right operand the first right-hand expression in parentheses; every
other operator token that is neither plain nor define is a fatal error. -/
theorem translateStmt_compound_assign (E : Externals σ) (fuel : Nat) (label : String)
    (c : PkgContext σ) :
    (∀ p ∈ compoundOperators, ∀ (lhs0 rhs0 : Expr) (lhsRest rhsRest : List Expr),
      translateStmt E (fuel + 1) (some (.assign (lhs0 :: lhsRest) p.1 (rhs0 :: rhsRest))) label c =
        translateAssign E (some lhs0)
          (E.translateExpr (compoundExt E c.ext lhs0 rhs0 p.2)
            (.binary lhs0 p.2 (.paren rhs0))).1
          (c.withExt (E.translateExpr (compoundExt E c.ext lhs0 rhs0 p.2)
            (.binary lhs0 p.2 (.paren rhs0))).2)) ∧
    (∀ (tok : Token) (lhs rhs : List Expr), tok ≠ Token.ASSIGN → tok ≠ Token.DEFINE →
      (∀ p ∈ compoundOperators, p.1 ≠ tok) →
      ∃ msg, translateStmt E (fuel + 1) (some (.assign lhs tok rhs)) label c =
        .error (.panic msg)) := by
  constructor
  · intro p hp lhs0 rhs0 lhsRest rhsRest
    obtain ⟨h1, h2, h3⟩ := compoundOp_of_mem p hp
    simp only [translateStmt, translateStmtVia, translateAssignStmt, h1, h2, h3, ne_eq, not_false_eq_true,
      and_self, if_true, compoundExt]
  · intro tok lhs rhs h1 h2 h3
    refine ⟨"unhandled assignment token", ?_⟩
    simp only [translateStmt, translateStmtVia, translateAssignStmt, compoundOp_none tok h3, h1, h2, ne_eq,
      not_false_eq_true, and_self, if_true]

/-- The statement `a += b` is lowered to `a = a + (b);`, and an assignment
with the token `++` stops with a fatal error. -/
theorem translateStmt_compound_assign_witness :
    outputTexts (translateStmt sampleExternals 1
      (some (.assign [.ident "a"] Token.ADD_ASSIGN [.ident "b"])) "" sampleContext) =
      some ["a = a + (b);"] ∧
    outputTexts (translateStmt sampleExternals 1
      (some (.assign [.ident "a"] Token.INC [.ident "b"])) "" sampleContext) = none := by
  constructor
  · rw [(translateStmt_compound_assign sampleExternals 0 "" sampleContext).1
      (Token.ADD_ASSIGN, Token.ADD) (by decide) (.ident "a") (.ident "b") [] []]
    decide
  · obtain ⟨msg, h⟩ := (translateStmt_compound_assign sampleExternals 0 "" sampleContext).2
      Token.INC [.ident "a"] [.ident "b"] (by decide) (by decide) (by decide)
    rw [h]
    rfl

theorem tupleParts_length (E : Externals σ) : ∀ (rhs lhs : List Expr) (e : σ),
    (tupleParts E e lhs rhs).1.length = rhs.length := by
  intro rhs
  induction rhs with
  | nil => intro lhs e; rfl
  | cons r rest ih => intro lhs e; simp [tupleParts, ih]

theorem tupleParts_get (E : Externals σ) : ∀ (rhs lhs : List Expr) (e : σ) (i : Nat) (r : Expr),
    rhs.get? i = some r →
    ∃ ei, (tupleParts E e lhs rhs).1.get? i =
      some (E.translateExprToType ei r ((lhs.get? i).bind (E.typeOf ei))).1 := by
  intro rhs
  induction rhs with
  | nil => intro lhs e i r h; simp at h
  | cons r0 rest ih =>
    intro lhs e i r h
    cases i with
    | zero =>
      simp at h
      subst h
      refine ⟨e, ?_⟩
      cases lhs <;> simp [tupleParts]
    | succ i =>
      simp at h
      obtain ⟨ei, hei⟩ := ih lhs.tail (E.translateExprToType e r0 (lhs.head?.bind (E.typeOf e))).2 i r
        (by simpa using h)
      refine ⟨ei, ?_⟩
      cases lhs <;> simpa [tupleParts] using hei

theorem tupleSlots_get : ∀ (n start i : Nat), i < n →
    (tupleSlots start n).get? i = some ("Go$tuple[" ++ toString (start + i) ++ "]") := by
  intro n
  induction n with
  | zero => intro start i h; omega
  | succ n ih =>
    intro start i h
    cases i with
    | zero => simp [tupleSlots]
    | succ i =>
      simp only [tupleSlots, List.get?_cons_succ]
      rw [ih (start + 1) i (by omega)]
      have h1 : start + 1 + i = start + (i + 1) := by omega
      rw [h1]

theorem tupleSlots_length : ∀ (n start : Nat), (tupleSlots start n).length = n := by
  intro n
  induction n with
  | zero => intro start; rfl
  | succ n ih => intro start; simp [tupleSlots, ih]

theorem assignAll_eq_foldlM (E : Externals σ) : ∀ (lhs : List Expr) (rhss : List String)
    (c : PkgContext σ), lhs.length = rhss.length →
    assignAll E lhs rhss c =
      (lhs.zip rhss).foldlM (fun c1 p => translateAssign E (some p.1) p.2 c1) c := by
  intro lhs
  induction lhs with
  | nil => intro rhss c _; rfl
  | cons l rest ih =>
    intro rhss c h
    cases rhss with
    | nil => simp at h
    | cons r rs =>
      simp only [assignAll, List.headD_cons, List.tail_cons, List.zip_cons_cons,
        List.foldlM_cons]
      cases hr : translateAssign E (some l) r c with
      | error e => rfl
      | ok c1 =>
        simp only [bind, Except.bind]
        exact ih rs c1 (by simpa using h)

/-- C4: a plain or define assignment with `n >= 2` targets and `n` right-hand
expressions first prints the line `Go$tuple = [r0, .., r(n-1)];`, where `ri` is
the `i`-th right-hand expression lowered with conversion to the type of the
`i`-th target, and then writes the targets in order with `translateAssign`, the
`i`-th from the text `Go$tuple[i]`; these writes are computed from the targets
alone, so no right-hand expression is lowered after the first line.  For
`a, b = b, a` the lines are `Go$tuple = [b, a];`, `a = Go$tuple[0];`,
`b = Go$tuple[1];`, which take `a = 1, b = 2` to `a = 2, b = 1`. -/
theorem translateStmt_assign_tuple (E : Externals σ) (fuel : Nat) (label : String)
    (c : PkgContext σ) (lhs rhs : List Expr) (tok : Token) (e0 : σ)
    (htok : tok = Token.ASSIGN ∨ tok = Token.DEFINE)
    (hlen : lhs.length = rhs.length) (hn : 2 ≤ lhs.length)
    (hdef : (if tok = Token.DEFINE then defineTypes E c.ext lhs else .ok c.ext) = .ok e0) :
    translateStmt E (fuel + 1) (some (.assign lhs tok rhs)) label c =
      (lhs.zip (tupleSlots 0 rhs.length)).foldlM
        (fun c1 p => translateAssign E (some p.1) p.2 c1)
        ((c.withExt (tupleParts E e0 lhs rhs).2).Printf
          ("Go$tuple = [" ++ String.intercalate ", " (tupleParts E e0 lhs rhs).1 ++ "];")) ∧
    (tupleParts E e0 lhs rhs).1.length = rhs.length ∧
    (∀ i r, rhs.get? i = some r → ∃ ei, (tupleParts E e0 lhs rhs).1.get? i =
      some (E.translateExprToType ei r ((lhs.get? i).bind (E.typeOf ei))).1) ∧
    (∀ i, i < rhs.length →
      (tupleSlots 0 rhs.length).get? i = some ("Go$tuple[" ++ toString i ++ "]")) ∧
    outputTexts (translateStmt sampleExternals 1
      (some (.assign [.ident "a", .ident "b"] Token.ASSIGN [.ident "b", .ident "a"])) ""
      sampleContext) =
      some ([TupleLine.setTuple ["b", "a"], .setVar "a" 0, .setVar "b" 1].map TupleLine.text) ∧
    ([TupleLine.setTuple ["b", "a"], .setVar "a" 0, .setVar "b" 1].foldl TupleLine.run
      (sampleVars, [])).1 "a" = 2 ∧
    ([TupleLine.setTuple ["b", "a"], .setVar "a" 0, .setVar "b" 1].foldl TupleLine.run
      (sampleVars, [])).1 "b" = 1 := by
  refine ⟨?_, tupleParts_length E rhs lhs e0, tupleParts_get E rhs lhs e0, ?_, by decide,
    by decide, by decide⟩
  · have h1 : ¬ (tok ≠ Token.ASSIGN ∧ tok ≠ Token.DEFINE) := by
      rcases htok with h | h <;> simp [h]
    have h2 : ¬ (lhs.length = 1 ∧ rhs.length = 1) := by omega
    have h3 : ¬ (1 < lhs.length ∧ rhs.length = 1) := by omega
    simp only [translateStmt, translateStmtVia, translateAssignStmt, h1, if_false, hdef]
    rw [if_neg h2, if_neg h3, if_pos hlen,
      assignAll_eq_foldlM E lhs _ _ (by rw [tupleSlots_length, hlen])]
    rfl
  · intro i hi
    simpa using tupleSlots_get rhs.length 0 i hi

/-- The hypotheses of `translateStmt_assign_tuple` hold for `a, b = b, a`,
which is lowered to three lines. -/
theorem translateStmt_assign_tuple_witness :
    (Token.ASSIGN = Token.ASSIGN ∨ Token.ASSIGN = Token.DEFINE) ∧
    outputTexts (translateStmt sampleExternals 1
      (some (.assign [.ident "a", .ident "b"] Token.ASSIGN [.ident "b", .ident "a"])) ""
      sampleContext) = some ["Go$tuple = [b, a];", "a = Go$tuple[0];", "b = Go$tuple[1];"] :=
  ⟨Or.inl rfl, by
    rw [(translateStmt_assign_tuple sampleExternals 0 "" sampleContext
      [.ident "a", .ident "b"] [.ident "b", .ident "a"] Token.ASSIGN 0 (Or.inl rfl) rfl
      (by decide) rfl).1]
    decide⟩

theorem Frame.refl (c : PkgContext σ) : Frame c c :=
  ⟨rfl, List.prefix_refl _, rfl, rfl⟩

theorem Frame.trans {a b c : PkgContext σ} (h1 : Frame a b) (h2 : Frame b c) : Frame a c :=
  ⟨h2.1.trans h1.1, h1.2.1.trans h2.2.1, h2.2.2.1.trans h1.2.2.1, h2.2.2.2.trans h1.2.2.2⟩

theorem Frame.printf (c : PkgContext σ) (text : String) : Frame c (c.Printf text) :=
  ⟨rfl, List.prefix_append _ _, rfl, rfl⟩

theorem Frame.withExt (c : PkgContext σ) (e : σ) : Frame c (c.withExt e) :=
  ⟨rfl, List.prefix_refl _, rfl, rfl⟩

theorem Frame.printf_of {a c : PkgContext σ} (h : Frame a c) (text : String) :
    Frame a (c.Printf text) := h.trans (Frame.printf c text)

theorem Frame.withExt_of {a c : PkgContext σ} (h : Frame a c) (e : σ) :
    Frame a (c.withExt e) := h.trans (Frame.withExt c e)

theorem Frame.indent {c c1 : PkgContext σ} {f : PkgContext σ → Except Fatal (PkgContext σ)}
    (hf : Framed f) (h : c.Indent f = .ok c1) : Frame c c1 := by
  unfold PkgContext.Indent at h
  split at h
  · rename_i c2 hc2
    injection h with h
    subst h
    obtain ⟨h1, h2, h3, h4⟩ := hf _ _ hc2
    exact ⟨by simp [h1], h2, h3, h4⟩
  · cases h

theorem printFields_frame (l r : String) (fields : List (String × GoType)) :
    ∀ c : PkgContext σ, Frame c (printFields c l r fields) := by
  induction fields with
  | nil => intro c; exact Frame.refl c
  | cons f fs ih => intro c; exact (Frame.printf c _).trans (ih _)

theorem Frame.printFields_of {a c : PkgContext σ} (h : Frame a c) (l r : String)
    (fields : List (String × GoType)) : Frame a (printFields c l r fields) :=
  h.trans (printFields_frame l r fields c)

theorem translateAssign_frame (E : Externals σ) (lhs : Option Expr) (rhs : String) :
    Framed (translateAssign E lhs rhs) := by
  intro c c1 h
  unfold translateAssign at h
  split at h
  · cases h; exact Frame.refl _
  · split at h
    · cases h; exact Frame.refl _
    · split at h
      · cases h
        exact Frame.printf_of (Frame.withExt c _) _
      · split at h
        · cases h
        · split at h
          · cases h
            exact Frame.printFields_of (Frame.withExt_of (Frame.printf c _) _) _ _ _
          · cases h
            exact Frame.printf_of (Frame.withExt c _) _
      · split at h
        · cases h
        · split at h
          · cases h
            exact Frame.printFields_of (Frame.printf_of (Frame.printf_of (Frame.withExt c _) _) _)
              _ _ _
          · cases h
            exact Frame.printf_of (Frame.withExt_of
              (Frame.printf_of (Frame.printf_of (Frame.withExt c _) _) _) _) _
          · cases h
            exact Frame.printf_of (Frame.withExt c _) _
      · split at h
        · cases h
        · split at h
          all_goals
            cases h <;> first
              | exact Frame.printf_of (Frame.withExt c _) _
              | exact Frame.printf_of (Frame.printf_of (Frame.printf_of (Frame.withExt_of
                  (Frame.printf_of (Frame.withExt c _) _) _) _) _) _
              | exact Frame.printf_of (Frame.withExt_of
                  (Frame.printf_of (Frame.withExt c _) _) _) _
      · cases h

theorem assignAll_frame (E : Externals σ) : ∀ (lhs : List Expr) (rhss : List String),
    Framed (assignAll E lhs rhss) := by
  intro lhs
  induction lhs with
  | nil => intro rhss c c1 h; cases h; exact Frame.refl _
  | cons l rest ih =>
    intro rhss c c1 h
    simp only [assignAll] at h
    split at h
    · rename_i c2 hc2
      exact (translateAssign_frame E _ _ _ _ hc2).trans (ih _ _ _ h)
    · cases h

theorem translateAssignStmt_frame (E : Externals σ) (lhs : List Expr) (tok : Token)
    (rhs : List Expr) : Framed (translateAssignStmt E lhs tok rhs) := by
  intro c c1 h
  unfold translateAssignStmt at h
  split at h
  · split at h
    · cases h
    · split at h
      · exact (Frame.withExt c _).trans (translateAssign_frame E _ _ _ _ h)
      · cases h
  · split at h
    · cases h
    · rename_i e0 _
      simp only at h
      split at h
      · split at h
        · cases h
          exact Frame.printf_of (Frame.withExt_of (Frame.withExt c _) _) _
        · exact (Frame.withExt_of (Frame.withExt c _) _).trans (assignAll_frame E _ _ _ _ h)
      · split at h
        · split at h
          · split at h
            · cases h
            · exact (Frame.printf_of (Frame.withExt_of (Frame.withExt c _) _) _).trans
                (assignAll_frame E _ _ _ _ h)
          · cases h
        · split at h
          · exact (Frame.printf_of (Frame.withExt_of (Frame.withExt c _) _) _).trans
              (assignAll_frame E _ _ _ _ h)
          · cases h

theorem translateDeferStmt_frame (E : Externals σ) (fn : Expr) (args : List Expr)
    (ellipsis : Bool) : Framed (translateDeferStmt E fn args ellipsis) := by
  intro c c1 h
  unfold translateDeferStmt at h
  repeat' split at h
  all_goals try (cases h)
  all_goals
    repeat
      first
      | exact Frame.refl _
      | apply Frame.printf_of
      | apply Frame.withExt_of

theorem typeSwitchPrefix_frame (E : Externals σ) (typeSwitchVar refVar : String)
    (conds : Option (List Expr)) : Framed (typeSwitchPrefix E typeSwitchVar refVar conds) := by
  intro c c1 h
  unfold typeSwitchPrefix at h
  repeat' split at h
  all_goals try (cases h)
  all_goals
    repeat
      first
      | exact Frame.refl _
      | apply Frame.printf_of
      | apply Frame.withExt_of

theorem foldl_printf_frame (texts : List String) : ∀ c : PkgContext σ,
    Frame c (texts.foldl (fun c1 text => c1.Printf text) c) := by
  induction texts with
  | nil => intro c; exact Frame.refl c
  | cons t ts ih => intro c; exact (Frame.printf c t).trans (ih _)

theorem translateSpecs_frame (E : Externals σ) (specs : List String) :
    ∀ c : PkgContext σ, Frame c (translateSpecs E specs c) := by
  induction specs with
  | nil => intro c; exact Frame.refl c
  | cons sp rest ih =>
    intro c
    exact ((Frame.withExt c _).trans (foldl_printf_frame _ _)).trans (ih _)

theorem translateStmtListWith_frame
    {tr : Option Stmt → String → PkgContext σ → Except Fatal (PkgContext σ)}
    (htr : ∀ s label, Framed (tr s label)) : ∀ stmts, Framed (translateStmtListWith tr stmts) := by
  intro stmts
  induction stmts with
  | nil => intro c c1 h; cases h; exact Frame.refl _
  | cons s rest ih =>
    intro c c1 h
    simp only [translateStmtListWith] at h
    split at h
    · rename_i c2 hc2
      exact (htr _ _ _ _ hc2).trans (ih _ _ h)
    · cases h

theorem callPrefix_frame
    {pf : Option (Option (List Expr) → PkgContext σ → Except Fatal (PkgContext σ))}
    (hpf : ∀ f, pf = some f → ∀ conds, Framed (f conds)) (conds : Option (List Expr)) :
    Framed (callPrefix pf conds) := by
  intro c c1 h
  unfold callPrefix at h
  split at h
  · cases h; exact Frame.refl _
  · rename_i f
    exact hpf f rfl conds _ _ h

theorem prefixThenList_frame
    {tr : Option Stmt → String → PkgContext σ → Except Fatal (PkgContext σ)}
    {pf : Option (Option (List Expr) → PkgContext σ → Except Fatal (PkgContext σ))}
    (htr : ∀ s label, Framed (tr s label))
    (hpf : ∀ f, pf = some f → ∀ conds, Framed (f conds))
    (conds : Option (List Expr)) (stmts : List Stmt) :
    Framed (fun c2 =>
      match callPrefix pf conds c2 with
      | .ok c3 => translateStmtListWith tr stmts c3
      | .error e => .error e) := by
  intro c c1 h
  simp only at h
  split at h
  · rename_i c3 hc3
    exact (callPrefix_frame hpf conds _ _ hc3).trans (translateStmtListWith_frame htr _ _ _ h)
  · cases h

theorem printBodyLoop_frame
    {tr : Option Stmt → String → PkgContext σ → Except Fatal (PkgContext σ)}
    {pf : Option (Option (List Expr) → PkgContext σ → Except Fatal (PkgContext σ))}
    (htr : ∀ s label, Framed (tr s label))
    (hpf : ∀ f, pf = some f → ∀ conds, Framed (f conds))
    (tc : σ → Expr → String × σ) (groups : List (List Stmt)) :
    ∀ (clauses : List Stmt) (i : Nat) (d : Option (List Stmt)) (ep : String)
      (c : PkgContext σ) (r : Option (List Stmt) × PkgContext σ),
      printBodyLoop tr tc pf groups clauses i d ep c = .ok r → Frame c r.2 := by
  intro clauses
  induction clauses with
  | nil => intro i d ep c r h; cases h; exact Frame.refl _
  | cons child rest ih =>
    intro i d ep c r h
    unfold printBodyLoop at h
    split at h
    · split at h
      · exact ih _ _ _ _ _ h
      · simp only at h
        split at h
        · rename_i c4 hc4
          exact ((Frame.printf_of (Frame.withExt c _) _).trans
            (Frame.indent (prefixThenList_frame htr hpf _ _) hc4)).trans (ih _ _ _ _ _ h)
        · cases h
    · cases h

theorem printBody_frame
    {tr : Option Stmt → String → PkgContext σ → Except Fatal (PkgContext σ)}
    {pf : Option (Option (List Expr) → PkgContext σ → Except Fatal (PkgContext σ))}
    (htr : ∀ s label, Framed (tr s label))
    (hpf : ∀ f, pf = some f → ∀ conds, Framed (f conds))
    (tc : σ → Expr → String × σ) (clauses : List Stmt) (groups : List (List Stmt)) :
    Framed (printBody tr tc pf clauses groups) := by
  intro c c1 h
  unfold printBody at h
  split at h
  · cases h
  · rename_i c2 hc2
    cases h
    exact Frame.printf_of (printBodyLoop_frame htr hpf tc groups _ _ _ _ _ _ hc2) _
  · rename_i d c2 hc2
    split at h
    · rename_i c4 hc4
      cases h
      exact Frame.printf_of (((printBodyLoop_frame htr hpf tc groups _ _ _ _ _ _ hc2).printf_of _).trans
        (Frame.indent (prefixThenList_frame htr hpf _ _) hc4)) _
    · cases h

theorem translateBranchingGeneral_frame
    {tr : Option Stmt → String → PkgContext σ → Except Fatal (PkgContext σ)}
    {pf : Option (Option (List Expr) → PkgContext σ → Except Fatal (PkgContext σ))}
    (htr : ∀ s label, Framed (tr s label))
    (hpf : ∀ f, pf = some f → ∀ conds, Framed (f conds))
    (clauses : List Stmt) (isSwitch : Bool) (tc : σ → Expr → String × σ) (label : String) :
    Framed (translateBranchingGeneral tr clauses isSwitch tc pf label) := by
  intro c c1 h
  unfold translateBranchingGeneral at h
  split at h
  · cases h
  · rename_i groups _
    split at h
    · exact printBody_frame htr hpf tc _ _ _ _ h
    · split at h
      · exact printBody_frame htr hpf tc _ _ _ _ h
      · split at h
        · rename_i c2 hc2
          cases h
          exact Frame.printf_of (((Frame.printf c _).printf_of _).trans
            (Frame.indent (printBody_frame htr hpf tc _ _) hc2)) _
        · cases h

theorem translateBranchingStmtWith_frame
    {tr : Option Stmt → String → PkgContext σ → Except Fatal (PkgContext σ)}
    {pf : Option (Option (List Expr) → PkgContext σ → Except Fatal (PkgContext σ))}
    (htr : ∀ s label, Framed (tr s label))
    (hpf : ∀ f, pf = some f → ∀ conds, Framed (f conds))
    (clauses : List Stmt) (isSwitch : Bool) (tc : σ → Expr → String × σ) (label : String) :
    Framed (translateBranchingStmtWith tr clauses isSwitch tc pf label) := by
  intro c c1 h
  unfold translateBranchingStmtWith at h
  split at h
  · cases h; exact Frame.refl _
  · exact translateStmtListWith_frame htr _ _ _ h
  · exact translateBranchingGeneral_frame htr hpf _ _ _ _ _ _ h
  · cases h
  · exact translateBranchingGeneral_frame htr hpf _ _ _ _ _ _ h

theorem assignThenList_frame (E : Externals σ)
    {tr : Option Stmt → String → PkgContext σ → Except Fatal (PkgContext σ)}
    (htr : ∀ s label, Framed (tr s label)) (key : Option Expr) (text : String)
    (body : List Stmt) :
    Framed (fun c3 =>
      match translateAssign E key text c3 with
      | .error e => .error e
      | .ok c4 => translateStmtListWith tr body c4) := by
  intro c c1 h
  simp only at h
  split at h
  · cases h
  · rename_i c4 hc4
    exact (translateAssign_frame E _ _ _ _ hc4).trans (translateStmtListWith_frame htr _ _ _ h)

theorem translateRangeIndexed_frame (E : Externals σ)
    {tr : Option Stmt → String → PkgContext σ → Except Fatal (PkgContext σ)}
    (htr : ∀ s label, Framed (tr s label)) (key value : Option Expr) (body : List Stmt)
    (label refVar iVar : String) (t : GoType) :
    Framed (translateRangeIndexed E tr key value body label refVar iVar t) := by
  intro c c1 h
  unfold translateRangeIndexed at h
  split at h
  · cases h
  · simp only at h
    split at h
    · rename_i c5 hc5
      cases h
      refine Frame.printf_of ((Frame.printf c _).trans (Frame.indent ?_ hc5)) _
      intro a b hab
      simp only at hab
      split at hab
      · cases hab
      · rename_i c3 hc3
        refine Frame.trans ?_ (assignThenList_frame E htr _ _ _ _ _ hab)
        split at hc3
        · cases hc3; exact Frame.refl _
        · split at hc3
          · exact (Frame.withExt a _).trans (translateAssign_frame E _ _ _ _ hc3)
          · cases hc3; exact Frame.refl _
    · cases h

theorem translateRangeBody_frame (E : Externals σ)
    {tr : Option Stmt → String → PkgContext σ → Except Fatal (PkgContext σ)}
    (htr : ∀ s label, Framed (tr s label)) (key value : Option Expr) (body : List Stmt)
    (label refVar iVar : String) (t : GoType) :
    Framed (translateRangeBody E tr key value body label refVar iVar t) := by
  intro c c1 h
  unfold translateRangeBody at h
  split at h
  · simp only at h
    split at h
    · rename_i c5 hc5
      cases h
      refine Frame.printf_of ((Frame.printf_of (Frame.withExt c _) _).trans
        (Frame.indent ?_ hc5)) _
      intro a b hab
      simp only at hab
      split at hab
      · cases hab
      · rename_i c3 hc3
        exact ((Frame.printf a _).trans (translateAssign_frame E _ _ _ _ hc3)).trans
          (assignThenList_frame E htr _ _ _ _ _ hab)
    · cases h
  · simp only at h
    split at h
    · rename_i c6 hc6
      cases h
      refine Frame.printf_of ((Frame.printf_of (Frame.printf_of (Frame.withExt c _) _) _).trans
        (Frame.indent ?_ hc6)) _
      intro a b hab
      simp only at hab
      split at hab
      · cases hab
      · rename_i c4 hc4
        exact ((Frame.printf_of (Frame.withExt a _) _).trans
          (translateAssign_frame E _ _ _ _ hc4)).trans (assignThenList_frame E htr _ _ _ _ _ hab)
    · cases h
  · exact translateRangeIndexed_frame E htr _ _ _ _ _ _ _ _ _ h
  · exact translateRangeIndexed_frame E htr _ _ _ _ _ _ _ _ _ h
  · exact translateRangeIndexed_frame E htr _ _ _ _ _ _ _ _ _ h
  · cases h
    exact Frame.printf c _
  · cases h

theorem translateForWith_frame (E : Externals σ)
    {trInit trBody : Option Stmt → String → PkgContext σ → Except Fatal (PkgContext σ)}
    (hi : ∀ s label, Framed (trInit s label)) (hb : ∀ s label, Framed (trBody s label))
    (init : Option Stmt) (cond : Option Expr) (post : Option Stmt) (body : List Stmt)
    (label : String) : Framed (translateForWith E trInit trBody init cond post body label) := by
  intro c c1 h
  unfold translateForWith at h
  split at h
  · cases h
  · rename_i c2 hc2
    simp only at h
    split at h
    · cases h
    · rename_i c5 hc5
      cases h
      refine (hi _ _ _ _ hc2).trans ?_
      have h1 : Frame c2 c5 := by
        refine Frame.trans ?_ (Frame.indent ?_ hc5)
        · exact ⟨rfl, List.prefix_append _ _, rfl, rfl⟩
        · intro a b hab
          simp only at hab
          split at hab
          · cases hab
          · rename_i c4 hc4
            exact (translateStmtListWith_frame hb _ _ _ hc4).trans (hb _ _ _ _ hab)
      exact ⟨h1.1, h1.2.1.trans (List.prefix_append _ _), h1.2.2.1, h1.2.2.2⟩

theorem translateRangeWith_frame (E : Externals σ)
    {tr : Option Stmt → String → PkgContext σ → Except Fatal (PkgContext σ)}
    (htr : ∀ s label, Framed (tr s label)) (key value : Option Expr) (x : Expr)
    (body : List Stmt) (label : String) :
    Framed (translateRangeWith E tr key value x body label) := by
  intro c c1 h
  unfold translateRangeWith at h
  simp only at h
  split at h
  · cases h
  · split at h
    · cases h
    · rename_i c3 hc3
      cases h
      have h1 := translateRangeBody_frame E htr _ _ _ _ _ _ _ _ _ hc3
      have h2 : Frame c c3 := by
        refine Frame.trans ?_ h1
        refine ⟨rfl, ?_, rfl, rfl⟩
        simp [PkgContext.Printf, PkgContext.withExt]
      exact ⟨h2.1, h2.2.1, h2.2.2.1, h2.2.2.2⟩

theorem translateStmt_frame (E : Externals σ) :
    ∀ (fuel : Nat) (stmt : Option Stmt) (label : String), Framed (translateStmt E fuel stmt label) := by
  intro fuel
  induction fuel with
  | zero => intro stmt label c c1 h; simp [translateStmt] at h
  | succ fuel ih =>
    intro stmt label c c1 h
    have hnone : ∀ f : Option (List Expr) → PkgContext σ → Except Fatal (PkgContext σ),
        (none : Option (Option (List Expr) → PkgContext σ → Except Fatal (PkgContext σ))) = some f →
        ∀ conds, Framed (f conds) := by
      intro f hf; cases hf
    simp only [translateStmt] at h
    unfold translateStmtVia at h
    split at h
    · cases h; exact Frame.refl _
    · -- block
      split at h
      · rename_i c2 hc2
        cases h
        exact Frame.printf_of ((Frame.printf c _).trans
          (Frame.indent (translateStmtListWith_frame ih _) hc2)) _
      · cases h
    · -- if
      split at h
      · cases h
      · rename_i c2 hc2
        split at h
        · cases h
        · exact (ih _ _ _ _ hc2).trans (translateBranchingStmtWith_frame ih hnone _ _ _ _ _ _ h)
    · -- switch
      split at h
      · cases h
      · rename_i c2 hc2
        split at h
        · exact (ih _ _ _ _ hc2).trans (translateBranchingStmtWith_frame ih hnone _ _ _ _ _ _ h)
        · exact ((ih _ _ _ _ hc2).trans (Frame.printf_of (Frame.withExt _ _) _)).trans
            (translateBranchingStmtWith_frame ih hnone _ _ _ _ _ _ h)
    · -- type switch
      split at h
      · cases h
      · rename_i c2 hc2
        split at h
        · cases h
        · simp only at h
          split at h
          · cases h
          · refine ((ih _ _ _ _ hc2).trans
              (Frame.printf_of (Frame.printf_of (Frame.withExt _ _) _) _)).trans
              (translateBranchingStmtWith_frame ih ?_ _ _ _ _ _ _ h)
            intro f hf conds
            cases hf
            exact typeSwitchPrefix_frame E _ _ _
    · exact translateForWith_frame E ih ih _ _ _ _ _ _ _ h
    · exact translateRangeWith_frame E ih _ _ _ _ _ _ _ h
    · -- branch
      simp only at h
      split at h
      · cases h; exact Frame.printf c _
      · split at h
        · cases h
        · rename_i c2 hc2
          cases h
          exact Frame.printf_of (ih _ _ _ _ hc2) _
      · cases h; exact Frame.printf c _
      · cases h; exact Frame.refl _
      · cases h
    · -- return
      simp only at h
      split at h
      · cases h
      · rename_i c2 hc2
        have h1 : Frame c c2 := by
          split at hc2
          · cases hc2; exact Frame.refl _
          · split at hc2
            · exact ih _ _ _ _ hc2
            · cases hc2; exact Frame.refl _
        split at h
        · cases h; exact Frame.printf_of h1 _
        · split at h
          · cases h; exact Frame.printf_of (Frame.withExt_of h1 _) _
          · split at h
            · cases h
            · cases h; exact Frame.printf_of (Frame.withExt_of h1 _) _
        · split at h
          · cases h
          · cases h; exact Frame.printf_of (Frame.withExt_of h1 _) _
    · exact translateDeferStmt_frame E _ _ _ _ _ h
    · cases h; exact Frame.printf_of (Frame.withExt c _) _
    · split at h
      · cases h; exact translateSpecs_frame E _ _
      · cases h
    · exact ih _ _ _ _ h
    · exact translateAssignStmt_frame E _ _ _ _ _ h
    · -- incDec
      simp only at h
      split at h
      · cases h
      · exact (Frame.withExt c _).trans (ih _ _ _ _ h)
    · cases h; exact Frame.printf c _
    · cases h; exact Frame.printf c _
    · cases h; exact Frame.printf c _
    · cases h; exact Frame.refl _
    · cases h

theorem indent_ok {c c1 : PkgContext σ} {f : PkgContext σ → Except Fatal (PkgContext σ)}
    (h : c.Indent f = .ok c1) :
    ∃ c2, f { c with indentation := c.indentation + 1 } = .ok c2 ∧
      c1 = { c2 with indentation := c2.indentation - 1 } := by
  unfold PkgContext.Indent at h
  split at h
  · rename_i c2 hc2
    cases h
    exact ⟨c2, hc2, rfl⟩
  · cases h

theorem translateBranchingGeneral_wrapped
    {tr : Option Stmt → String → PkgContext σ → Except Fatal (PkgContext σ)}
    {pf : Option (Option (List Expr) → PkgContext σ → Except Fatal (PkgContext σ))}
    (htr : ∀ s label, Framed (tr s label))
    (hpf : ∀ f, pf = some f → ∀ conds, Framed (f conds))
    (clauses : List Stmt) (tc : σ → Expr → String × σ) (label : String)
    (hw : label ≠ "" ∨ WalkList false clauses = true) (c c1 : PkgContext σ)
    (h : translateBranchingGeneral tr clauses true tc pf label c = .ok c1) :
    ∃ groups c2, clauseStmts clauses = .ok groups ∧
      printBody tr tc pf clauses groups
        { ((c.Printf (label ++ "switch (undefined) \x7b")).Printf "default:") with
          indentation := c.indentation + 1 } = .ok c2 ∧
      ∃ inner, c2.output = c.output ++
          [⟨c.indentation, label ++ "switch (undefined) \x7b"⟩, ⟨c.indentation, "default:"⟩]
          ++ inner ∧
        c1.output = c.output ++
          [⟨c.indentation, label ++ "switch (undefined) \x7b"⟩, ⟨c.indentation, "default:"⟩]
          ++ inner ++ [⟨c.indentation, "\x7d"⟩] := by
  unfold translateBranchingGeneral at h
  split at h
  · cases h
  · rename_i groups hg
    have hcond : ¬ ((!(WalkList false clauses) && label == "") = true) := by
      rcases hw with hw | hw
      · simp [hw]
      · simp [hw]
    simp only [Bool.not_true, Bool.false_eq_true, if_false, hcond] at h
    split at h
    · rename_i c3 hc3
      cases h
      obtain ⟨c2, hc2, rfl⟩ := indent_ok hc3
      have hf := printBody_frame htr hpf tc clauses groups _ _ hc2
      obtain ⟨inner, hinner⟩ := hf.2.1
      refine ⟨groups, c2, hg, hc2, inner, ?_, ?_⟩
      · rw [← hinner]; simp [PkgContext.Printf]
      · have hi : c2.indentation - 1 = c.indentation := by
          rw [hf.1]; simp [PkgContext.Printf]
        simp only [PkgContext.Printf, hi]
        rw [← hinner]; simp [PkgContext.Printf]
    · cases h

/-- C2, as the code has it: a switch whose clause list is not a single
unconditional clause, lowered with a label or with an unlabeled `break` that
`HasBreakVisitor` finds, is the chained conditional inside the block
`<label>switch (undefined)`, `default:`, closed by a brace; but for the
single unconditional clause of `switch { default: break }`, in which the
visitor finds the `break`, `translateBranchingStmt` returns early and the whole
output is the line `break;`, with no block around it. -/
theorem translateBranchingStmt_switch_block :
    (∀ (E : Externals σ) (fuel : Nat) (clauses : List Stmt) (tc : σ → Expr → String × σ)
      (pf : Option (Option (List Expr) → PkgContext σ → Except Fatal (PkgContext σ)))
      (label : String) (c c1 : PkgContext σ),
      clauses ≠ [] → (∀ body, clauses ≠ [.caseClause none body]) →
      (∀ f, pf = some f → ∀ conds, Framed (f conds)) →
      (label ≠ "" ∨ WalkList false clauses = true) →
      translateBranchingStmt E fuel clauses true tc pf label c = .ok c1 →
      ∃ inner, c1.output = c.output ++
        [⟨c.indentation, label ++ "switch (undefined) \x7b"⟩, ⟨c.indentation, "default:"⟩]
        ++ inner ++ [⟨c.indentation, "\x7d"⟩]) ∧
    WalkList false [.caseClause none [.branch Token.BREAK none]] = true ∧
    outputTexts (translateBranchingStmt sampleExternals 2
      [.caseClause none [.branch Token.BREAK none]] true sampleExternals.translateExpr none ""
      sampleContext) = some ["break;"] ∧
    outputTexts (translateStmt sampleExternals 3 (some sampleDefaultOnlySwitch) ""
      sampleContext) = some ["break;"] ∧
    outputTexts (translateStmt sampleExternals 4
      (some (.forStmt none none none [sampleDefaultOnlySwitch])) "" sampleContext) =
      some ["while (true) \x7b", "break;", "\x7d"] := by
  refine ⟨?_, by decide, by decide, by decide, by decide⟩
  intro E fuel clauses tc pf label c c1 hne hsingle hpf hw h
  have hgen : translateBranchingGeneral (translateStmt E fuel) clauses true tc pf label c =
      .ok c1 := by
    unfold translateBranchingStmt translateBranchingStmtWith at h
    split at h
    · exact absurd rfl hne
    · rename_i body
      exact absurd rfl (hsingle body)
    · exact h
    · cases h
    · exact h
  obtain ⟨_, _, _, _, inner, _, hout⟩ :=
    translateBranchingGeneral_wrapped (translateStmt_frame E fuel) hpf clauses tc label hw c c1 hgen
  exact ⟨inner, hout⟩

theorem printBodyLoop_eq_emitChain
    (tr : Option Stmt → String → PkgContext σ → Except Fatal (PkgContext σ))
    (tc : σ → Expr → String × σ)
    (pf : Option (Option (List Expr) → PkgContext σ → Except Fatal (PkgContext σ)))
    (groups : List (List Stmt)) :
    ∀ (rest : List Stmt) (i : Nat) (d : Option (List Stmt)) (ep : String) (c : PkgContext σ),
      allClauses rest → i + rest.length = groups.length →
      printBodyLoop tr tc pf groups rest i d ep c =
        match emitChain tr tc pf (condBranches (rest.zip (groups.drop i))) ep c with
        | .ok c1 =>
          .ok (match (defaultGroups (rest.zip (groups.drop i))).getLast? with
            | some g => some g
            | none => d, c1)
        | .error e => .error e := by
  intro rest
  induction rest with
  | nil => intro i d ep c _ _; simp [printBodyLoop, condBranches, defaultGroups, emitChain]
  | cons child rest ih =>
    intro i d ep c hall hlen
    obtain ⟨list, body, rfl⟩ := hall child (List.mem_cons_self _ _)
    have hall' : allClauses rest := fun s hs => hall s (List.mem_cons_of_mem _ hs)
    have hi : i < groups.length := by simp at hlen; omega
    have hdrop : groups.drop i = groups.getD i [] :: groups.drop (i + 1) := by
      rw [List.drop_eq_getElem_cons hi]
      simp [List.getD_eq_getElem?_getD, List.getElem?_eq_getElem hi]
    have hlen' : i + 1 + rest.length = groups.length := by simp at hlen; omega
    rw [hdrop]
    simp only [List.zip_cons_cons]
    unfold printBodyLoop
    by_cases hd : (list.getD []).length = 0
    · simp only [hd, if_true, condBranches, defaultGroups]
      rw [ih (i + 1) _ ep c hall' hlen']
      cases emitChain tr tc pf (condBranches (rest.zip (List.drop (i + 1) groups))) ep c with
      | error e => rfl
      | ok c1 =>
        simp only
        cases hl : defaultGroups (rest.zip (List.drop (i + 1) groups)) with
        | nil => simp
        | cons g gs =>
          have hgl : (g :: gs).getLast? = some ((g :: gs).getLast (by simp)) :=
            List.getLast?_eq_getLast _ _
          simp [List.getLast?_cons_cons, hgl]
    · obtain ⟨l, rfl⟩ : ∃ l, list = some l := by
        cases list with
        | none => simp at hd
        | some l => exact ⟨l, rfl⟩
      simp only [Option.getD_some] at hd
      simp only [Option.getD_some, hd, if_false, condBranches, defaultGroups, emitChain]
      show (match ((c.withExt (translateConds tc c.ext l).2).Printf
          (ep ++ "if (" ++ String.intercalate " || " (translateConds tc c.ext l).1
            ++ ") \x7b")).Indent
          (lowerBranchBody tr pf (some l) (groups.getD i [])) with
        | .ok c4 => printBodyLoop tr tc pf groups rest (i + 1) d "\x7d else " c4
        | .error e => .error e) = _
      cases ((c.withExt (translateConds tc c.ext l).2).Printf
          (ep ++ "if (" ++ String.intercalate " || " (translateConds tc c.ext l).1
            ++ ") \x7b")).Indent
          (lowerBranchBody tr pf (some l) (groups.getD i [])) with
      | error e => rfl
      | ok c4 => exact ih (i + 1) d "\x7d else " c4 hall' hlen'

theorem printBody_eq_emitChainWithElse
    (tr : Option Stmt → String → PkgContext σ → Except Fatal (PkgContext σ))
    (tc : σ → Expr → String × σ)
    (pf : Option (Option (List Expr) → PkgContext σ → Except Fatal (PkgContext σ)))
    (clauses : List Stmt) (groups : List (List Stmt)) (c : PkgContext σ)
    (hall : allClauses clauses) (hlen : groups.length = clauses.length) :
    printBody tr tc pf clauses groups c =
      emitChainWithElse tr tc pf (condBranches (clauses.zip groups))
        (defaultGroups (clauses.zip groups)).getLast? c := by
  unfold printBody emitChainWithElse
  rw [printBodyLoop_eq_emitChain tr tc pf groups clauses 0 none "" c hall (by simp [hlen])]
  simp only [List.drop_zero]
  cases emitChain tr tc pf (condBranches (clauses.zip groups)) "" c with
  | error e => rfl
  | ok c1 =>
    simp only
    cases (defaultGroups (clauses.zip groups)).getLast? with
    | none => rfl
    | some g => rfl

theorem chainRuns_eq_find (holds : Expr → Bool) (elseBody : Option (List Stmt)) :
    ∀ branches : List (List Expr × List Stmt),
    chainRuns (branches.map (fun b => (b.1.any holds, b.2))) elseBody =
      match branches.find? (fun b => b.1.any holds) with
      | some b => some b.2
      | none => elseBody := by
  intro branches
  induction branches with
  | nil => rfl
  | cons b rest ih =>
    cases hv : b.1.any holds with
    | true => simp [chainRuns, hv]
    | false => simp [chainRuns, hv, ih]

theorem clauseStmts_groupFrom (clauses : List Stmt) (hall : allClauses clauses) :
    ∃ groups, clauseStmts clauses = .ok groups ∧ groups.length = clauses.length ∧
      ∀ j, groups.getD j [] = groupFrom (clauses.drop j) := by
  obtain ⟨groups, hg, hlen, hget⟩ :=
    clauseStmtsLoop_spec clauses 0 (List.replicate clauses.length []) [] hall
      (by simp) List.nodup_nil (by simp)
  refine ⟨groups, hg, by simpa using hlen, ?_⟩
  intro j
  rw [hget j]
  simp [List.getD_eq_getElem?_getD, List.getElem?_replicate]
  split <;> rfl

theorem defaultGroups_length : ∀ (clauses : List Stmt) (groups : List (List Stmt)),
    groups.length = clauses.length →
    (defaultGroups (clauses.zip groups)).length = (clauses.filter unconditional).length := by
  intro clauses
  induction clauses with
  | nil => intro groups _; rfl
  | cons s rest ih =>
    intro groups hlen
    cases groups with
    | nil => simp at hlen
    | cons g gs =>
      have hl : gs.length = rest.length := by simpa using hlen
      cases s with
      | caseClause list body =>
        have h1 := ih gs hl
        by_cases hd : (list.getD []).length = 0
        · simpa [defaultGroups, unconditional, hd] using h1
        · simpa [defaultGroups, unconditional, hd] using h1
      | _ =>
        have h1 := ih gs hl
        simpa [defaultGroups, unconditional] using h1

theorem ifClauses_unconditional :
    ∀ (cond : Expr) (body : List Stmt) (els : Option Stmt) (clauses : List Stmt),
      ifClauses cond body els = .ok clauses →
      (clauses.filter unconditional).length ≤ 1 := by
  refine ifClauses.induct
    (fun cond body els => ∀ clauses : List Stmt,
      ifClauses cond body els = .ok clauses → (clauses.filter unconditional).length ≤ 1)
    (fun cond body elseStmt => ∀ clauses : List Stmt,
      ifClausesElse cond body elseStmt = .ok clauses →
      (clauses.filter unconditional).length ≤ 1) ?_ ?_ ?_ ?_ ?_ ?_ ?_
  · intro cond body init cond1 body1 els1 rest hrest ih clauses h
    simp only [ifClausesElse, hrest] at h
    cases h
    have := ih rest hrest
    simpa [unconditional] using this
  · intro cond body init cond1 body1 els1 e herr ih clauses h
    simp only [ifClausesElse, herr] at h
    cases h
  · intro cond body list clauses h
    simp only [ifClausesElse] at h
    cases h
    simp [unconditional]
  · intro cond body clauses h
    simp only [ifClausesElse] at h
    cases h
    simp [unconditional]
  · intro val cond body h1 h2 h3 clauses h
    cases val <;>
      first
      | exact absurd rfl (h1 _ _ _ _)
      | exact absurd rfl (h2 _)
      | exact absurd rfl h3
      | simp [ifClausesElse] at h
  · intro cond body clauses h
    simp only [ifClauses] at h
    cases h
    simp [unconditional]
  · intro cond body elseStmt ih clauses h
    simp only [ifClauses] at h
    exact ih clauses h

/-- C3: for a clause list with at least one conditional clause and at most one
clause without conditions, `translateBranchingStmt` emits the conditional
clauses in source order as one chain, the first as `if (C) {` and each later
one as `} else if (C) {`, `C` the lowered conditions of the clause joined by
` || `, each followed by the body group of its clause; if a clause without
conditions exists the chain ends with `} else {` holding the body group of the
first such clause, wherever that clause sits in the source; and the chain is
closed by a brace.  The same holds for the chain that `printBody` prints inside
the block of a switch.  So the branch body that runs is that of the first
conditional clause in source order one of whose conditions holds, else the
`else` group.  The clause lists that `ifClauses` builds for an `if` statement
have at most one clause without conditions. -/
theorem translateBranchingStmt_chain (E : Externals σ) (fuel : Nat) (clauses : List Stmt)
    (tc : σ → Expr → String × σ)
    (pf : Option (Option (List Expr) → PkgContext σ → Except Fatal (PkgContext σ)))
    (label : String) (hall : allClauses clauses)
    (hcond : ∃ list body, Stmt.caseClause list body ∈ clauses ∧ (list.getD []).length ≠ 0)
    (hone : (clauses.filter unconditional).length ≤ 1) :
    (∃ groups, clauseStmts clauses = .ok groups ∧
      (∀ c : PkgContext σ,
        translateBranchingStmt E fuel clauses false tc pf label c =
          emitChainWithElse (translateStmt E fuel) tc pf (condBranches (clauses.zip groups))
            (defaultGroups (clauses.zip groups)).head? c) ∧
      (∀ c : PkgContext σ,
        printBody (translateStmt E fuel) tc pf clauses groups c =
          emitChainWithElse (translateStmt E fuel) tc pf (condBranches (clauses.zip groups))
            (defaultGroups (clauses.zip groups)).head? c) ∧
      condBranches (clauses.zip groups) ≠ [] ∧
      (∀ holds : Expr → Bool,
        chainRuns ((condBranches (clauses.zip groups)).map (fun b => (b.1.any holds, b.2)))
            (defaultGroups (clauses.zip groups)).head? =
          match (condBranches (clauses.zip groups)).find? (fun b => b.1.any holds) with
          | some b => some b.2
          | none => (defaultGroups (clauses.zip groups)).head?)) ∧
    (∀ (cond : Expr) (body : List Stmt) (els : Option Stmt) (cl : List Stmt),
      ifClauses cond body els = .ok cl → (cl.filter unconditional).length ≤ 1) := by
  refine ⟨?_, ifClauses_unconditional⟩
  obtain ⟨groups, hg, hlen, hgf⟩ := clauseStmts_groupFrom clauses hall
  clear hgf
  have hlast : (defaultGroups (clauses.zip groups)).getLast? =
      (defaultGroups (clauses.zip groups)).head? := by
    have h1 : (defaultGroups (clauses.zip groups)).length ≤ 1 := by
      rw [defaultGroups_length clauses groups hlen]
      exact hone
    cases hl : defaultGroups (clauses.zip groups) with
    | nil => rfl
    | cons a t =>
      rw [hl] at h1
      cases t with
      | nil => rfl
      | cons b t => simp at h1
  have hpb : ∀ c : PkgContext σ,
      printBody (translateStmt E fuel) tc pf clauses groups c =
        emitChainWithElse (translateStmt E fuel) tc pf (condBranches (clauses.zip groups))
          (defaultGroups (clauses.zip groups)).head? c := by
    intro c
    rw [← hlast]
    exact printBody_eq_emitChainWithElse (translateStmt E fuel) tc pf clauses groups c hall hlen
  obtain ⟨list, body, hmem, hne⟩ := hcond
  refine ⟨groups, hg, ?_, hpb, ?_, ?_⟩
  · intro c
    rw [← hpb c]
    have hgen : translateBranchingGeneral (translateStmt E fuel) clauses false tc pf label c =
        printBody (translateStmt E fuel) tc pf clauses groups c := by
      simp only [translateBranchingGeneral, hg]
      rfl
    unfold translateBranchingStmt translateBranchingStmtWith
    split
    · simp at hmem
    · simp at hmem
      obtain ⟨rfl, _⟩ := hmem
      simp at hne
    · exact hgen
    · rename_i x hx1 hx2
      obtain ⟨l1, b1, hx⟩ := hall x (by simp)
      subst hx
      cases l1 with
      | none => exact absurd rfl (hx1 b1)
      | some l => exact absurd rfl (hx2 l b1)
    · exact hgen
  · clear hpb hg hlast hone
    induction clauses generalizing groups with
    | nil => simp at hmem
    | cons s rest ih =>
      cases groups with
      | nil => simp at hlen
      | cons g gs =>
        obtain ⟨l1, b1, rfl⟩ := hall s (by simp)
        simp only [List.zip_cons_cons, condBranches]
        by_cases hd : (l1.getD []).length = 0
        · simp only [hd, if_true]
          refine ih (fun s hs => hall s (List.mem_cons_of_mem _ hs)) gs (by simpa using hlen) ?_
          simp only [List.mem_cons] at hmem
          rcases hmem with h | h
          · injection h with h1 h2
            subst h1
            exact absurd hd hne
          · exact h
        · simp [hd]
  · intro holds
    exact chainRuns_eq_find holds _ _

/-- The hypotheses of `translateBranchingStmt_chain` hold for the clauses of
`case a, b: f(); default: h(); case i: g()`, whose `else` branch is printed
last although its clause is the second. -/
theorem translateBranchingStmt_chain_witness :
    allClauses sampleChainClauses ∧
    (∃ list body, Stmt.caseClause list body ∈ sampleChainClauses ∧ (list.getD []).length ≠ 0) ∧
    (sampleChainClauses.filter unconditional).length ≤ 1 ∧
    outputTexts (translateBranchingStmt sampleExternals 3 sampleChainClauses false
      sampleExternals.translateExpr none "" sampleContext) =
      some ["if (a || b) \x7b", "f();", "\x7d else if (i) \x7b", "g();", "\x7d else \x7b", "h();",
        "\x7d"] :=
  have h1 : allClauses sampleChainClauses := by simp [allClauses, sampleChainClauses]
  have h2 : ∃ list body, Stmt.caseClause list body ∈ sampleChainClauses ∧
      (list.getD []).length ≠ 0 :=
    ⟨some [.ident "i"], [.exprStmt (.call (.ident "g") [] false)], by
      simp [sampleChainClauses], by decide⟩
  have h3 : (sampleChainClauses.filter unconditional).length ≤ 1 := by decide
  ⟨h1, h2, h3, by
    obtain ⟨⟨groups, hg, heq, _⟩, _⟩ := translateBranchingStmt_chain sampleExternals 3
      sampleChainClauses sampleExternals.translateExpr none "" h1 h2 h3
    have hgroups : groups = [[.exprStmt (.call (.ident "f") [] false)],
        [.exprStmt (.call (.ident "h") [] false)],
        [.exprStmt (.call (.ident "g") [] false)]] := by
      have h3 : clauseStmts sampleChainClauses = .ok
          [[.exprStmt (.call (.ident "f") [] false)],
            [.exprStmt (.call (.ident "h") [] false)],
            [.exprStmt (.call (.ident "g") [] false)]] := rfl
      rw [hg] at h3
      injection h3
    rw [heq sampleContext, hgroups]
    decide⟩

theorem translateStmt_range_map_eq (E : Externals σ) (fuel : Nat) (key value : Option Expr)
    (x : Expr) (body : List Stmt) (label : String) (c : PkgContext σ) (t kt vt : GoType)
    (ht : E.typeOf (rangeCounter E c.ext x).2 x = some t) (hu : t.Underlying = .map kt vt) :
    translateStmt E (fuel + 1) (some (.rangeStmt key value x body)) label c =
      match translateAssign E value ((rangeEntry E c.ext x).1 ++ ".v")
          (mapRangeStart E x label c) with
      | .error e => .error e
      | .ok c4 =>
        match translateAssign E key ((rangeEntry E c.ext x).1 ++ ".k") c4 with
        | .error e => .error e
        | .ok c5 =>
          match translateStmtList E fuel body c5 with
          | .error e => .error e
          | .ok c6 => .ok (rangeEnd c c6) := by
  have ht' : E.typeOf (E.newVariable (E.translateExpr (E.newVariable c.ext "_ref").2 x).2 "_i").2 x
      = some t := ht
  have hi : ∀ c4 c5 c6 : PkgContext σ,
      translateAssign E value ((rangeEntry E c.ext x).1 ++ ".v") (mapRangeStart E x label c)
        = .ok c4 →
      translateAssign E key ((rangeEntry E c.ext x).1 ++ ".k") c4 = .ok c5 →
      translateStmtList E fuel body c5 = .ok c6 → c6.indentation = c.indentation + 1 := by
    intro c4 c5 c6 h4 h5 h6
    have f1 := translateAssign_frame E _ _ _ _ h4
    have f2 := translateAssign_frame E _ _ _ _ h5
    have f3 := translateStmtListWith_frame (translateStmt_frame E fuel) _ _ _ h6
    rw [f3.1, f2.1, f1.1]
    rfl
  cases h4 : translateAssign E value ((rangeEntry E c.ext x).1 ++ ".v")
      (mapRangeStart E x label c) with
  | error e =>
    simp only [mapRangeStart, MapRangeLine.text, rangeRef, rangeExpr, rangeCounter, rangeKeys,
      rangeEntry] at h4
    simp only [translateStmt, translateStmtVia, translateRangeWith]
    simp only [PkgContext.Printf, PkgContext.withExt, ht', hu, translateRangeBody,
      PkgContext.Indent, List.append_assoc, List.singleton_append, List.cons_append,
      List.nil_append, h4]
  | ok c4 =>
    have h4' := h4
    simp only [mapRangeStart, MapRangeLine.text, rangeRef, rangeExpr, rangeCounter, rangeKeys,
      rangeEntry] at h4'
    simp only [translateStmt, translateStmtVia, translateRangeWith]
    simp only [PkgContext.Printf, PkgContext.withExt, ht', hu, translateRangeBody,
      PkgContext.Indent, List.append_assoc, List.singleton_append, List.cons_append,
      List.nil_append, h4']
    cases h5 : translateAssign E key ((rangeEntry E c.ext x).1 ++ ".k") c4 with
    | error e =>
      simp only [rangeRef, rangeExpr, rangeCounter, rangeKeys, rangeEntry] at h5
      simp only [h5]
    | ok c5 =>
      have h5' := h5
      simp only [rangeRef, rangeExpr, rangeCounter, rangeKeys, rangeEntry] at h5'
      simp only [h5']
      cases h6 : translateStmtList E fuel body c5 with
      | error e =>
        simp only [translateStmtList] at h6
        simp only [h6]
      | ok c6 =>
        have h6' := h6
        simp only [translateStmtList] at h6'
        simp only [h6', rangeEnd, hi c4 c5 c6 h4 h5 h6, Nat.add_sub_cancel]

theorem runMapRange_visits (m : Option (List (String × Int))) (label ref counter keys entry : String)
    (rest : (String → MapVal) → (String → MapVal)) (ks : List String)
    (hck : counter ≠ keys) (hek : entry ≠ keys) (hec : entry ≠ counter)
    (hrest : ∀ s, rest s keys = s keys ∧ rest s counter = s counter) :
    ∀ (fuel i : Nat) (s : String → MapVal), s counter = .number i → s keys = .keys ks →
      ks.length ≤ i + fuel →
      (runMapRange m (.header label counter keys) (.readEntry entry ref keys counter) rest
        fuel s).map (fun s1 => s1 entry) = (ks.drop i).map MapVal.entry := by
  intro fuel
  induction fuel with
  | zero =>
    intro i s _ _ h
    rw [List.drop_eq_nil_of_le (by omega)]
    rfl
  | succ fuel ih =>
    intro i s hc hk h
    simp only [runMapRange, MapRangeLine.test, hc, hk]
    by_cases hi : i < ks.length
    · simp only [hi, decide_True, if_true, List.map_cons]
      have h1c : (MapRangeLine.readEntry entry ref keys counter).run m s counter = .number i := by
        simp only [MapRangeLine.run, assignVar, Ne.symm hec, if_false, hc]
      have h1k : (MapRangeLine.readEntry entry ref keys counter).run m s keys = .keys ks := by
        simp only [MapRangeLine.run, assignVar, Ne.symm hek, if_false, hk]
      have h1e : (MapRangeLine.readEntry entry ref keys counter).run m s entry =
          .entry (ks.get ⟨i, hi⟩) := by
        simp only [MapRangeLine.run, assignVar, if_true, hc, hk, List.get?_eq_get hi]
      have h2c := (hrest ((MapRangeLine.readEntry entry ref keys counter).run m s)).2
      have h2k := (hrest ((MapRangeLine.readEntry entry ref keys counter).run m s)).1
      rw [h1c] at h2c
      rw [h1k] at h2k
      have g3c : ∀ s2 : String → MapVal, s2 counter = .number i →
          (MapRangeLine.header label counter keys).run m s2 counter = .number (i + 1) := by
        intro s2 h2
        simp only [MapRangeLine.run, assignVar, if_true, h2]
      have g3k : ∀ s2 : String → MapVal,
          (MapRangeLine.header label counter keys).run m s2 keys = s2 keys := by
        intro s2
        simp only [MapRangeLine.run, assignVar, Ne.symm hck, if_false]
      have h3c := g3c _ h2c
      have h3k := (g3k (rest ((MapRangeLine.readEntry entry ref keys counter).run m s))).trans h2k
      rw [ih (i + 1) _ h3c h3k (by omega), h1e, List.drop_eq_getElem_cons hi]
      rfl
    · simp only [hi, decide_False, Bool.false_eq_true, if_false]
      rw [List.drop_eq_nil_of_le (by omega)]
      rfl

theorem runMapRange_snapshot (m : Option (List (String × Int)))
    (label ref value counter keys entry : String)
    (rest : (String → MapVal) → (String → MapVal)) (s0 : String → MapVal) (fuel : Nat)
    (hrc : ref ≠ counter)
    (hck : counter ≠ keys) (hek : entry ≠ keys) (hec : entry ≠ counter)
    (hrest : ∀ s, rest s keys = s keys ∧ rest s counter = s counter)
    (hf : (keySnapshot m).length ≤ fuel) :
    (runMapRange m (.header label counter keys) (.readEntry entry ref keys counter) rest fuel
      ([MapRangeLine.setRef ref value, .setCounter counter, .setKeys keys ref].foldl
        (fun s l => l.run m s) s0)).map (fun s1 => s1 entry) =
      (keySnapshot m).map MapVal.entry := by
  have h := runMapRange_visits m label ref counter keys entry rest (keySnapshot m) hck hek hec
    hrest fuel 0
    ([MapRangeLine.setRef ref value, .setCounter counter, .setKeys keys ref].foldl
      (fun s l => l.run m s) s0)
    (by simp [MapRangeLine.run, assignVar, hck])
    (by simp [MapRangeLine.run, assignVar, hrc])
    (by omega)
  simpa using h

/-- C6: a range statement over a map-typed expression returns whenever the
writes of its value and key targets and the statements of its body are lowered,
and fails only with them.  Before the loop and at the indentation of the
statement it prints the ranged expression stored once into the fresh `ref`, the
counter set to `0`, and the single snapshot
`keys = ref !== null ? Go$keys(ref) : [];`; then the loop header
`for (; counter < keys.length; counter++) {`; inside the loop the entry read
`entry = ref[keys[counter]];`, the writes of the value and key targets and the
lowered body; and the closing brace.  When the fresh names differ from one
another, the one line among those of the range lowering that assigns `keys` is
the snapshot before the loop: the header assigns the counter and the entry read
assigns `entry`.  Run on variables in which `keys` and the counter are stored
like any other, with a loop body that assigns neither of the two, the loop
calls the body once per key of the snapshot taken at loop entry, in order, none
for a null map, whatever the body does to the map. -/
theorem translateStmt_range_map (E : Externals σ) (fuel : Nat) (key value : Option Expr)
    (x : Expr) (body : List Stmt) (label : String) (c : PkgContext σ) (t kt vt : GoType)
    (ht : E.typeOf (rangeCounter E c.ext x).2 x = some t) (hu : t.Underlying = .map kt vt) :
    (translateStmt E (fuel + 1) (some (.rangeStmt key value x body)) label c =
      match translateAssign E value ((rangeEntry E c.ext x).1 ++ ".v")
          (mapRangeStart E x label c) with
      | .error e => .error e
      | .ok c4 =>
        match translateAssign E key ((rangeEntry E c.ext x).1 ++ ".k") c4 with
        | .error e => .error e
        | .ok c5 =>
          match translateStmtList E fuel body c5 with
          | .error e => .error e
          | .ok c6 => .ok (rangeEnd c c6)) ∧
    ((rangeRef E c.ext).1 ≠ (rangeKeys E c.ext x).1 →
      (rangeCounter E c.ext x).1 ≠ (rangeKeys E c.ext x).1 →
      (rangeEntry E c.ext x).1 ≠ (rangeKeys E c.ext x).1 →
      [ MapRangeLine.setRef (rangeRef E c.ext).1 (rangeExpr E c.ext x).1,
        .setCounter (rangeCounter E c.ext x).1,
        .setKeys (rangeKeys E c.ext x).1 (rangeRef E c.ext).1 ].filter
          (fun l => l.assigns = some (rangeKeys E c.ext x).1) =
        [.setKeys (rangeKeys E c.ext x).1 (rangeRef E c.ext).1] ∧
      [ MapRangeLine.header label (rangeCounter E c.ext x).1 (rangeKeys E c.ext x).1,
        .readEntry (rangeEntry E c.ext x).1 (rangeRef E c.ext).1 (rangeKeys E c.ext x).1
          (rangeCounter E c.ext x).1,
        .close ].filter (fun l => l.assigns = some (rangeKeys E c.ext x).1) = []) ∧
    (∀ (m : Option (List (String × Int))) (rest : (String → MapVal) → (String → MapVal))
      (s0 : String → MapVal) (n : Nat),
      (rangeRef E c.ext).1 ≠ (rangeCounter E c.ext x).1 →
      (rangeCounter E c.ext x).1 ≠ (rangeKeys E c.ext x).1 →
      (rangeEntry E c.ext x).1 ≠ (rangeKeys E c.ext x).1 →
      (rangeEntry E c.ext x).1 ≠ (rangeCounter E c.ext x).1 →
      (∀ s, rest s (rangeKeys E c.ext x).1 = s (rangeKeys E c.ext x).1 ∧
        rest s (rangeCounter E c.ext x).1 = s (rangeCounter E c.ext x).1) →
      (keySnapshot m).length ≤ n →
      (runMapRange m
        (.header label (rangeCounter E c.ext x).1 (rangeKeys E c.ext x).1)
        (.readEntry (rangeEntry E c.ext x).1 (rangeRef E c.ext).1 (rangeKeys E c.ext x).1
          (rangeCounter E c.ext x).1) rest n
        ([ MapRangeLine.setRef (rangeRef E c.ext).1 (rangeExpr E c.ext x).1,
            .setCounter (rangeCounter E c.ext x).1,
            .setKeys (rangeKeys E c.ext x).1 (rangeRef E c.ext).1 ].foldl
          (fun s l => l.run m s) s0)).map (fun s1 => s1 (rangeEntry E c.ext x).1) =
        (keySnapshot m).map MapVal.entry) ∧
    keySnapshot none = [] ∧
    outputTexts (translateStmt sampleExternals 3 (some sampleMapRange) "" sampleContext) =
      some ["_ref0 = m;", "_i1 = 0;", "_keys2 = _ref0 !== null ? Go$keys(_ref0) : [];",
        "for (; _i1 < _keys2.length; _i1++) \x7b", "_entry3 = _ref0[_keys2[_i1]];",
        "b = _entry3.v;", "a = _entry3.k;", "_key4 = a;",
        "m[_key4] = \x7b k: _key4, v: b \x7d;", "\x7d"] ∧
    ["_ref0 = m;", "_i1 = 0;", "_keys2 = _ref0 !== null ? Go$keys(_ref0) : [];",
        "for (; _i1 < _keys2.length; _i1++) \x7b", "_entry3 = _ref0[_keys2[_i1]];",
        "b = _entry3.v;", "a = _entry3.k;", "_key4 = a;",
        "m[_key4] = \x7b k: _key4, v: b \x7d;", "\x7d"].filter (assignsText "_keys2") =
      ["_keys2 = _ref0 !== null ? Go$keys(_ref0) : [];"] := by
  refine ⟨translateStmt_range_map_eq E fuel key value x body label c t kt vt ht hu, ?_, ?_, rfl,
    by decide, by decide⟩
  · intro hrk hck hek
    simp [MapRangeLine.assigns, hrk, hck, hek]
  · intro m rest s0 n hrc hck hek hec hrest hn
    exact runMapRange_snapshot m label _ _ _ _ _ rest s0 n hrc hck hek hec hrest hn

/-- The hypotheses of `translateStmt_range_map` hold for
`for a, b = range m { m[a] = b }`: the statement is lowered, and the emitted
loop, run on a map with the keys `a` and `b` with a body that inserts the key
`c`, calls the body for `a` and `b` only. -/
theorem translateStmt_range_map_witness :
    sampleExternals.typeOf (rangeCounter sampleExternals sampleContext.ext (.ident "m")).2
      (.ident "m") = some (.map (.basic "string") (.basic "int")) ∧
    (∃ c1, translateStmt sampleExternals 3 (some sampleMapRange) "" sampleContext = .ok c1 ∧
      c1.output.map Line.text =
        ["_ref0 = m;", "_i1 = 0;", "_keys2 = _ref0 !== null ? Go$keys(_ref0) : [];",
          "for (; _i1 < _keys2.length; _i1++) \x7b", "_entry3 = _ref0[_keys2[_i1]];",
          "b = _entry3.v;", "a = _entry3.k;", "_key4 = a;",
          "m[_key4] = \x7b k: _key4, v: b \x7d;", "\x7d"]) ∧
    (∀ s, sampleInsert s "_keys2" = s "_keys2" ∧ sampleInsert s "_i1" = s "_i1") ∧
    (runMapRange (some [("a", 1), ("b", 2)]) (.header "" "_i1" "_keys2")
      (.readEntry "_entry3" "_ref0" "_keys2" "_i1") sampleInsert 5
      ([MapRangeLine.setRef "_ref0" "m", .setCounter "_i1", .setKeys "_keys2" "_ref0"].foldl
        (fun s l => l.run (some [("a", 1), ("b", 2)]) s) (fun _ => .undefined))).map
        (fun s1 => s1 "_entry3") = [.entry "a", .entry "b"] := by
  have hw := translateStmt_range_map sampleExternals 2 (some (.ident "a")) (some (.ident "b"))
    (.ident "m") [.assign [.index (.ident "m") (.ident "a")] Token.ASSIGN [.ident "b"]]
    "" sampleContext (.map (.basic "string") (.basic "int")) (.basic "string") (.basic "int")
    rfl rfl
  have hrest : ∀ s, sampleInsert s "_keys2" = s "_keys2" ∧ sampleInsert s "_i1" = s "_i1" := by
    intro s
    exact ⟨by simp [sampleInsert, assignVar], by simp [sampleInsert, assignVar]⟩
  refine ⟨rfl, ?_, hrest, ?_⟩
  · cases hr : translateStmt sampleExternals 3 (some sampleMapRange) "" sampleContext with
    | error e =>
      have hd := hw.2.2.2.2.1
      rw [hr] at hd
      simp [outputTexts] at hd
    | ok c1 =>
      have hd := hw.2.2.2.2.1
      rw [hr] at hd
      simp only [outputTexts, Option.some.injEq] at hd
      exact ⟨c1, rfl, hd⟩
  · exact hw.2.2.1 (some [("a", 1), ("b", 2)]) sampleInsert (fun _ => .undefined) 5
      (by decide) (by decide) (by decide) (by decide) hrest (by decide)

theorem translateAssign_slice_lines (E : Externals σ) (lhs x idx : Expr) (rhs : String)
    (c : PkgContext σ) (t elem : GoType)
    (hl : stripParens lhs = .index x idx) (ht : E.typeOf c.ext x = some t)
    (hu : t.Underlying = .slice elem) :
    ∃ c1, translateAssign E (some lhs) rhs c = .ok c1 ∧
      c1.output = c.output ++
        [ ⟨c.indentation, "Go$obj = " ++ (E.translateExpr c.ext x).1 ++ ";"⟩,
          ⟨c.indentation,
            "Go$index = " ++ (E.translateExpr (E.translateExpr c.ext x).2 idx).1 ++ ";"⟩,
          ⟨c.indentation, sliceGuardLine⟩,
          ⟨c.indentation, "Go$obj.array[Go$obj.offset + Go$index] = " ++ rhs ++ ";"⟩ ] := by
  have h : translateAssign E (some lhs) rhs c = .ok
      ((((((c.withExt (E.translateExpr c.ext x).2).Printf
          ("Go$obj = " ++ (E.translateExpr c.ext x).1 ++ ";")).withExt
          (E.translateExpr (E.translateExpr c.ext x).2 idx).2).Printf
          ("Go$index = " ++ (E.translateExpr (E.translateExpr c.ext x).2 idx).1 ++ ";")).Printf
          sliceGuardLine).Printf ("Go$obj.array[Go$obj.offset + Go$index] = " ++ rhs ++ ";")) := by
    simp only [translateAssign, Option.map_some', hl, isUnderscore, ht, hu]
    rfl
  exact ⟨_, h, by simp [PkgContext.Printf, PkgContext.withExt]⟩

theorem translateStmt_compound_eq (E : Externals σ) (fuel : Nat) (label : String)
    (c : PkgContext σ) (p : Token × Token) (hp : p ∈ compoundOperators)
    (lhs0 rhs0 : Expr) (lhsRest rhsRest : List Expr) :
    translateStmt E (fuel + 1)
        (some (.assign (lhs0 :: lhsRest) p.1 (rhs0 :: rhsRest))) label c =
      translateAssign E (some lhs0)
        (E.translateExpr (compoundExt E c.ext lhs0 rhs0 p.2) (.binary lhs0 p.2 (.paren rhs0))).1
        (c.withExt (E.translateExpr (compoundExt E c.ext lhs0 rhs0 p.2)
          (.binary lhs0 p.2 (.paren rhs0))).2) := by
  obtain ⟨hop, hna, hnd⟩ := compoundOp_of_mem p hp
  simp only [translateStmt, translateStmtVia, translateAssignStmt, hop, hna, hnd, ne_eq,
    not_false_eq_true, and_self, if_true, compoundExt]

/-- C10, as the code has it: a compound assignment hands its first target,
whatever its shape, to `translateAssign` as the write target, and as the value
the lowering of the binary expression `lhs OP (rhs)` whose left operand is that
same target.  For a target that indexes a slice the write prints four lines: it
lowers the container into `Go$obj` and the index into `Go$index`, and stores
the value, in which the expression lowering has been given the container and
the index a second time.  So `xs[f()] += 1` is lowered to lines that hold the
call `f()` twice, in `Go$index = f();` and in the stored value `xs[f()] + (1)`,
while the plain assignment `xs[f()] = 1` is lowered to lines that hold it once;
and `m[f()] += 1` on a map likewise holds the call in the key line and in the
stored value. -/
theorem translateStmt_compound_index (E : Externals σ) (fuel : Nat) (label : String)
    (c : PkgContext σ) (p : Token × Token) (lhs0 x idx rhs0 : Expr)
    (lhsRest rhsRest : List Expr) (t elem : GoType)
    (hp : p ∈ compoundOperators) (hl : stripParens lhs0 = .index x idx)
    (ht : E.typeOf (E.translateExpr (compoundExt E c.ext lhs0 rhs0 p.2)
      (.binary lhs0 p.2 (.paren rhs0))).2 x = some t)
    (hu : t.Underlying = .slice elem) :
    (∀ (l0 r0 : Expr) (ls rs : List Expr),
      translateStmt E (fuel + 1) (some (.assign (l0 :: ls) p.1 (r0 :: rs))) label c =
        translateAssign E (some l0)
          (E.translateExpr (compoundExt E c.ext l0 r0 p.2) (.binary l0 p.2 (.paren r0))).1
          (c.withExt (E.translateExpr (compoundExt E c.ext l0 r0 p.2)
            (.binary l0 p.2 (.paren r0))).2)) ∧
    (∃ c1, translateStmt E (fuel + 1)
        (some (.assign (lhs0 :: lhsRest) p.1 (rhs0 :: rhsRest))) label c = .ok c1 ∧
      c1.output = c.output ++
        [ ⟨c.indentation, "Go$obj = " ++ (E.translateExpr (E.translateExpr
            (compoundExt E c.ext lhs0 rhs0 p.2) (.binary lhs0 p.2 (.paren rhs0))).2 x).1 ++ ";"⟩,
          ⟨c.indentation, "Go$index = " ++ (E.translateExpr (E.translateExpr (E.translateExpr
            (compoundExt E c.ext lhs0 rhs0 p.2) (.binary lhs0 p.2 (.paren rhs0))).2 x).2 idx).1
            ++ ";"⟩,
          ⟨c.indentation, sliceGuardLine⟩,
          ⟨c.indentation, "Go$obj.array[Go$obj.offset + Go$index] = " ++
            (E.translateExpr (compoundExt E c.ext lhs0 rhs0 p.2)
              (.binary lhs0 p.2 (.paren rhs0))).1 ++ ";"⟩ ]) ∧
    outputTexts (translateStmt sampleExternals 1 (some sampleIndexedCompound) "" sampleContext) =
      some ["Go$obj = xs;", "Go$index = f();", sliceGuardLine,
        "Go$obj.array[Go$obj.offset + Go$index] = xs[f()] + (1);"] ∧
    outputTexts (translateStmt sampleExternals 1 (some sampleIndexedPlain) "" sampleContext) =
      some ["Go$obj = xs;", "Go$index = f();", sliceGuardLine,
        "Go$obj.array[Go$obj.offset + Go$index] = 1;"] ∧
    occurrences "f()" ["Go$obj = xs;", "Go$index = f();", sliceGuardLine,
      "Go$obj.array[Go$obj.offset + Go$index] = xs[f()] + (1);"] = 2 ∧
    occurrences "f()" ["Go$obj = xs;", "Go$index = f();", sliceGuardLine,
      "Go$obj.array[Go$obj.offset + Go$index] = 1;"] = 1 ∧
    outputTexts (translateStmt sampleExternals 1 (some sampleMapCompound) "" sampleContext) =
      some ["_key0 = f();", "m[_key0] = \x7b k: _key0, v: m[f()] + (1) \x7d;"] := by
  refine ⟨fun l0 r0 ls rs => translateStmt_compound_eq E fuel label c p hp l0 r0 ls rs, ?_,
    by decide, by decide, by decide, by decide, by decide⟩
  obtain ⟨c1, h2, h3⟩ := translateAssign_slice_lines E lhs0 x idx
    (E.translateExpr (compoundExt E c.ext lhs0 rhs0 p.2) (.binary lhs0 p.2 (.paren rhs0))).1
    (c.withExt (E.translateExpr (compoundExt E c.ext lhs0 rhs0 p.2)
      (.binary lhs0 p.2 (.paren rhs0))).2) t elem hl ht hu
  exact ⟨c1, (translateStmt_compound_eq E fuel label c p hp lhs0 rhs0 lhsRest rhsRest).trans h2,
    h3⟩

/-- The hypotheses of `translateStmt_compound_index` hold for `xs[f()] += 1`,
`xs` a slice. -/
theorem translateStmt_compound_index_witness :
    (Token.ADD_ASSIGN, Token.ADD) ∈ compoundOperators ∧
    stripParens (.index (.ident "xs") (.call (.ident "f") [] false)) =
      .index (.ident "xs") (.call (.ident "f") [] false) ∧
    ∃ c1, translateStmt sampleExternals 1 (some sampleIndexedCompound) "" sampleContext =
        .ok c1 ∧
      c1.output.map Line.text = ["Go$obj = xs;", "Go$index = f();", sliceGuardLine,
        "Go$obj.array[Go$obj.offset + Go$index] = xs[f()] + (1);"] := by
  refine ⟨by decide, rfl, ?_⟩
  obtain ⟨_, ⟨c1, h1, h2⟩, _⟩ := translateStmt_compound_index sampleExternals 0 ""
    sampleContext
    (Token.ADD_ASSIGN, Token.ADD) (.index (.ident "xs") (.call (.ident "f") [] false))
    (.ident "xs") (.call (.ident "f") [] false) (.basicLit "INT" "1") [] []
    (.slice (.basic "int")) (.basic "int") (by decide) rfl rfl rfl
  refine ⟨c1, h1, ?_⟩
  rw [h2]
  decide

theorem SameTable.self (c : PkgContext σ) : SameTable c c := rfl

theorem SameTable.andThen {a b c : PkgContext σ} (h1 : SameTable a b) (h2 : SameTable b c) :
    SameTable a c := Eq.trans h2 h1

theorem SameTable.afterPrintf (c : PkgContext σ) (text : String) : SameTable c (c.Printf text) := rfl

theorem SameTable.afterWithExt (c : PkgContext σ) (e : σ) : SameTable c (c.withExt e) := rfl

theorem SameTable.addPrintf {a c : PkgContext σ} (h : SameTable a c) (text : String) :
    SameTable a (c.Printf text) := h.andThen (SameTable.afterPrintf c text)

theorem SameTable.addWithExt {a c : PkgContext σ} (h : SameTable a c) (e : σ) :
    SameTable a (c.withExt e) := h.andThen (SameTable.afterWithExt c e)

theorem SameTable.ofIndent {c c1 : PkgContext σ} {f : PkgContext σ → Except Fatal (PkgContext σ)}
    (hf : KeepsTable f) (h : c.Indent f = .ok c1) : SameTable c c1 := by
  obtain ⟨c2, hc2, rfl⟩ := indent_ok h
  exact hf { c with indentation := c.indentation + 1 } c2 hc2

theorem printFields_table (l r : String) (fields : List (String × GoType)) :
    ∀ c : PkgContext σ, SameTable c (printFields c l r fields) := by
  induction fields with
  | nil => intro c; exact SameTable.self c
  | cons f fs ih => intro c; exact (SameTable.afterPrintf c _).andThen (ih _)

theorem SameTable.addPrintFields {a c : PkgContext σ} (h : SameTable a c) (l r : String)
    (fields : List (String × GoType)) : SameTable a (printFields c l r fields) :=
  h.andThen (printFields_table l r fields c)

theorem translateAssign_table (E : Externals σ) (lhs : Option Expr) (rhs : String) :
    KeepsTable (translateAssign E lhs rhs) := by
  intro c c1 h
  unfold translateAssign at h
  split at h
  · cases h; exact SameTable.self _
  · split at h
    · cases h; exact SameTable.self _
    · split at h
      · cases h
        exact SameTable.addPrintf (SameTable.afterWithExt c _) _
      · split at h
        · cases h
        · split at h
          · cases h
            exact SameTable.addPrintFields (SameTable.addWithExt (SameTable.afterPrintf c _) _) _ _ _
          · cases h
            exact SameTable.addPrintf (SameTable.afterWithExt c _) _
      · split at h
        · cases h
        · split at h
          · cases h
            exact SameTable.addPrintFields (SameTable.addPrintf (SameTable.addPrintf (SameTable.afterWithExt c _) _) _)
              _ _ _
          · cases h
            exact SameTable.addPrintf (SameTable.addWithExt
              (SameTable.addPrintf (SameTable.addPrintf (SameTable.afterWithExt c _) _) _) _) _
          · cases h
            exact SameTable.addPrintf (SameTable.afterWithExt c _) _
      · split at h
        · cases h
        · split at h
          all_goals
            cases h <;> first
              | exact SameTable.addPrintf (SameTable.afterWithExt c _) _
              | exact SameTable.addPrintf (SameTable.addPrintf (SameTable.addPrintf (SameTable.addWithExt
                  (SameTable.addPrintf (SameTable.afterWithExt c _) _) _) _) _) _
              | exact SameTable.addPrintf (SameTable.addWithExt
                  (SameTable.addPrintf (SameTable.afterWithExt c _) _) _) _
      · cases h

theorem assignAll_table (E : Externals σ) : ∀ (lhs : List Expr) (rhss : List String),
    KeepsTable (assignAll E lhs rhss) := by
  intro lhs
  induction lhs with
  | nil => intro rhss c c1 h; cases h; exact SameTable.self _
  | cons l rest ih =>
    intro rhss c c1 h
    simp only [assignAll] at h
    split at h
    · rename_i c2 hc2
      exact (translateAssign_table E _ _ _ _ hc2).andThen (ih _ _ _ h)
    · cases h

theorem translateAssignStmt_table (E : Externals σ) (lhs : List Expr) (tok : Token)
    (rhs : List Expr) : KeepsTable (translateAssignStmt E lhs tok rhs) := by
  intro c c1 h
  unfold translateAssignStmt at h
  split at h
  · split at h
    · cases h
    · split at h
      · exact (SameTable.afterWithExt c _).andThen (translateAssign_table E _ _ _ _ h)
      · cases h
  · split at h
    · cases h
    · rename_i e0 _
      simp only at h
      split at h
      · split at h
        · cases h
          exact SameTable.addPrintf (SameTable.addWithExt (SameTable.afterWithExt c _) _) _
        · exact (SameTable.addWithExt (SameTable.afterWithExt c _) _).andThen (assignAll_table E _ _ _ _ h)
      · split at h
        · split at h
          · split at h
            · cases h
            · exact (SameTable.addPrintf (SameTable.addWithExt (SameTable.afterWithExt c _) _) _).andThen
                (assignAll_table E _ _ _ _ h)
          · cases h
        · split at h
          · exact (SameTable.addPrintf (SameTable.addWithExt (SameTable.afterWithExt c _) _) _).andThen
              (assignAll_table E _ _ _ _ h)
          · cases h

theorem translateDeferStmt_table (E : Externals σ) (fn : Expr) (args : List Expr)
    (ellipsis : Bool) : KeepsTable (translateDeferStmt E fn args ellipsis) := by
  intro c c1 h
  unfold translateDeferStmt at h
  repeat' split at h
  all_goals try (cases h)
  all_goals
    repeat
      first
      | exact SameTable.self _
      | apply SameTable.addPrintf
      | apply SameTable.addWithExt

theorem typeSwitchPrefix_table (E : Externals σ) (typeSwitchVar refVar : String)
    (conds : Option (List Expr)) : KeepsTable (typeSwitchPrefix E typeSwitchVar refVar conds) := by
  intro c c1 h
  unfold typeSwitchPrefix at h
  repeat' split at h
  all_goals try (cases h)
  all_goals
    repeat
      first
      | exact SameTable.self _
      | apply SameTable.addPrintf
      | apply SameTable.addWithExt

theorem foldl_printf_table (texts : List String) : ∀ c : PkgContext σ,
    SameTable c (texts.foldl (fun c1 text => c1.Printf text) c) := by
  induction texts with
  | nil => intro c; exact SameTable.self c
  | cons t ts ih => intro c; exact (SameTable.afterPrintf c t).andThen (ih _)

theorem translateSpecs_table (E : Externals σ) (specs : List String) :
    ∀ c : PkgContext σ, SameTable c (translateSpecs E specs c) := by
  induction specs with
  | nil => intro c; exact SameTable.self c
  | cons sp rest ih =>
    intro c
    exact ((SameTable.afterWithExt c _).andThen (foldl_printf_table _ _)).andThen (ih _)

theorem callPrefix_table
    {pf : Option (Option (List Expr) → PkgContext σ → Except Fatal (PkgContext σ))}
    (hpf : ∀ f, pf = some f → ∀ conds, KeepsTable (f conds)) (conds : Option (List Expr)) :
    KeepsTable (callPrefix pf conds) := by
  intro c c1 h
  unfold callPrefix at h
  split at h
  · cases h; exact SameTable.self _
  · rename_i f
    exact hpf f rfl conds _ _ h

theorem lookupPost_cons (p : String × Option Stmt) (rest : List (String × Option Stmt))
    (k1 : String) :
    lookupPost (p :: rest) k1 = if p.1 = k1 then p.2 else lookupPost rest k1 := by
  by_cases h : p.1 = k1
  · simp [lookupPost, List.find?, h]
  · have h1 : (p.1 == k1) = false := by simpa using h
    simp [lookupPost, List.find?, h, h1]

theorem deletePost_cons (p : String × Option Stmt) (rest : List (String × Option Stmt))
    (k : String) :
    deletePost (p :: rest) k = if p.1 = k then deletePost rest k else p :: deletePost rest k := by
  by_cases h : p.1 = k
  · simp [deletePost, h]
  · simp [deletePost, h]

theorem lookupPost_deletePost (m : List (String × Option Stmt)) (k k1 : String) :
    lookupPost (deletePost m k) k1 = if k1 = k then none else lookupPost m k1 := by
  induction m with
  | nil => simp [lookupPost, deletePost]
  | cons p rest ih =>
    rw [deletePost_cons, lookupPost_cons]
    by_cases hp : p.1 = k
    · rw [if_pos hp, ih]
      by_cases hk : k1 = k
      · simp [hk]
      · have h2 : ¬ p.1 = k1 := by rw [hp]; exact fun h => hk h.symm
        simp [hk, h2]
    · rw [if_neg hp, lookupPost_cons, ih]
      by_cases hq : p.1 = k1
      · have hk : ¬ k1 = k := by rw [← hq]; exact hp
        simp [hq, hk]
      · simp [hq]

theorem lookupPost_setPost (m : List (String × Option Stmt)) (k k1 : String) (v : Option Stmt) :
    lookupPost (setPost m k v) k1 = if k1 = k then v else lookupPost m k1 := by
  unfold setPost
  rw [lookupPost_cons, lookupPost_deletePost]
  by_cases hk : k1 = k
  · simp [hk]
  · have h2 : ¬ k = k1 := fun h => hk h.symm
    simp [hk, h2]

theorem TableIs.same {env : String → Option Stmt} {c c1 : PkgContext σ}
    (h : TableIs env c) (hs : SameTable c c1) : TableIs env c1 := by
  intro k
  rw [hs]
  exact h k

theorem Step.of_keeps {env : String → Option Stmt}
    {f : PkgContext σ → Except Fatal (PkgContext σ)} (hf : KeepsTable f) : Step env f f :=
  fun c hc => ⟨rfl, fun c1 h => hc.same (hf c c1 h)⟩

theorem Step.indented {env : String → Option Stmt}
    {f g : PkgContext σ → Except Fatal (PkgContext σ)} (h : Step env f g) :
    Step env (fun c => c.Indent f) (fun c => c.Indent g) := by
  intro c hc
  have hc' : TableIs env ({ c with indentation := c.indentation + 1 } : PkgContext σ) := hc
  obtain ⟨h1, h2⟩ := h _ hc'
  refine ⟨?_, ?_⟩
  · simp only [PkgContext.Indent, h1]
  · intro c1 hc1
    obtain ⟨c2, hc2, rfl⟩ := indent_ok hc1
    exact h2 c2 hc2

theorem Step.seq {env : String → Option Stmt}
    {f1 g1 f2 g2 : PkgContext σ → Except Fatal (PkgContext σ)}
    (h1 : Step env f1 g1) (h2 : Step env f2 g2) :
    Step env (fun c => match f1 c with
        | .ok c1 => f2 c1
        | .error e => .error e)
      (fun c => match g1 c with
        | .ok c1 => g2 c1
        | .error e => .error e) := by
  intro c hc
  obtain ⟨ha, hb⟩ := h1 c hc
  simp only [← ha]
  cases hf : f1 c with
  | error e => exact ⟨rfl, fun c1 h => by cases h⟩
  | ok c1 => exact h2 c1 (hb c1 hf)

theorem translateStmtListWith_step {env : String → Option Stmt}
    {tr1 tr2 : Option Stmt → String → PkgContext σ → Except Fatal (PkgContext σ)} :
    ∀ stmts : List Stmt, AgreeOn env tr1 tr2 stmts →
      Step env (translateStmtListWith tr1 stmts) (translateStmtListWith tr2 stmts) := by
  intro stmts
  induction stmts with
  | nil => intro _ c hc; exact ⟨rfl, fun c1 h => by cases h; exact hc⟩
  | cons s rest ih =>
    intro ha
    exact Step.seq (ha s (List.mem_cons_self _ _))
      (ih (fun s1 hs1 => ha s1 (List.mem_cons_of_mem _ hs1)))

theorem branchBody_step {env : String → Option Stmt}
    {tr1 tr2 : Option Stmt → String → PkgContext σ → Except Fatal (PkgContext σ)}
    {pf : Option (Option (List Expr) → PkgContext σ → Except Fatal (PkgContext σ))}
    (hpf : ∀ f, pf = some f → ∀ conds, KeepsTable (f conds))
    (conds : Option (List Expr)) (stmts : List Stmt) (ha : AgreeOn env tr1 tr2 stmts) :
    Step env (fun c2 => match callPrefix pf conds c2 with
        | .ok c3 => translateStmtListWith tr1 stmts c3
        | .error e => .error e)
      (fun c2 => match callPrefix pf conds c2 with
        | .ok c3 => translateStmtListWith tr2 stmts c3
        | .error e => .error e) :=
  Step.seq (Step.of_keeps (callPrefix_table hpf conds)) (translateStmtListWith_step stmts ha)

theorem bind_agree {α : Type} {env : String → Option Stmt} {P : α → Prop}
    {f g : PkgContext σ → Except Fatal (PkgContext σ)} {k1 k2 : PkgContext σ → Except Fatal α}
    (hs : Step env f g) {c0 : PkgContext σ} (hc0 : TableIs env c0)
    (hk : ∀ c, TableIs env c → k1 c = k2 c ∧ ∀ r, k1 c = .ok r → P r) :
    (match f c0 with
      | .ok c => k1 c
      | .error e => .error e) =
      (match g c0 with
      | .ok c => k2 c
      | .error e => .error e) ∧
    ∀ r, (match f c0 with
      | .ok c => k1 c
      | .error e => .error e) = .ok r → P r := by
  obtain ⟨h1, h2⟩ := hs c0 hc0
  rw [← h1]
  cases hx : f c0 with
  | error e => exact ⟨rfl, fun r h => by cases h⟩
  | ok c => exact hk c (h2 c hx)

theorem printBodyLoop_step {env : String → Option Stmt}
    {tr1 tr2 : Option Stmt → String → PkgContext σ → Except Fatal (PkgContext σ)}
    {pf : Option (Option (List Expr) → PkgContext σ → Except Fatal (PkgContext σ))}
    (hpf : ∀ f, pf = some f → ∀ conds, KeepsTable (f conds))
    (tc : σ → Expr → String × σ) (groups : List (List Stmt))
    (ha : ∀ j, AgreeOn env tr1 tr2 (groups.getD j [])) :
    ∀ (clauses : List Stmt) (i : Nat) (d : Option (List Stmt)) (ep : String) (c : PkgContext σ),
      TableIs env c →
      printBodyLoop tr1 tc pf groups clauses i d ep c =
        printBodyLoop tr2 tc pf groups clauses i d ep c ∧
      ∀ r, printBodyLoop tr1 tc pf groups clauses i d ep c = .ok r →
        TableIs env r.2 ∧ (r.1 = d ∨ ∃ j, r.1 = some (groups.getD j [])) := by
  intro clauses
  induction clauses with
  | nil => intro i d ep c hc; exact ⟨rfl, fun r h => by cases h; exact ⟨hc, Or.inl rfl⟩⟩
  | cons child rest ih =>
    intro i d ep c hc
    cases child with
    | caseClause list body =>
      simp only [printBodyLoop]
      by_cases hd : (list.getD []).length = 0
      · simp only [hd, if_true]
        obtain ⟨h1, h2⟩ := ih (i + 1) (some (groups.getD i [])) ep c hc
        refine ⟨h1, fun r hr => ?_⟩
        obtain ⟨h3, h4⟩ := h2 r hr
        refine ⟨h3, Or.inr ?_⟩
        rcases h4 with h4 | h4
        · exact ⟨i, h4⟩
        · exact h4
      · simp only [hd, if_false]
        have hc1 : TableIs env ((c.withExt (translateConds tc c.ext (list.getD [])).2).Printf
            (ep ++ "if (" ++ String.intercalate " || " (translateConds tc c.ext (list.getD [])).1
              ++ ") \x7b")) := hc
        exact bind_agree (Step.indented (branchBody_step hpf list (groups.getD i []) (ha i))) hc1
          (fun c4 hc4 => ih _ _ _ c4 hc4)
    | _ => exact ⟨rfl, fun r h => by simp [printBodyLoop] at h⟩

theorem Step.printed (env : String → Option Stmt) (text : String) :
    Step env (fun c : PkgContext σ => .ok (c.Printf text)) (fun c => .ok (c.Printf text)) :=
  fun _ hc => ⟨rfl, fun c1 h => by cases h; exact hc⟩

theorem printBody_step {env : String → Option Stmt}
    {tr1 tr2 : Option Stmt → String → PkgContext σ → Except Fatal (PkgContext σ)}
    {pf : Option (Option (List Expr) → PkgContext σ → Except Fatal (PkgContext σ))}
    (hpf : ∀ f, pf = some f → ∀ conds, KeepsTable (f conds))
    (tc : σ → Expr → String × σ) (clauses : List Stmt) (groups : List (List Stmt))
    (ha : ∀ j, AgreeOn env tr1 tr2 (groups.getD j [])) :
    Step env (printBody tr1 tc pf clauses groups) (printBody tr2 tc pf clauses groups) := by
  intro c hc
  obtain ⟨h1, h2⟩ := printBodyLoop_step hpf tc groups ha clauses 0 none "" c hc
  unfold printBody
  rw [← h1]
  cases hl : printBodyLoop tr1 tc pf groups clauses 0 none "" c with
  | error e => exact ⟨rfl, fun r h => by cases h⟩
  | ok r =>
    obtain ⟨d, c1⟩ := r
    have hc1 : TableIs env c1 := (h2 _ hl).1
    cases d with
    | none => exact ⟨rfl, fun r h => by cases h; exact hc1⟩
    | some g =>
      have hg : AgreeOn env tr1 tr2 g := by
        rcases (h2 _ hl).2 with h4 | ⟨j, h4⟩
        · cases h4
        · simp only [Option.some.injEq] at h4
          rw [h4]
          exact ha j
      have hc2 : TableIs env (c1.Printf "\x7d else \x7b") := hc1
      exact bind_agree (Step.indented (branchBody_step hpf none g hg)) hc2
        (fun c4 hc4 => Step.printed env _ c4 hc4)

theorem clauseStmtsLoop_allClauses : ∀ (rest : List Stmt) (i : Nat) (cs : List (List Stmt))
    (os : List Nat) (res : List (List Stmt)),
    clauseStmtsLoop rest i cs os = .ok res → allClauses rest := by
  intro rest
  induction rest with
  | nil => intro _ _ _ _ _ s hs; simp at hs
  | cons child rest ih =>
    intro i cs os res h s hs
    cases child with
    | caseClause list body =>
      simp only [clauseStmtsLoop] at h
      rcases List.mem_cons.mp hs with h1 | h1
      · exact ⟨list, body, h1⟩
      · exact ih _ _ _ _ h s h1
    | _ => simp [clauseStmtsLoop] at h

theorem mem_groupFrom : ∀ (l : List Stmt) (s : Stmt), s ∈ groupFrom l →
    ∃ cl ∈ l, s ∈ clauseBody cl := by
  intro l
  induction l with
  | nil => intro s h; simp [groupFrom] at h
  | cons child rest ih =>
    intro s h
    simp only [groupFrom, List.mem_append] at h
    rcases h with h | h
    · exact ⟨child, List.mem_cons_self _ _, h⟩
    · split at h
      · obtain ⟨cl, h1, h2⟩ := ih s h
        exact ⟨cl, List.mem_cons_of_mem _ h1, h2⟩
      · simp at h

theorem mem_clauseStmts (clauses : List Stmt) (groups : List (List Stmt))
    (h : clauseStmts clauses = .ok groups) (j : Nat) (s : Stmt) (hs : s ∈ groups.getD j []) :
    ∃ cl ∈ clauses, s ∈ clauseBody cl := by
  have hall : allClauses clauses := clauseStmtsLoop_allClauses _ _ _ _ _ h
  obtain ⟨groups1, hg, _, hget⟩ := clauseStmts_groupFrom clauses hall
  rw [h] at hg
  cases hg
  rw [hget j] at hs
  obtain ⟨cl, h1, h2⟩ := mem_groupFrom _ s hs
  exact ⟨cl, List.mem_of_mem_drop h1, h2⟩

theorem translateBranchingGeneral_step {env : String → Option Stmt}
    {tr1 tr2 : Option Stmt → String → PkgContext σ → Except Fatal (PkgContext σ)}
    {pf : Option (Option (List Expr) → PkgContext σ → Except Fatal (PkgContext σ))}
    (hpf : ∀ f, pf = some f → ∀ conds, KeepsTable (f conds))
    (clauses : List Stmt) (isSwitch : Bool) (tc : σ → Expr → String × σ) (label : String)
    (hb : ∀ cl ∈ clauses, AgreeOn env tr1 tr2 (clauseBody cl)) :
    Step env (translateBranchingGeneral tr1 clauses isSwitch tc pf label)
      (translateBranchingGeneral tr2 clauses isSwitch tc pf label) := by
  intro c hc
  unfold translateBranchingGeneral
  cases hg : clauseStmts clauses with
  | error e => exact ⟨rfl, fun r h => by cases h⟩
  | ok groups =>
    have ha : ∀ j, AgreeOn env tr1 tr2 (groups.getD j []) := by
      intro j s hs
      obtain ⟨cl, h1, h2⟩ := mem_clauseStmts clauses groups hg j s hs
      exact hb cl h1 s h2
    simp only
    split
    · exact printBody_step hpf tc clauses groups ha c hc
    · split
      · exact printBody_step hpf tc clauses groups ha c hc
      · have hc2 : TableIs env ((c.Printf (label ++ "switch (undefined) \x7b")).Printf
            "default:") := hc
        exact bind_agree (Step.indented (printBody_step hpf tc clauses groups ha)) hc2
          (fun c4 hc4 => Step.printed env _ c4 hc4)

theorem translateBranchingStmtWith_step {env : String → Option Stmt}
    {tr1 tr2 : Option Stmt → String → PkgContext σ → Except Fatal (PkgContext σ)}
    {pf : Option (Option (List Expr) → PkgContext σ → Except Fatal (PkgContext σ))}
    (hpf : ∀ f, pf = some f → ∀ conds, KeepsTable (f conds))
    (clauses : List Stmt) (isSwitch : Bool) (tc : σ → Expr → String × σ) (label : String)
    (hb : ∀ cl ∈ clauses, AgreeOn env tr1 tr2 (clauseBody cl)) :
    Step env (translateBranchingStmtWith tr1 clauses isSwitch tc pf label)
      (translateBranchingStmtWith tr2 clauses isSwitch tc pf label) := by
  intro c hc
  unfold translateBranchingStmtWith
  split
  · exact ⟨rfl, fun r h => by cases h; exact hc⟩
  · rename_i body
    exact translateStmtListWith_step body
      (hb (.caseClause none body) (List.mem_singleton.mpr rfl)) c hc
  · exact translateBranchingGeneral_step hpf _ isSwitch tc label hb c hc
  · exact ⟨rfl, fun r h => by cases h⟩
  · exact translateBranchingGeneral_step hpf _ isSwitch tc label hb c hc

theorem Step.seqE {env : String → Option Stmt}
    {f1 g1 f2 g2 : PkgContext σ → Except Fatal (PkgContext σ)}
    (h1 : Step env f1 g1) (h2 : Step env f2 g2) :
    Step env (fun c => match f1 c with
        | .error e => .error e
        | .ok c1 => f2 c1)
      (fun c => match g1 c with
        | .error e => .error e
        | .ok c1 => g2 c1) := by
  intro c hc
  obtain ⟨ha, hb⟩ := h1 c hc
  simp only [← ha]
  cases hf : f1 c with
  | error e => exact ⟨rfl, fun c1 h => by cases h⟩
  | ok c1 => exact h2 c1 (hb c1 hf)

theorem Step.thenPrintf {env : String → Option Stmt}
    {f g : PkgContext σ → Except Fatal (PkgContext σ)} (h : Step env f g) (text : String) :
    Step env (fun c => match f c with
        | .ok c1 => .ok (c1.Printf text)
        | .error e => .error e)
      (fun c => match g c with
        | .ok c1 => .ok (c1.Printf text)
        | .error e => .error e) :=
  Step.seq h (Step.printed env text)

theorem bind_agree_err {α : Type} {env : String → Option Stmt} {P : α → Prop}
    {f g : PkgContext σ → Except Fatal (PkgContext σ)} {k1 k2 : PkgContext σ → Except Fatal α}
    (hs : Step env f g) {c0 : PkgContext σ} (hc0 : TableIs env c0)
    (hk : ∀ c, TableIs env c → k1 c = k2 c ∧ ∀ r, k1 c = .ok r → P r) :
    (match f c0 with
      | .error e => Except.error e
      | .ok c => k1 c) =
      (match g c0 with
      | .error e => Except.error e
      | .ok c => k2 c) ∧
    ∀ r, (match f c0 with
      | .error e => Except.error e
      | .ok c => k1 c) = .ok r → P r := by
  obtain ⟨h1, h2⟩ := hs c0 hc0
  rw [← h1]
  cases hx : f c0 with
  | error e => exact ⟨rfl, fun r h => by cases h⟩
  | ok c => exact hk c (h2 c hx)

theorem translateRangeIndexed_step (E : Externals σ) {env : String → Option Stmt}
    {tr1 tr2 : Option Stmt → String → PkgContext σ → Except Fatal (PkgContext σ)}
    (key value : Option Expr) (body : List Stmt) (label refVar iVar : String) (t : GoType)
    (ha : AgreeOn env tr1 tr2 body) :
    Step env (translateRangeIndexed E tr1 key value body label refVar iVar t)
      (translateRangeIndexed E tr2 key value body label refVar iVar t) := by
  intro c hc
  unfold translateRangeIndexed
  cases rangeLength refVar t with
  | error e => exact ⟨rfl, fun r h => by cases h⟩
  | ok length =>
    simp only
    have hk : KeepsTable (fun c2 : PkgContext σ =>
        match value with
        | none => .ok c2
        | some v =>
          if !isUnderscore v then
            translateAssign E value
              (E.translateExprToType
                (E.setType (E.setType (E.setType c2.ext (Expr.ident refVar) (some t))
                  (Expr.ident iVar) (some (.basic "int")))
                  (Expr.index (Expr.ident refVar) (Expr.ident iVar)) (some (E.elemType t)))
                (Expr.index (Expr.ident refVar) (Expr.ident iVar)) (some (E.elemType t))).1
              (c2.withExt (E.translateExprToType
                (E.setType (E.setType (E.setType c2.ext (Expr.ident refVar) (some t))
                  (Expr.ident iVar) (some (.basic "int")))
                  (Expr.index (Expr.ident refVar) (Expr.ident iVar)) (some (E.elemType t)))
                (Expr.index (Expr.ident refVar) (Expr.ident iVar)) (some (E.elemType t))).2)
          else .ok c2) := by
      intro c2 c3 h
      simp only at h
      split at h
      · cases h; exact SameTable.self _
      · split at h
        · exact (SameTable.afterWithExt c2 _).andThen (translateAssign_table E _ _ _ _ h)
        · cases h; exact SameTable.self _
    have hc1 : TableIs env
        (c.Printf (label ++ "for (; " ++ iVar ++ " < " ++ length ++ "; " ++ iVar ++ "++) \x7b")) :=
      hc
    exact Step.thenPrintf (Step.indented (Step.seqE (Step.of_keeps hk)
      (Step.seqE (Step.of_keeps (translateAssign_table E key iVar))
        (translateStmtListWith_step body ha)))) "\x7d" _ hc1

theorem translateRangeBody_step (E : Externals σ) {env : String → Option Stmt}
    {tr1 tr2 : Option Stmt → String → PkgContext σ → Except Fatal (PkgContext σ)}
    (key value : Option Expr) (body : List Stmt) (label refVar iVar : String) (t : GoType)
    (ha : AgreeOn env tr1 tr2 body) :
    Step env (translateRangeBody E tr1 key value body label refVar iVar t)
      (translateRangeBody E tr2 key value body label refVar iVar t) := by
  intro c hc
  unfold translateRangeBody
  split
  · have hk : KeepsTable (fun c2 : PkgContext σ =>
        translateAssign E value ((E.newVariable c.ext "_rune").1 ++ "[0]")
          (c2.Printf ((E.newVariable c.ext "_rune").1 ++ " = Go$decodeRune(" ++ refVar ++ ", "
            ++ iVar ++ ");"))) := by
      intro c2 c3 h
      exact (SameTable.afterPrintf c2 _).andThen (translateAssign_table E _ _ _ _ h)
    have hc1 : TableIs env ((c.withExt (E.newVariable c.ext "_rune").2).Printf
        (label ++ "for (; " ++ iVar ++ " < " ++ refVar ++ ".length; " ++ iVar ++ " += "
          ++ (E.newVariable c.ext "_rune").1 ++ "[1]) \x7b")) := hc
    exact Step.thenPrintf (Step.indented (Step.seqE (Step.of_keeps hk)
      (Step.seqE (Step.of_keeps (translateAssign_table E key iVar))
        (translateStmtListWith_step body ha)))) "\x7d" _ hc1
  · have hk : KeepsTable (fun c3 : PkgContext σ =>
        translateAssign E value ((E.newVariable c3.ext "_entry").1 ++ ".v")
          ((c3.withExt (E.newVariable c3.ext "_entry").2).Printf
            ((E.newVariable c3.ext "_entry").1 ++ " = " ++ refVar ++ "["
              ++ (E.newVariable c.ext "_keys").1 ++ "[" ++ iVar ++ "]];"))) := by
      intro c2 c3 h
      exact (SameTable.addPrintf (SameTable.afterWithExt c2 _) _).andThen
        (translateAssign_table E _ _ _ _ h)
    have hc1 : TableIs env (((c.withExt (E.newVariable c.ext "_keys").2).Printf
        ((E.newVariable c.ext "_keys").1 ++ " = " ++ refVar ++ " !== null ? Go$keys(" ++ refVar
          ++ ") : [];")).Printf
        (label ++ "for (; " ++ iVar ++ " < " ++ (E.newVariable c.ext "_keys").1 ++ ".length; "
          ++ iVar ++ "++) \x7b")) := hc
    have hstep : Step env
        (fun c3 : PkgContext σ =>
          match translateAssign E value ((E.newVariable c3.ext "_entry").1 ++ ".v")
            ((c3.withExt (E.newVariable c3.ext "_entry").2).Printf
              ((E.newVariable c3.ext "_entry").1 ++ " = " ++ refVar ++ "["
                ++ (E.newVariable c.ext "_keys").1 ++ "[" ++ iVar ++ "]];")) with
          | .error e => .error e
          | .ok c4 =>
            match translateAssign E key ((E.newVariable c3.ext "_entry").1 ++ ".k") c4 with
            | .error e => .error e
            | .ok c5 => translateStmtListWith tr1 body c5)
        (fun c3 : PkgContext σ =>
          match translateAssign E value ((E.newVariable c3.ext "_entry").1 ++ ".v")
            ((c3.withExt (E.newVariable c3.ext "_entry").2).Printf
              ((E.newVariable c3.ext "_entry").1 ++ " = " ++ refVar ++ "["
                ++ (E.newVariable c.ext "_keys").1 ++ "[" ++ iVar ++ "]];")) with
          | .error e => .error e
          | .ok c4 =>
            match translateAssign E key ((E.newVariable c3.ext "_entry").1 ++ ".k") c4 with
            | .error e => .error e
            | .ok c5 => translateStmtListWith tr2 body c5) := by
      intro c3 hc3
      exact Step.seqE (Step.of_keeps hk)
        (Step.seqE (Step.of_keeps
          (translateAssign_table E key ((E.newVariable c3.ext "_entry").1 ++ ".k")))
          (translateStmtListWith_step body ha)) c3 hc3
    exact Step.thenPrintf (Step.indented hstep) "\x7d" _ hc1
  · exact translateRangeIndexed_step E key value body label refVar iVar _ ha c hc
  · exact translateRangeIndexed_step E key value body label refVar iVar _ ha c hc
  · exact translateRangeIndexed_step E key value body label refVar iVar _ ha c hc
  · exact ⟨rfl, fun r h => by cases h; exact hc⟩
  · exact ⟨rfl, fun r h => by cases h⟩

theorem envSet_apply (env : String → Option Stmt) (k : String) (v : Option Stmt) (k1 : String) :
    envSet env k v k1 = if k1 = k then v else env k1 := rfl

theorem translateRangeWith_step (E : Externals σ) {env : String → Option Stmt}
    {tr1 tr2 : Option Stmt → String → PkgContext σ → Except Fatal (PkgContext σ)}
    (key value : Option Expr) (x : Expr) (body : List Stmt) (label : String)
    (ha : AgreeOn (envSet env "" none) tr1 tr2 body) :
    Step env (translateRangeWith E tr1 key value x body label)
      (translateRangeWith E tr2 key value x body label) := by
  intro c hc
  unfold translateRangeWith
  simp only
  split
  · exact ⟨rfl, fun r h => by cases h⟩
  · rename_i t ht
    have hc2 : TableIs (envSet env "" none)
        ((((({ c with postLoopStmt := deletePost c.postLoopStmt "" } : PkgContext σ).withExt
          (E.translateExpr (E.newVariable c.ext "_ref").2 x).2).Printf
          ((E.newVariable c.ext "_ref").1 ++ " = "
            ++ (E.translateExpr (E.newVariable c.ext "_ref").2 x).1 ++ ";")).withExt
          (E.newVariable (E.translateExpr (E.newVariable c.ext "_ref").2 x).2 "_i").2).Printf
          ((E.newVariable (E.translateExpr (E.newVariable c.ext "_ref").2 x).2 "_i").1
            ++ " = 0;")) := by
      intro k
      show lookupPost (deletePost c.postLoopStmt "") k = _
      rw [lookupPost_deletePost, envSet_apply, hc k]
    obtain ⟨h1, h2⟩ := translateRangeBody_step E key value body label
      (E.newVariable c.ext "_ref").1
      (E.newVariable (E.translateExpr (E.newVariable c.ext "_ref").2 x).2 "_i").1
      t.Underlying ha _ hc2
    refine ⟨?_, ?_⟩
    · exact congrArg (fun r : Except Fatal (PkgContext σ) => match r with
        | .error e => Except.error e
        | .ok c3 => Except.ok
          { c3 with postLoopStmt := setPost c3.postLoopStmt "" (lookupPost c.postLoopStmt "") })
        h1
    · intro c1 h
      split at h
      · cases h
      · rename_i c3 hc3
        cases h
        have h3 := h2 c3 hc3
        intro k
        show lookupPost (setPost c3.postLoopStmt "" (lookupPost c.postLoopStmt "")) k = _
        rw [lookupPost_setPost, h3 k, envSet_apply, hc ""]
        by_cases hk : k = ""
        · simp [hk]
        · simp [hk]

theorem translateForWith_step (E : Externals σ) {env : String → Option Stmt}
    {trI1 trI2 trB1 trB2 : Option Stmt → String → PkgContext σ → Except Fatal (PkgContext σ)}
    (init : Option Stmt) (cond : Option Expr) (post : Option Stmt) (body : List Stmt)
    (label : String)
    (hI : Step env (trI1 init "") (trI2 init ""))
    (hB : AgreeOn (envSet (envSet env "" post) label post) trB1 trB2 body)
    (hP : Step (envSet (envSet env "" post) label post) (trB1 post "") (trB2 post ""))
    (hl : label = "" ∨ env label = none) :
    Step env (translateForWith E trI1 trB1 init cond post body label)
      (translateForWith E trI2 trB2 init cond post body label) := by
  intro c hc
  unfold translateForWith
  refine bind_agree_err hI hc ?_
  intro c1 hc1
  simp only
  have hc2 : ∀ (e : σ) (text : String), TableIs (envSet (envSet env "" post) label post)
      (({ c1 with ext := e,
                  postLoopStmt := setPost (setPost c1.postLoopStmt "" post) label post } :
        PkgContext σ).Printf text) := by
    intro e text k
    show lookupPost (setPost (setPost c1.postLoopStmt "" post) label post) k = _
    rw [lookupPost_setPost, lookupPost_setPost, envSet_apply, envSet_apply, hc1 k]
  refine bind_agree_err
    (Step.indented (Step.seqE (translateStmtListWith_step body hB) hP)) (hc2 _ _) ?_
  intro c5 hc5
  refine ⟨rfl, ?_⟩
  intro r h
  cases h
  intro k
  show lookupPost (setPost (deletePost c5.postLoopStmt label) "" (lookupPost c1.postLoopStmt "")) k
    = _
  rw [lookupPost_setPost, lookupPost_deletePost, hc5 k, envSet_apply, envSet_apply, hc1 ""]
  by_cases hk : k = ""
  · simp [hk]
  · by_cases hk2 : k = label
    · rcases hl with hl | hl
      · exact absurd (Eq.trans hk2 hl) hk
      · subst hk2
        simp [hk, hl]
    · simp [hk, hk2]

theorem wellScopedOpt_of_simple (bound : List String) (label : String) :
    ∀ s : Option Stmt, isSimple s = true → wellScopedOpt bound label s = true := by
  intro s h
  cases s with
  | none => simp [wellScopedOpt]
  | some s => cases s <;> simp [isSimple] at h <;> simp [wellScopedOpt, wellScoped]

theorem wellScopedList_mem (bound : List String) :
    ∀ l : List Stmt, wellScopedList bound l = true → ∀ s ∈ l, wellScoped bound "" s = true := by
  intro l
  induction l with
  | nil => intro _ s hs; simp at hs
  | cons a rest ih =>
    intro h s hs
    simp only [wellScopedList, Bool.and_eq_true] at h
    rcases List.mem_cons.mp hs with h1 | h1
    · rw [h1]; exact h.1
    · exact ih h.2 s h1

theorem clauses_scoped (bound : List String) (clauses : List Stmt)
    (h : wellScopedList bound clauses = true) :
    ∀ cl ∈ clauses, wellScopedList bound (clauseBody cl) = true := by
  intro cl hcl
  have h1 := wellScopedList_mem bound clauses h cl hcl
  cases cl with
  | caseClause list body => simpa [wellScoped, clauseBody] using h1
  | _ => simp [clauseBody, wellScopedList]

theorem ifClauses_scoped (bound : List String) :
    ∀ (cond : Expr) (body : List Stmt) (els : Option Stmt) (clauses : List Stmt),
      ifClauses cond body els = .ok clauses → wellScopedList bound body = true →
      wellScopedOpt bound "" els = true →
      ∀ cl ∈ clauses, wellScopedList bound (clauseBody cl) = true := by
  refine ifClauses.induct
    (fun cond body els => ∀ clauses : List Stmt,
      ifClauses cond body els = .ok clauses → wellScopedList bound body = true →
      wellScopedOpt bound "" els = true →
      ∀ cl ∈ clauses, wellScopedList bound (clauseBody cl) = true)
    (fun cond body elseStmt => ∀ clauses : List Stmt,
      ifClausesElse cond body elseStmt = .ok clauses → wellScopedList bound body = true →
      wellScoped bound "" elseStmt = true →
      ∀ cl ∈ clauses, wellScopedList bound (clauseBody cl) = true) ?_ ?_ ?_ ?_ ?_ ?_ ?_
  · intro cond body init cond1 body1 els1 rest hrest ih clauses h hb he cl hcl
    simp only [ifClausesElse, hrest] at h
    cases h
    simp only [wellScoped, Bool.and_eq_true] at he
    rcases List.mem_cons.mp hcl with h1 | h1
    · rw [h1]; exact hb
    · exact ih rest hrest he.1.2 he.2 cl h1
  · intro cond body init cond1 body1 els1 e herr ih clauses h
    simp only [ifClausesElse, herr] at h
    cases h
  · intro cond body list clauses h hb he cl hcl
    simp only [ifClausesElse] at h
    cases h
    simp only [wellScoped] at he
    simp only [List.mem_cons, List.mem_singleton, List.not_mem_nil, or_false] at hcl
    rcases hcl with h1 | h1
    · rw [h1]; exact hb
    · rw [h1]; exact he
  · intro cond body clauses h hb he cl hcl
    simp only [ifClausesElse] at h
    cases h
    simp only [List.mem_singleton] at hcl
    rw [hcl]; exact hb
  · intro val cond body h1 h2 h3 clauses h
    cases val <;>
      first
      | exact absurd rfl (h1 _ _ _ _)
      | exact absurd rfl (h2 _)
      | exact absurd rfl h3
      | simp [ifClausesElse] at h
  · intro cond body clauses h hb he cl hcl
    simp only [ifClauses] at h
    cases h
    simp only [List.mem_singleton] at hcl
    rw [hcl]; exact hb
  · intro cond body elseStmt ih clauses h hb he cl hcl
    simp only [ifClauses] at h
    simp only [wellScopedOpt] at he
    exact ih clauses h hb he cl hcl

theorem translateStmt_assign_table (E : Externals σ) (fuel : Nat) (lhs : List Expr) (tok : Token)
    (rhs : List Expr) (label : String) :
    KeepsTable (translateStmt E fuel (some (.assign lhs tok rhs)) label) := by
  intro c c1 h
  cases fuel with
  | zero => simp [translateStmt] at h
  | succ fuel =>
    simp only [translateStmt, translateStmtVia] at h
    exact translateAssignStmt_table E lhs tok rhs c c1 h

theorem translateStmt_simple_table (E : Externals σ) (fuel : Nat) (s : Option Stmt)
    (label : String) (hs : isSimple s = true) : KeepsTable (translateStmt E fuel s label) := by
  intro c c1 h
  cases fuel with
  | zero => simp [translateStmt] at h
  | succ fuel =>
    cases s with
    | none =>
      simp only [translateStmt, translateStmtVia] at h
      cases h; exact SameTable.self _
    | some s =>
      cases s <;> simp [isSimple] at hs
      · -- expression statement
        simp only [translateStmt, translateStmtVia] at h
        cases h; exact SameTable.addPrintf (SameTable.afterWithExt c _) _
      · exact translateStmt_assign_table E (fuel + 1) _ _ _ label c c1 h
      · -- increment or decrement
        simp only [translateStmt, translateStmtVia] at h
        split at h
        · cases h
        · exact (SameTable.afterWithExt c _).andThen (translateStmt_assign_table E fuel _ _ _ label _ _ h)
      · simp only [translateStmt, translateStmtVia] at h
        cases h; exact SameTable.afterPrintf c _
      · simp only [translateStmt, translateStmtVia] at h
        cases h; exact SameTable.self _

theorem envOK_for {bound : List String} {env : String → Option Stmt} (he : EnvOK bound env)
    (post : Option Stmt) (label : String) (hp : isSimple post = true) :
    EnvOK (label :: bound) (envSet (envSet env "" post) label post) := by
  refine ⟨?_, ?_⟩
  · intro k hk hb
    have h1 : ¬ k = label := fun h => hb (h ▸ List.mem_cons_self _ _)
    have h2 : k ∉ bound := fun h => hb (List.mem_cons_of_mem _ h)
    rw [envSet_apply, envSet_apply, if_neg h1, if_neg hk]
    exact he.1 k hk h2
  · intro k
    rw [envSet_apply, envSet_apply]
    split
    · exact hp
    · split
      · exact hp
      · exact he.2 k

theorem envOK_range {bound : List String} {env : String → Option Stmt} (he : EnvOK bound env) :
    EnvOK bound (envSet env "" none) := by
  refine ⟨?_, ?_⟩
  · intro k hk hb
    rw [envSet_apply, if_neg hk]
    exact he.1 k hk hb
  · intro k
    rw [envSet_apply]
    split
    · rfl
    · exact he.2 k

theorem bind_agree_of {α : Type} (env : String → Option Stmt) {P : α → Prop}
    {a1 a2 : Except Fatal (PkgContext σ)} {k1 k2 : PkgContext σ → Except Fatal α} :
    (a1 = a2 ∧ ∀ c, a1 = .ok c → TableIs env c) →
    (∀ c, TableIs env c → k1 c = k2 c ∧ ∀ r, k1 c = .ok r → P r) →
    (match a1 with
      | .error e => Except.error e
      | .ok c => k1 c) =
      (match a2 with
      | .error e => Except.error e
      | .ok c => k2 c) ∧
    ∀ r, (match a1 with
      | .error e => Except.error e
      | .ok c => k1 c) = .ok r → P r := by
  intro ha hk
  obtain ⟨h1, h2⟩ := ha
  subst h1
  cases hx : a1 with
  | error e => exact ⟨rfl, fun r h => by cases h⟩
  | ok c => exact hk c (h2 c hx)

theorem translateStmt_step_lexStmt (E : Externals σ) :
    ∀ (fuel : Nat) (bound : List String) (env : String → Option Stmt) (stmt : Option Stmt)
      (label : String), wellScopedOpt bound label stmt = true → EnvOK bound env →
      Step env (translateStmt E fuel stmt label) (lexStmt E env fuel stmt label) := by
  intro fuel
  induction fuel with
  | zero =>
    intro bound env stmt label _ _ c _
    exact ⟨rfl, fun c1 h => by cases h⟩
  | succ fuel ih =>
    intro bound env stmt label hw he
    have hlist : ∀ (b : List String) (en : String → Option Stmt), EnvOK b en →
        ∀ l, wellScopedList b l = true →
        AgreeOn en (translateStmt E fuel) (lexStmt E en fuel) l :=
      fun b en hen l hl s hs => ih b en (some s) "" (wellScopedList_mem b l hl s hs) hen
    have hnone : ∀ f : Option (List Expr) → PkgContext σ → Except Fatal (PkgContext σ),
        (none : Option (Option (List Expr) → PkgContext σ → Except Fatal (PkgContext σ))) = some f →
        ∀ conds, KeepsTable (f conds) := by
      intro f hf; cases hf
    cases stmt with
    | none =>
      intro c hc
      exact ⟨rfl, fun c1 h => by cases h; exact hc⟩
    | some s =>
      cases s with
      | block list =>
        intro c hc
        simp only [translateStmt, lexStmt, translateStmtVia]
        have hc1 : TableIs env (c.Printf "\x7b") := hc
        exact Step.thenPrintf (Step.indented (translateStmtListWith_step list
          (hlist bound env he list (by simpa [wellScopedOpt, wellScoped] using hw)))) "\x7d" _ hc1
      | ifStmt init cond body els =>
        intro c hc
        simp only [wellScopedOpt, wellScoped, Bool.and_eq_true] at hw
        simp only [translateStmt, lexStmt, translateStmtVia]
        refine bind_agree_err (ih bound env init "" hw.1.1 he) hc ?_
        intro c1 hc1
        cases hcl : ifClauses cond body els with
        | error e => exact ⟨rfl, fun r h => by cases h⟩
        | ok clauses =>
          exact translateBranchingStmtWith_step hnone clauses false E.translateExpr label
            (fun cl hcl1 => hlist bound env he _
              (ifClauses_scoped bound cond body els clauses hcl hw.1.2 hw.2 cl hcl1)) c1 hc1
      | switchStmt init tag body =>
        intro c hc
        simp only [wellScopedOpt, wellScoped, Bool.and_eq_true] at hw
        simp only [translateStmt, lexStmt, translateStmtVia]
        refine bind_agree_err (ih bound env init "" hw.1 he) hc ?_
        intro c1 hc1
        have hb : ∀ cl ∈ body, AgreeOn env (translateStmt E fuel) (lexStmt E env fuel)
            (clauseBody cl) :=
          fun cl hcl1 => hlist bound env he _ (clauses_scoped bound body hw.2 cl hcl1)
        cases tag with
        | none => exact translateBranchingStmtWith_step hnone body true E.translateExpr label hb c1 hc1
        | some tagExpr =>
          exact translateBranchingStmtWith_step hnone body true _ label hb _ hc1
      | forStmt init cond post body =>
        intro c hc
        simp only [wellScopedOpt, wellScoped, Bool.and_eq_true, Bool.or_eq_true, beq_iff_eq,
          Bool.not_eq_true'] at hw
        simp only [translateStmt, lexStmt, translateStmtVia]
        have he1 := envOK_for he post label hw.1.1.2
        refine translateForWith_step E init cond post body label (ih bound env init "" hw.1.1.1 he)
          (hlist _ _ he1 body hw.2)
          (ih _ _ post "" (wellScopedOpt_of_simple _ _ post hw.1.1.2) he1) ?_ c hc
        rcases hw.1.2 with h | h
        · exact Or.inl h
        · by_cases hl : label = ""
          · exact Or.inl hl
          · exact Or.inr (he.1 label hl (by simpa using h))
      | rangeStmt key value x body =>
        intro c hc
        simp only [wellScopedOpt, wellScoped] at hw
        simp only [translateStmt, lexStmt, translateStmtVia]
        exact translateRangeWith_step E key value x body label
          (hlist _ _ (envOK_range he) body hw) c hc
      | typeSwitchStmt init assign body =>
        intro c hc
        simp only [wellScopedOpt, wellScoped, Bool.and_eq_true] at hw
        simp only [translateStmt, lexStmt, translateStmtVia]
        refine bind_agree_err (ih bound env init "" hw.1 he) hc ?_
        intro c1 hc1
        have hb : ∀ cl ∈ body, AgreeOn env (translateStmt E fuel) (lexStmt E env fuel)
            (clauseBody cl) :=
          fun cl hcl1 => hlist bound env he _ (clauses_scoped bound body hw.2 cl hcl1)
        split
        · exact ⟨rfl, fun r h => by cases h⟩
        · split
          · exact ⟨rfl, fun r h => by cases h⟩
          · refine translateBranchingStmtWith_step ?_ body true _ label hb _ hc1
            intro f hf conds
            cases hf
            exact typeSwitchPrefix_table E _ _ _
      | branch tok branchLabel =>
        intro c hc
        cases tok <;> cases branchLabel <;>
          first
          | exact ⟨rfl, fun c1 h => by cases h; exact hc⟩
          | exact ⟨rfl, fun c1 h => by cases h⟩
          | skip
        · -- continue
          simp only [translateStmt, lexStmt, translateStmtVia]
          rw [hc ""]
          have hk := translateStmt_simple_table E fuel (env "") "" (he.2 "")
          cases hx : translateStmt E fuel (env "") "" c with
          | error e => exact ⟨rfl, fun c1 h => by cases h⟩
          | ok c1 => exact ⟨rfl, fun r h => by cases h; exact hc.same (hk c c1 hx)⟩
        · -- continue with a label
          rename_i name
          simp only [translateStmt, lexStmt, translateStmtVia]
          rw [hc (name ++ ": ")]
          have hk := translateStmt_simple_table E fuel (env (name ++ ": ")) ""
            (he.2 (name ++ ": "))
          have hs : "continue" ++ (" " ++ name) ++ ";" = "continue " ++ name ++ ";" := by
            rw [← String.append_assoc]; rfl
          rw [hs]
          cases hx : translateStmt E fuel (env (name ++ ": ")) "" c with
          | error e => exact ⟨rfl, fun c1 h => by cases h⟩
          | ok c1 => exact ⟨rfl, fun r h => by cases h; exact hc.same (hk c c1 hx)⟩
      | returnStmt results0 =>
        intro c hc
        simp only [translateStmt, lexStmt, translateStmtVia]
        refine bind_agree_of env ?_ ?_
        · split
          · exact ⟨rfl, fun c1 h => by cases h; exact hc⟩
          · split
            · rename_i names _ _
              exact ih bound env (some (.assign names Token.ASSIGN results0)) label rfl he c hc
            · exact ⟨rfl, fun c1 h => by cases h; exact hc⟩
        · intro c1 hc1
          refine ⟨rfl, fun r h => ?_⟩
          have hr : SameTable c1 r := by
            split at h
            · cases h; exact SameTable.afterPrintf c1 _
            · split at h
              · cases h; exact SameTable.addPrintf (SameTable.afterWithExt c1 _) _
              · split at h
                · cases h
                · cases h; exact SameTable.addPrintf (SameTable.afterWithExt c1 _) _
            · split at h
              · cases h
              · cases h; exact SameTable.addPrintf (SameTable.afterWithExt c1 _) _
          exact hc1.same hr
      | deferStmt fn args ellipsis =>
        exact Step.of_keeps (translateDeferStmt_table E fn args ellipsis)
      | exprStmt x =>
        intro c hc
        exact ⟨rfl, fun c1 h => by cases h; exact hc⟩
      | declStmt genDecl specs =>
        intro c hc
        refine ⟨rfl, fun c1 h => ?_⟩
        simp only [translateStmt, translateStmtVia] at h
        split at h
        · cases h; exact hc.same (translateSpecs_table E specs c)
        · cases h
      | labeled name stmt1 =>
        intro c hc
        exact ih bound env stmt1 (name ++ ": ") hw he c hc
      | assign lhs tok rhs =>
        exact Step.of_keeps (translateAssignStmt_table E lhs tok rhs)
      | incDec x tok =>
        intro c hc
        simp only [translateStmt, lexStmt, translateStmtVia]
        split
        · exact ⟨rfl, fun c1 h => by cases h⟩
        · exact ih bound env
            (some (.assign [x] (if tok = Token.DEC then Token.SUB_ASSIGN else Token.ADD_ASSIGN)
              [Expr.basicLit "INT" "1"])) label rfl he _ hc
      | selectStmt body =>
        intro c hc
        exact ⟨rfl, fun c1 h => by cases h; exact hc⟩
      | goStmt call =>
        intro c hc
        exact ⟨rfl, fun c1 h => by cases h; exact hc⟩
      | send ch value =>
        intro c hc
        exact ⟨rfl, fun c1 h => by cases h; exact hc⟩
      | empty =>
        intro c hc
        exact ⟨rfl, fun c1 h => by cases h; exact hc⟩
      | caseClause list body =>
        intro c hc
        exact ⟨rfl, fun c1 h => by cases h⟩
      | bad kind =>
        intro c hc
        exact ⟨rfl, fun c1 h => by cases h⟩

/-- C5: on a well-scoped statement (every post statement is a simple statement
and no `for` loop reuses the label of a loop around it), run from a context
whose loop context table holds the lexical environment `env`, `translateStmt`
is `lexStmt`: a `continue` emits the lowering of the post statement of the `for`
loop it targets (the nearest enclosing loop when unlabeled, nothing when that
is a range loop; the loop labeled `L` for `continue L`) immediately followed by
`continue;` or `continue L;`, and the body of the emitted `while` ends with one
more lowering of the post statement, so each way out of one iteration passes
one lowering of it.  The table holds `env` again afterwards. -/
theorem translateStmt_continue_post (E : Externals σ) (fuel : Nat) (bound : List String)
    (env : String → Option Stmt) (stmt : Option Stmt) (label : String) (c : PkgContext σ)
    (hw : wellScopedOpt bound label stmt = true) (he : EnvOK bound env) (ht : TableIs env c) :
    translateStmt E fuel stmt label c = lexStmt E env fuel stmt label c ∧
    (∀ post : Option Stmt, env "" = post →
      translateStmt E (fuel + 1) (some (.branch Token.CONTINUE none)) label c =
        match translateStmt E fuel post "" c with
        | .error e => .error e
        | .ok c1 => .ok (c1.Printf "continue;")) ∧
    (∀ (name : String) (post : Option Stmt), env (name ++ ": ") = post →
      translateStmt E (fuel + 1) (some (.branch Token.CONTINUE (some name))) label c =
        match translateStmt E fuel post "" c with
        | .error e => .error e
        | .ok c1 => .ok (c1.Printf ("continue " ++ name ++ ";"))) ∧
    ∀ c1, translateStmt E fuel stmt label c = .ok c1 → TableIs env c1 := by
  have hmain := translateStmt_step_lexStmt E fuel bound env stmt label hw he c ht
  have hcont := translateStmt_step_lexStmt E (fuel + 1) bound env
    (some (.branch Token.CONTINUE none)) label rfl he c ht
  refine ⟨hmain.1, ?_, ?_, hmain.2⟩
  · intro post hp
    rw [hcont.1, ← hp]
    rfl
  · intro name post hp
    rw [(translateStmt_step_lexStmt E (fuel + 1) bound env
      (some (.branch Token.CONTINUE (some name))) label rfl he c ht).1, ← hp]
    rfl

/-- The hypotheses of `translateStmt_continue_post` hold for
`sampleContinueLoop` lowered at top level, and each `continue` of its output
follows the post statement of the loop it targets. -/
theorem translateStmt_continue_post_witness :
    wellScopedOpt [] "" (some sampleContinueLoop) = true ∧
    EnvOK [] (fun _ => none) ∧
    TableIs (fun _ => none) sampleContext ∧
    outputTexts (translateStmt sampleExternals 8 (some sampleContinueLoop) "" sampleContext) =
      some ["i = 0;", "L: while (i === n) \x7b", "if (a) \x7b", "i = i + (1);", "continue;",
        "\x7d", "while (true) \x7b", "if (b) \x7b", "i = i + (1);", "continue L;", "\x7d",
        "j = j + (1);", "continue;", "j = j + (1);", "\x7d", "_ref0 = xs;", "_i1 = 0;",
        "for (; _i1 < _ref0.length; _i1++) \x7b", "continue;", "\x7d", "f();", "i = i + (1);",
        "\x7d"] ∧
    translateStmt sampleExternals 8 (some sampleContinueLoop) "" sampleContext =
      lexStmt sampleExternals (fun _ => none) 8 (some sampleContinueLoop) "" sampleContext :=
  ⟨by decide, ⟨fun _ _ _ => rfl, fun _ => rfl⟩, fun _ => rfl, by decide,
    (translateStmt_continue_post sampleExternals 8 [] (fun _ => none) (some sampleContinueLoop) ""
      sampleContext (by decide) ⟨fun _ _ _ => rfl, fun _ => rfl⟩ (fun _ => rfl)).1⟩

/-- C11: lowering `x++` is lowering `x += 1`, and lowering `x--` is lowering
`x -= 1`, with the same label, where the operand is the integer literal `1` with
constant value 1 whose type is that of `x`, or the element type of the container
when `x` is an index expression into an array, slice or map.  The container of
an index target has a type in a type-checked program. -/
theorem translateStmt_incDec (E : Externals σ) (fuel fuel1 : Nat) (x : Expr) (label : String)
    (c : PkgContext σ) (hx : ∀ x1 i, x = .index x1 i → E.typeOf c.ext x1 ≠ none) :
    translateStmt E (fuel + 2) (some (.incDec x Token.INC)) label c =
      translateStmt E (fuel1 + 1) (some (.assign [x] Token.ADD_ASSIGN [literalOne])) label
        (c.withExt (incDecExt E c.ext x)) ∧
    translateStmt E (fuel + 2) (some (.incDec x Token.DEC)) label c =
      translateStmt E (fuel1 + 1) (some (.assign [x] Token.SUB_ASSIGN [literalOne])) label
        (c.withExt (incDecExt E c.ext x)) := by
  have key : ∀ tok : Token,
      translateStmt E (fuel + 2) (some (.incDec x tok)) label c =
        translateStmt E (fuel1 + 1)
          (some (.assign [x] (if tok = Token.DEC then Token.SUB_ASSIGN else Token.ADD_ASSIGN)
            [literalOne])) label (c.withExt (incDecExt E c.ext x)) := by
    intro tok
    cases x with
    | index x1 i =>
      have h1 := hx x1 i rfl
      cases ht : E.typeOf c.ext x1 with
      | none => exact absurd ht h1
      | some tx =>
        simp only [translateStmt, translateStmtVia, incDecExt, incDecOperandType, literalOne, ht,
          Option.map_some']
        cases tx.Underlying <;> rfl
    | _ => rfl
  exact ⟨key Token.INC, key Token.DEC⟩

/-- The hypothesis of `translateStmt_incDec` holds for `xs[i]++`, which is
lowered as `xs[i] += 1`. -/
theorem translateStmt_incDec_witness :
    (∀ x1 i, Expr.index (.ident "xs") (.ident "i") = .index x1 i →
      sampleExternals.typeOf sampleContext.ext x1 ≠ none) ∧
    incDecOperandType sampleExternals sampleContext.ext (.index (.ident "xs") (.ident "i")) =
      some (.basic "int") ∧
    translateStmt sampleExternals 2 (some (.incDec (.index (.ident "xs") (.ident "i")) Token.INC))
        "" sampleContext =
      translateStmt sampleExternals 1
        (some (.assign [.index (.ident "xs") (.ident "i")] Token.ADD_ASSIGN [literalOne])) ""
        (sampleContext.withExt
          (incDecExt sampleExternals sampleContext.ext (.index (.ident "xs") (.ident "i")))) ∧
    outputTexts (translateStmt sampleExternals 2
      (some (.incDec (.index (.ident "xs") (.ident "i")) Token.DEC)) "" sampleContext) =
      some ["Go$obj = xs;", "Go$index = i;", sliceGuardLine,
        "Go$obj.array[Go$obj.offset + Go$index] = xs[i] - (1);"] :=
  have hx : ∀ x1 i, Expr.index (.ident "xs") (.ident "i") = .index x1 i →
      sampleExternals.typeOf sampleContext.ext x1 ≠ none := by
    intro x1 i h
    cases h
    simp [sampleExternals, sampleTypes]
  ⟨hx, rfl,
    (translateStmt_incDec sampleExternals 0 0 (.index (.ident "xs") (.ident "i")) ""
      sampleContext hx).1, by decide⟩

theorem translateAssign_blank (E : Externals σ) (l : Expr) (rhs : String) (c : PkgContext σ)
    (h : isUnderscore (stripParens l) = true) : translateAssign E (some l) rhs c = .ok c := by
  simp [translateAssign, h]

theorem foldlM_storageWrites (E : Externals σ) : ∀ (ps : List (Expr × String)) (c : PkgContext σ),
    ps.foldlM (fun c1 p => translateAssign E (some p.1) p.2 c1) c =
      (ps.filter (fun p => !isUnderscore (stripParens p.1))).foldlM
        (fun c1 p => translateAssign E (some p.1) p.2 c1) c := by
  intro ps
  induction ps with
  | nil => intro c; rfl
  | cons p rest ih =>
    intro c
    by_cases h : isUnderscore (stripParens p.1) = true
    · simp only [List.foldlM_cons, List.filter_cons, h, Bool.not_true, Bool.false_eq_true,
        if_false, translateAssign_blank E p.1 p.2 c h]
      exact ih c
    · have h1 : isUnderscore (stripParens p.1) = false := by simpa using h
      simp only [List.foldlM_cons, List.filter_cons, h1, Bool.not_false, if_true]
      cases translateAssign E (some p.1) p.2 c with
      | error e => rfl
      | ok c1 => exact ih c1

theorem tupleRhss_length (E : Externals σ) (tuple : List GoType) :
    ∀ (lhs : List Expr) (e : σ) (i : Nat) (r : List String × σ),
      tupleRhss E tuple e i lhs = .ok r → r.1.length = lhs.length := by
  intro lhs
  induction lhs with
  | nil => intro e i r h; cases h; rfl
  | cons l rest ih =>
    intro e i r h
    simp only [tupleRhss] at h
    split at h
    · cases h
    · split at h
      · rename_i rs hrs
        cases h
        simp [ih _ _ _ hrs]
      · cases h

theorem printFields_eq (l r : String) (fields : List (String × GoType)) :
    ∀ c : PkgContext σ, printFields c l r fields =
      { c with output := c.output ++ fieldWrites c.indentation l r fields } := by
  induction fields with
  | nil => intro c; simp [printFields, fieldWrites]
  | cons f fs ih =>
    intro c
    simp only [printFields, ih, fieldWrites, List.map_cons]
    simp [PkgContext.Printf]

theorem translateAssign_rhs_once (E : Externals σ) (lhs : Expr) (rhs0 : String)
    (c c1 : PkgContext σ) (hl : isUnderscore (stripParens lhs) = false)
    (h : translateAssign E (some lhs) rhs0 c = .ok c1) :
    PrintsOnce (translateAssign E (some lhs)) c := by
  unfold PrintsOnce
  generalize hs : stripParens lhs = l at hl
  simp only [translateAssign, Option.map_some', hs, hl, Bool.false_eq_true, if_false] at h ⊢
  cases l with
  | ident name =>
    exact ⟨_, [], [], _, ";", fun rhs => rfl⟩
  | selector x sel =>
    simp only at h ⊢
    cases ht : E.typeOf c.ext (.selector x sel) with
    | none => simp [ht] at h
    | some t =>
      simp only [ht] at h ⊢
      cases hu : t.Underlying with
      | struct fields =>
        simp only [hu]
        exact ⟨(E.translateExpr c.ext (.selector x sel)).2, [],
          fieldWrites c.indentation (E.translateExpr c.ext (.selector x sel)).1 "Go$obj" fields,
          "Go$obj = ", ";", fun rhs => by
            simp [printFields_eq, PkgContext.Printf, PkgContext.withExt]⟩
      | _ =>
        simp only [hu]
        exact ⟨_, [], [], _, ";", fun rhs => rfl⟩
  | star x =>
    simp only at h ⊢
    cases ht : E.typeOf c.ext (.star x) with
    | none => simp [ht] at h
    | some t =>
      simp only [ht] at h ⊢
      cases hu : t.Underlying with
      | struct fields =>
        simp only [hu]
        exact ⟨(E.translateExpr (E.newVariable (E.newVariable c.ext "l").2 "r").2 x).2,
          [⟨c.indentation, (E.newVariable c.ext "l").1 ++ " = "
            ++ (E.translateExpr (E.newVariable (E.newVariable c.ext "l").2 "r").2 x).1 ++ ";"⟩],
          fieldWrites c.indentation (E.newVariable c.ext "l").1
            (E.newVariable (E.newVariable c.ext "l").2 "r").1 fields,
          (E.newVariable (E.newVariable c.ext "l").2 "r").1 ++ " = ", ";", fun rhs => by
            simp [printFields_eq, PkgContext.Printf, PkgContext.withExt]⟩
      | array elem len =>
        simp only [hu]
        exact ⟨(E.newVariable
            (E.translateExpr (E.newVariable (E.newVariable c.ext "l").2 "r").2 x).2 "i").2,
          [⟨c.indentation, (E.newVariable c.ext "l").1 ++ " = "
            ++ (E.translateExpr (E.newVariable (E.newVariable c.ext "l").2 "r").2 x).1 ++ ";"⟩],
          [⟨c.indentation, "for (" ++ (E.newVariable
              (E.translateExpr (E.newVariable (E.newVariable c.ext "l").2 "r").2 x).2 "i").1
            ++ " = 0; " ++ (E.newVariable
              (E.translateExpr (E.newVariable (E.newVariable c.ext "l").2 "r").2 x).2 "i").1
            ++ " < " ++ toString len ++ "; " ++ (E.newVariable
              (E.translateExpr (E.newVariable (E.newVariable c.ext "l").2 "r").2 x).2 "i").1
            ++ "++) \x7b " ++ (E.newVariable c.ext "l").1 ++ "[" ++ (E.newVariable
              (E.translateExpr (E.newVariable (E.newVariable c.ext "l").2 "r").2 x).2 "i").1
            ++ "] = " ++ (E.newVariable (E.newVariable c.ext "l").2 "r").1 ++ "[" ++ (E.newVariable
              (E.translateExpr (E.newVariable (E.newVariable c.ext "l").2 "r").2 x).2 "i").1
            ++ "]; \x7d"⟩],
          (E.newVariable (E.newVariable c.ext "l").2 "r").1 ++ " = ", ";", fun rhs => by
            simp [PkgContext.Printf, PkgContext.withExt]⟩
      | _ =>
        simp only [hu]
        exact ⟨_, [], [], _, ");", fun rhs => rfl⟩
  | index x idx =>
    simp only at h ⊢
    cases ht : E.typeOf c.ext x with
    | none => simp [ht] at h
    | some t =>
      simp only [ht] at h ⊢
      cases hu : t.Underlying with
      | array elem len =>
        simp only [hu]
        exact ⟨_, [], [], _, ";", fun rhs => rfl⟩
      | pointer elem =>
        simp only [hu]
        exact ⟨_, [], [], _, ";", fun rhs => rfl⟩
      | slice elem =>
        simp only [hu]
        exact ⟨(E.translateExpr (E.translateExpr c.ext x).2 idx).2,
          [⟨c.indentation, "Go$obj = " ++ (E.translateExpr c.ext x).1 ++ ";"⟩,
            ⟨c.indentation, "Go$index = " ++ (E.translateExpr (E.translateExpr c.ext x).2 idx).1
              ++ ";"⟩,
            ⟨c.indentation, sliceGuardLine⟩], [],
          "Go$obj.array[Go$obj.offset + Go$index] = ", ";", fun rhs => by
            simp [PkgContext.Printf, PkgContext.withExt, sliceGuardLine]⟩
      | map key elem =>
        simp only [hu]
        exact ⟨(E.translateExpr (E.translateExprToType (E.newVariable c.ext "_key").2 idx
            (some key)).2 x).2,
          [⟨c.indentation, (E.newVariable c.ext "_key").1 ++ " = "
            ++ (E.translateExprToType (E.newVariable c.ext "_key").2 idx (some key)).1 ++ ";"⟩],
          [],
          (E.translateExpr (E.translateExprToType (E.newVariable c.ext "_key").2 idx
            (some key)).2 x).1 ++ "["
            ++ (if E.hasId key then "(" ++ (E.newVariable c.ext "_key").1
              ++ " || Go$Map.Go$nil).Go$key()" else (E.newVariable c.ext "_key").1)
            ++ "] = \x7b k: " ++ (E.newVariable c.ext "_key").1 ++ ", v: ",
          " \x7d;", fun rhs => by
            simp [PkgContext.Printf, PkgContext.withExt]⟩
      | _ => simp [hu] at h
  | _ => simp at h

theorem storageWrites_not_blank (lhs : List Expr) (rhss : List String) :
    ∀ p ∈ storageWrites lhs rhss, p.1 ≠ .ident "_" := by
  intro p hp h
  simp only [storageWrites, List.mem_filter] at hp
  rw [h] at hp
  simp [stripParens, isUnderscore] at hp

/-- C12, as the code has it: a plain or define assignment of valid arity
lowers every right-hand expression once.  1-to-1: for the target `_` the only
line is `rhs;`, for any other target the text goes to `translateAssign`, which
prints it exactly once unless the target is a blank identifier in parentheses:
the test for `_` looks at the target with its parentheses, the write strips
them and returns, so `(_) = f()` prints no line at all and the lowered
right-hand expression is dropped, while `_ = f()` prints `f();`.  N-to-N: every
right-hand expression is lowered once into the line `Go$tuple = [..];`.
N-to-1: the right-hand expression is lowered once into the line
`Go$tuple = rhs;`.  In both, the lines that follow are the writes of the
targets that are not blank, each from its own slot, so no line assigns from the
slot of a blank target; a write to `_` prints nothing. -/
theorem translateStmt_assign_blank (E : Externals σ) (fuel : Nat) (label : String)
    (c : PkgContext σ) (lhs rhs : List Expr) (tok : Token) (e0 : σ)
    (htok : tok = Token.ASSIGN ∨ tok = Token.DEFINE)
    (hdef : (if tok = Token.DEFINE then defineTypes E c.ext lhs else .ok c.ext) = .ok e0) :
    (∀ rhs0, lhs = [.ident "_"] → rhs = [rhs0] →
      translateStmt E (fuel + 1) (some (.assign lhs tok rhs)) label c =
        .ok ((c.withExt (E.translateExprToType e0 rhs0 (E.typeOf e0 (.ident "_"))).2).Printf
          ((E.translateExprToType e0 rhs0 (E.typeOf e0 (.ident "_"))).1 ++ ";"))) ∧
    (∀ lhs0 rhs0, lhs = [lhs0] → rhs = [rhs0] → isUnderscore lhs0 = false →
      translateStmt E (fuel + 1) (some (.assign lhs tok rhs)) label c =
        translateAssign E (some lhs0) (E.translateExprToType e0 rhs0 (E.typeOf e0 lhs0)).1
          (c.withExt (E.translateExprToType e0 rhs0 (E.typeOf e0 lhs0)).2)) ∧
    (1 < lhs.length → lhs.length = rhs.length →
      translateStmt E (fuel + 1) (some (.assign lhs tok rhs)) label c =
        (storageWrites lhs (tupleSlots 0 rhs.length)).foldlM
          (fun c1 p => translateAssign E (some p.1) p.2 c1)
          ((c.withExt (tupleParts E e0 lhs rhs).2).Printf
            ("Go$tuple = [" ++ String.intercalate ", " (tupleParts E e0 lhs rhs).1 ++ "];")) ∧
      (tupleParts E e0 lhs rhs).1.length = rhs.length ∧
      ∀ i r, rhs.get? i = some r → ∃ ei, (tupleParts E e0 lhs rhs).1.get? i =
        some (E.translateExprToType ei r ((lhs.get? i).bind (E.typeOf ei))).1) ∧
    (∀ rhs0 tuple rhss, 1 < lhs.length → rhs = [rhs0] →
      E.typeOf e0 rhs0 = some (.tuple tuple) → tupleRhss E tuple e0 0 lhs = .ok rhss →
      translateStmt E (fuel + 1) (some (.assign lhs tok rhs)) label c =
        (storageWrites lhs rhss.1).foldlM (fun c1 p => translateAssign E (some p.1) p.2 c1)
          ((c.withExt (E.translateExpr rhss.2 rhs0).2).Printf
            ("Go$tuple = " ++ (E.translateExpr rhss.2 rhs0).1 ++ ";"))) ∧
    (∀ rhss, ∀ p ∈ storageWrites lhs rhss, p.1 ≠ .ident "_") ∧
    (∀ (text : String) (c1 : PkgContext σ),
      translateAssign E (some (.ident "_")) text c1 = .ok c1) ∧
    (∀ (l : Expr) (text : String) (c1 c2 : PkgContext σ), isUnderscore (stripParens l) = false →
      translateAssign E (some l) text c1 = .ok c2 → PrintsOnce (translateAssign E (some l)) c1) ∧
    (∀ lhs0 rhs0, lhs = [lhs0] → rhs = [rhs0] → isUnderscore lhs0 = false →
      isUnderscore (stripParens lhs0) = true →
      translateStmt E (fuel + 1) (some (.assign lhs tok rhs)) label c =
        .ok (c.withExt (E.translateExprToType e0 rhs0 (E.typeOf e0 lhs0)).2) ∧
      (c.withExt (E.translateExprToType e0 rhs0 (E.typeOf e0 lhs0)).2).output = c.output) ∧
    outputTexts (translateStmt sampleExternals 1 (some sampleBlankParen) "" sampleContext) =
      some [] ∧
    outputTexts (translateStmt sampleExternals 1
      (some (.assign [.ident "_"] Token.ASSIGN [.call (.ident "f") [] false])) ""
      sampleContext) = some ["f();"] := by
  have h1 : ¬ (tok ≠ Token.ASSIGN ∧ tok ≠ Token.DEFINE) := by
    rcases htok with h | h <;> simp [h]
  have hone : ∀ lhs0 rhs0, lhs = [lhs0] → rhs = [rhs0] → isUnderscore lhs0 = false →
      translateStmt E (fuel + 1) (some (.assign lhs tok rhs)) label c =
        translateAssign E (some lhs0) (E.translateExprToType e0 rhs0 (E.typeOf e0 lhs0)).1
          (c.withExt (E.translateExprToType e0 rhs0 (E.typeOf e0 lhs0)).2) := by
    intro lhs0 rhs0 hl hr hu
    subst hl hr
    simp only [translateStmt, translateStmtVia, translateAssignStmt, h1, if_false, hdef]
    simp only [List.length_singleton, and_self, if_true, List.head?_cons, Option.map_some', hu,
      Option.getD_some, Bool.false_eq_true, if_false, assignAll, List.headD_cons,
      Option.bind_some]
    split <;> rename_i heq <;> exact heq.symm
  refine ⟨?_, hone, ?_, ?_, fun rhss => storageWrites_not_blank lhs rhss,
    fun text c1 => translateAssign_blank E _ text c1 rfl,
    fun l text c1 c2 hl h => translateAssign_rhs_once E l text c1 c2 hl h,
    fun lhs0 rhs0 hl hr hu hs =>
      ⟨(hone lhs0 rhs0 hl hr hu).trans (translateAssign_blank E lhs0 _ _ hs), rfl⟩,
    by decide, by decide⟩
  · intro rhs0 hl hr
    subst hl hr
    simp only [translateStmt, translateStmtVia, translateAssignStmt, h1, if_false, hdef]
    rfl
  · intro hn hlen
    refine ⟨?_, tupleParts_length E rhs lhs e0, tupleParts_get E rhs lhs e0⟩
    have h2 : ¬ (lhs.length = 1 ∧ rhs.length = 1) := by omega
    have h3 : ¬ (1 < lhs.length ∧ rhs.length = 1) := by omega
    simp only [translateStmt, translateStmtVia, translateAssignStmt, h1, if_false, hdef]
    rw [if_neg h2, if_neg h3, if_pos hlen,
      assignAll_eq_foldlM E lhs _ _ (by rw [tupleSlots_length, hlen]), foldlM_storageWrites]
    rfl
  · intro rhs0 tuple rhss hn hr ht hrs
    subst hr
    have h2 : ¬ (lhs.length = 1 ∧ [rhs0].length = 1) := by omega
    have h3 : 1 < lhs.length ∧ [rhs0].length = 1 := ⟨hn, rfl⟩
    simp only [translateStmt, translateStmtVia, translateAssignStmt, h1, if_false, hdef]
    rw [if_neg h2, if_pos h3]
    simp only [List.headD_cons, ht, hrs]
    rw [assignAll_eq_foldlM E lhs _ _ (tupleRhss_length E tuple lhs e0 0 rhss hrs).symm,
      foldlM_storageWrites]
    rfl

/-- The hypotheses of `translateStmt_assign_blank` hold for `_, a = b, f()`,
which puts both values into `Go$tuple` and writes only `a`; and `_ = f()` is
lowered to the line `f();`. -/
theorem translateStmt_assign_blank_witness :
    (Token.ASSIGN = Token.ASSIGN ∨ Token.ASSIGN = Token.DEFINE) ∧
    storageWrites [.ident "_", .ident "a"] (tupleSlots 0 2) = [(.ident "a", "Go$tuple[1]")] ∧
    translateStmt sampleExternals 1 (some sampleBlankTuple) "" sampleContext =
      (storageWrites [.ident "_", .ident "a"] (tupleSlots 0 2)).foldlM
        (fun c1 p => translateAssign sampleExternals (some p.1) p.2 c1)
        (sampleContext.Printf "Go$tuple = [b, f()];") ∧
    outputTexts (translateStmt sampleExternals 1 (some sampleBlankTuple) "" sampleContext) =
      some ["Go$tuple = [b, f()];", "a = Go$tuple[1];"] ∧
    outputTexts (translateStmt sampleExternals 1
      (some (.assign [.ident "_"] Token.ASSIGN [.call (.ident "f") [] false])) ""
      sampleContext) = some ["f();"] :=
  ⟨Or.inl rfl, by rfl,
    ((translateStmt_assign_blank sampleExternals 0 "" sampleContext [.ident "_", .ident "a"]
      [.ident "b", .call (.ident "f") [] false] Token.ASSIGN 0 (Or.inl rfl) rfl).2.2.1
      (by decide) rfl).1,
    by decide, by decide⟩

/-- C13 does not hold as stated: in a function with the named result `x`, the
return statement without result expressions is lowered to `return x;`, and with
the named results `a, b` to `return [a, b];`. -/
theorem translateStmt_return_bare_named :
    outputTexts (translateStmt sampleExternals 1 (some (.returnStmt [])) "" sampleNamedResult) =
      some ["return x;"] ∧
    outputTexts (translateStmt sampleExternals 1 (some (.returnStmt [])) "" sampleNamedResult) ≠
      some ["return;"] ∧
    outputTexts (translateStmt sampleExternals 1 (some (.returnStmt [])) "" sampleNamedResults) =
      some ["return [a, b];"] := by
  refine ⟨by decide, by decide, by decide⟩

/-- C13, amended: a return statement without result expressions is lowered to
the single line `return;` when the enclosing function declares no named
results; when it declares the named results `names`, no assignment is printed
and the single line returns them: `return x;` for one name, lowered with
conversion to the result type, and `return [x0, .., xn];` for several, each
lowered with conversion to its result type. -/
theorem translateStmt_return_bare (E : Externals σ) (fuel : Nat) (label : String)
    (c : PkgContext σ) :
    ((c.resultNames = none ∨ c.resultNames = some []) →
      translateStmt E (fuel + 1) (some (.returnStmt [])) label c = .ok (c.Printf "return;")) ∧
    (∀ name t0, c.resultNames = some [name] → c.functionSig = [t0] →
      translateStmt E (fuel + 1) (some (.returnStmt [])) label c =
        .ok ((c.withExt (E.translateExprToType c.ext name (some t0)).2).Printf
          ("return " ++ (E.translateExprToType c.ext name (some t0)).1 ++ ";"))) ∧
    (∀ name0 name1 rest values, c.resultNames = some (name0 :: name1 :: rest) →
      returnValues E c.functionSig c.ext 0 (name0 :: name1 :: rest) = .ok values →
      translateStmt E (fuel + 1) (some (.returnStmt [])) label c =
        .ok ((c.withExt values.2).Printf
          ("return [" ++ String.intercalate ", " values.1 ++ "];"))) := by
  refine ⟨?_, ?_, ?_⟩
  · intro h
    rcases h with h | h <;>
      simp [translateStmt, translateStmtVia, h]
  · intro name t0 h hs
    simp [translateStmt, translateStmtVia, h, hs]
  · intro name0 name1 rest values h hv
    simp [translateStmt, translateStmtVia, h, hv]

/-- The hypotheses of `translateStmt_return_bare` hold in a function without
named results, where `return` is lowered to `return;`, and in `func f() (x
int)`, where it is lowered to `return x;`. -/
theorem translateStmt_return_bare_witness :
    (sampleContext.resultNames = none ∨ sampleContext.resultNames = some []) ∧
    translateStmt sampleExternals 1 (some (.returnStmt [])) "" sampleContext =
      .ok (sampleContext.Printf "return;") ∧
    sampleNamedResult.resultNames = some [.ident "x"] ∧
    sampleNamedResult.functionSig = [.basic "int"] ∧
    translateStmt sampleExternals 1 (some (.returnStmt [])) "" sampleNamedResult =
      .ok (sampleNamedResult.Printf "return x;") :=
  ⟨Or.inl rfl,
    (translateStmt_return_bare sampleExternals 0 "" sampleContext).1 (Or.inl rfl),
    rfl, rfl,
    (translateStmt_return_bare sampleExternals 0 "" sampleNamedResult).2.1 (.ident "x")
      (.basic "int") rfl rfl⟩

/-- C14, as the code has it: given a body prefix `f`, `translateBranchingStmt`
lowers every clause body of a clause list that is not a single unconditional
clause as `f` run once on the conditions of the clause (`nil` for the default
clause) followed by the statements of the body group; but for a single
unconditional clause it returns early with the statements of the body alone and
never runs `f`.  So `switch x := v.(type) { default: g(x) }` is lowered without
the line `x0 = _ref1;` that the same default clause gets next to a `case`. -/
theorem translateBranchingStmt_body_prefix (E : Externals σ) (fuel : Nat)
    (tc : σ → Expr → String × σ)
    (f : Option (List Expr) → PkgContext σ → Except Fatal (PkgContext σ)) (label : String) :
    (∀ (clauses : List Stmt) (isSwitch : Bool), allClauses clauses → clauses ≠ [] →
      (∀ body, clauses ≠ [.caseClause none body]) →
      ∃ groups, clauseStmts clauses = .ok groups ∧
        (∀ c : PkgContext σ,
          translateBranchingStmt E fuel clauses isSwitch tc (some f) label c =
            translateBranchingGeneral (translateStmt E fuel) clauses isSwitch tc (some f)
              label c) ∧
        (∀ c : PkgContext σ,
          printBody (translateStmt E fuel) tc (some f) clauses groups c =
            emitChainWithElse (translateStmt E fuel) tc (some f)
              (condBranches (clauses.zip groups))
              (defaultGroups (clauses.zip groups)).getLast? c)) ∧
    (∀ (conds : Option (List Expr)) (group : List Stmt) (c : PkgContext σ),
      lowerBranchBody (translateStmt E fuel) (some f) conds group c =
        match f conds c with
        | .ok c1 => translateStmtList E fuel group c1
        | .error e => .error e) ∧
    (∀ (body : List Stmt) (isSwitch : Bool) (c : PkgContext σ),
      translateBranchingStmt E fuel [.caseClause none body] isSwitch tc (some f) label c =
        translateStmtList E fuel body c) ∧
    outputTexts (translateStmt sampleTypeSwitchExternals 3 (some sampleTypeSwitch) ""
      sampleContext) =
      some ["_ref1 = v;", "_type2 = _ref1 !== null ? _ref1.constructor : null;",
        "if (_type2 === T) \x7b", "x0 = _ref1.Go$val;", "g(x);", "\x7d else \x7b",
        "x0 = _ref1;", "g(x);", "\x7d"] ∧
    outputTexts (translateStmt sampleTypeSwitchExternals 3 (some sampleDefaultOnlyTypeSwitch) ""
      sampleContext) =
      some ["_ref1 = v;", "_type2 = _ref1 !== null ? _ref1.constructor : null;", "g(x);"] := by
  refine ⟨?_, fun _ _ _ => rfl, fun _ _ _ => rfl, by decide, by decide⟩
  intro clauses isSwitch hall hne hsingle
  obtain ⟨groups, hg, hlen, hgf⟩ := clauseStmts_groupFrom clauses hall
  clear hgf
  refine ⟨groups, hg, ?_, fun c =>
    printBody_eq_emitChainWithElse (translateStmt E fuel) tc (some f) clauses groups c hall hlen⟩
  intro c
  unfold translateBranchingStmt translateBranchingStmtWith
  split
  · exact absurd rfl hne
  · rename_i body
    exact absurd rfl (hsingle body)
  · rfl
  · rename_i s hs1 hs2
    obtain ⟨list, body, h⟩ := hall s (List.mem_singleton.mpr rfl)
    subst h
    cases list with
    | none => exact absurd rfl (hs1 body)
    | some l => exact absurd rfl (hs2 l body)
  · rfl

/-- C15: when `translateStmt` returns on a well-scoped statement lowered with
the label `label` (`bound` lists the label keys that the table may bind; a `for`
loop of the statement carries none of them, the label `label` included, and
every post statement is a simple statement), the loop context table yields for
every key, the unlabeled key included, the post statement it yielded before the
call, an absent key and a key bound to `nil` both reading as `nil`. -/
theorem translateStmt_table_restored (E : Externals σ) (fuel : Nat) (bound : List String)
    (stmt : Option Stmt) (label : String) (c c1 : PkgContext σ)
    (hw : wellScopedOpt bound label stmt = true)
    (hb : ∀ k, k ≠ "" → k ∉ bound → lookupPost c.postLoopStmt k = none)
    (hs : ∀ k, isSimple (lookupPost c.postLoopStmt k) = true)
    (h : translateStmt E fuel stmt label c = .ok c1) :
    ∀ k, lookupPost c1.postLoopStmt k = lookupPost c.postLoopStmt k :=
  (translateStmt_step_lexStmt E fuel bound (fun k => lookupPost c.postLoopStmt k) stmt label hw
    ⟨hb, hs⟩ c (fun _ => rfl)).2 c1 h

/-- The hypotheses of `translateStmt_table_restored` hold for the labeled loop
`M: for ; ; j++ { continue M }` lowered inside the body of `for ; ; i++`: after
it the unlabeled key yields `i++` again and the key of `M` is not bound; so the
`continue` that follows the two nested loops of `sampleNestedLoops` is preceded
by the lowering of `i++`. -/
theorem translateStmt_table_restored_witness :
    wellScopedOpt [] "" (some sampleInnerLoop) = true ∧
    (∃ c1, translateStmt sampleExternals 5 (some sampleInnerLoop) "" sampleLoopContext = .ok c1 ∧
      lookupPost c1.postLoopStmt "" = some (.incDec (.ident "i") Token.INC) ∧
      lookupPost c1.postLoopStmt "M: " = none) ∧
    outputTexts (translateStmt sampleExternals 6 (some sampleNestedLoops) "" sampleContext) =
      some ["while (true) \x7b", "M: while (true) \x7b", "j = j + (1);", "continue M;",
        "j = j + (1);", "\x7d", "_ref0 = xs;", "_i1 = 0;",
        "for (; _i1 < _ref0.length; _i1++) \x7b", "\x7d", "i = i + (1);", "continue;",
        "i = i + (1);", "\x7d"] := by
  refine ⟨by decide, ?_, by decide⟩
  have hb : ∀ k, k ≠ "" → k ∉ ([] : List String) →
      lookupPost sampleLoopContext.postLoopStmt k = none := by
    intro k hk _
    have h1 : ¬ "" = k := fun h => hk h.symm
    simp [sampleLoopContext, sampleContext, lookupPost_cons, h1, lookupPost]
  have hs : ∀ k, isSimple (lookupPost sampleLoopContext.postLoopStmt k) = true := by
    intro k
    by_cases hk : "" = k
    · simp [sampleLoopContext, sampleContext, lookupPost_cons, hk, isSimple]
    · simp [sampleLoopContext, sampleContext, lookupPost_cons, hk, lookupPost, isSimple]
  cases hr : translateStmt sampleExternals 5 (some sampleInnerLoop) "" sampleLoopContext with
  | error e =>
    have hd : outputTexts (translateStmt sampleExternals 5 (some sampleInnerLoop) ""
        sampleLoopContext) ≠ none := by decide
    rw [hr] at hd
    exact absurd rfl hd
  | ok c1 =>
    exact ⟨c1, rfl,
      translateStmt_table_restored sampleExternals 5 [] (some sampleInnerLoop) ""
        sampleLoopContext c1 (by decide) hb hs hr "",
      translateStmt_table_restored sampleExternals 5 [] (some sampleInnerLoop) ""
        sampleLoopContext c1 (by decide) hb hs hr "M: "⟩

theorem decodeWidth_at_start : ∀ (pre : List Nat) (w : Nat) (rest : List Nat),
    (∀ v ∈ pre, 0 < v) → decodeWidth (pre ++ w :: rest) pre.sum = w := by
  intro pre
  induction pre with
  | nil => intro w rest _; simp [decodeWidth]
  | cons p ps ih =>
    intro w rest h
    have hp : 0 < p := h p (List.mem_cons_self _ _)
    have h1 : ¬ (p + ps.sum = 0) := by omega
    have h2 : ¬ (p + ps.sum < p) := by omega
    simp only [List.cons_append, List.sum_cons, decodeWidth, h1, h2, if_false]
    rw [Nat.add_sub_cancel_left]
    exact ih w rest (fun v hv => h v (List.mem_cons_of_mem _ hv))

theorem startOffsets_length : ∀ (widths : List Nat) (start : Nat),
    (startOffsets start widths).length = widths.length := by
  intro widths
  induction widths with
  | nil => intro start; rfl
  | cons w rest ih => intro start; simp [startOffsets, ih]

theorem translateStmt_range_string_eq (E : Externals σ) (fuel : Nat)
    (key value : Option Expr) (x : Expr) (body : List Stmt) (label : String)
    (c : PkgContext σ) (t : GoType) (name : String)
    (ht : E.typeOf (rangeCounter E c.ext x).2 x = some t) (hu : t.Underlying = .basic name) :
    translateStmt E (fuel + 1) (some (.rangeStmt key value x body)) label c =
      match translateAssign E value ((rangeRune E c.ext x).1 ++ "[0]")
          (stringRangeStart E x label c) with
      | .error e => .error e
      | .ok c4 =>
        match translateAssign E key (rangeCounter E c.ext x).1 c4 with
        | .error e => .error e
        | .ok c5 =>
          match translateStmtList E fuel body c5 with
          | .error e => .error e
          | .ok c6 => .ok (rangeEnd c c6) := by
  have ht' : E.typeOf (E.newVariable (E.translateExpr (E.newVariable c.ext "_ref").2 x).2 "_i").2 x
      = some t := ht
  have hi : ∀ c4 c5 c6 : PkgContext σ,
      translateAssign E value ((rangeRune E c.ext x).1 ++ "[0]") (stringRangeStart E x label c)
        = .ok c4 →
      translateAssign E key (rangeCounter E c.ext x).1 c4 = .ok c5 →
      translateStmtList E fuel body c5 = .ok c6 → c6.indentation = c.indentation + 1 := by
    intro c4 c5 c6 h4 h5 h6
    have f1 := translateAssign_frame E _ _ _ _ h4
    have f2 := translateAssign_frame E _ _ _ _ h5
    have f3 := translateStmtListWith_frame (translateStmt_frame E fuel) _ _ _ h6
    rw [f3.1, f2.1, f1.1]
    rfl
  cases h4 : translateAssign E value ((rangeRune E c.ext x).1 ++ "[0]")
      (stringRangeStart E x label c) with
  | error e =>
    simp only [stringRangeStart, StringRangeLine.text, rangeRef, rangeExpr, rangeCounter,
      rangeRune] at h4
    simp only [translateStmt, translateStmtVia, translateRangeWith]
    simp only [PkgContext.Printf, PkgContext.withExt, ht', hu, translateRangeBody,
      PkgContext.Indent, List.append_assoc, List.singleton_append, List.cons_append,
      List.nil_append, h4]
  | ok c4 =>
    have h4' := h4
    simp only [stringRangeStart, StringRangeLine.text, rangeRef, rangeExpr, rangeCounter,
      rangeRune] at h4'
    simp only [translateStmt, translateStmtVia, translateRangeWith]
    simp only [PkgContext.Printf, PkgContext.withExt, ht', hu, translateRangeBody,
      PkgContext.Indent, List.append_assoc, List.singleton_append, List.cons_append,
      List.nil_append, h4']
    cases h5 : translateAssign E key (rangeCounter E c.ext x).1 c4 with
    | error e =>
      simp only [rangeRef, rangeExpr, rangeCounter] at h5
      simp only [h5]
    | ok c5 =>
      have h5' := h5
      simp only [rangeRef, rangeExpr, rangeCounter] at h5'
      simp only [h5']
      cases h6 : translateStmtList E fuel body c5 with
      | error e =>
        simp only [translateStmtList] at h6
        simp only [h6]
      | ok c6 =>
        have h6' := h6
        simp only [translateStmtList] at h6'
        simp only [h6', rangeEnd, hi c4 c5 c6 h4 h5 h6, Nat.add_sub_cancel]

theorem runStringRange_visits (label ref counter rune : String)
    (rest : (String → RuneVal) → (String → RuneVal))
    (hrc : ref ≠ counter) (hur : rune ≠ ref) (huc : rune ≠ counter)
    (hrest : ∀ s, rest s counter = s counter ∧ rest s ref = s ref ∧ rest s rune = s rune) :
    ∀ (suf pre : List Nat) (fuel : Nat) (s : String → RuneVal),
      (∀ v ∈ pre ++ suf, 0 < v) → suf.length ≤ fuel →
      s counter = .number pre.sum → s ref = .text (pre ++ suf) →
      (runStringRange (pre ++ suf) (.header label counter ref rune) (.decode rune ref counter)
        rest fuel s).map (fun s1 => (s1 counter, s1 rune)) =
        List.zipWith (fun o w => (RuneVal.number o, RuneVal.rune o w))
          (startOffsets pre.sum suf) suf := by
  intro suf
  induction suf with
  | nil =>
    intro pre fuel s _ _ hc hr
    cases fuel with
    | zero => rfl
    | succ fuel => simp [runStringRange, StringRangeLine.test, hc, hr, startOffsets]
  | cons w rest1 ih =>
    intro pre fuel s h hf hc hr
    cases fuel with
    | zero => simp at hf
    | succ fuel =>
      have hw : 0 < w := h w (by simp)
      have hlt : pre.sum < (pre ++ w :: rest1).sum := by
        simp only [List.sum_append, List.sum_cons]; omega
      have hpre : ∀ v ∈ pre, 0 < v := fun v hv => h v (by simp [hv])
      have g1c : (StringRangeLine.decode rune ref counter).run (pre ++ w :: rest1) s counter
          = .number pre.sum := by
        simp only [StringRangeLine.run, assignVar, Ne.symm huc, if_false, hc]
      have g1r : (StringRangeLine.decode rune ref counter).run (pre ++ w :: rest1) s ref
          = .text (pre ++ w :: rest1) := by
        simp only [StringRangeLine.run, assignVar, Ne.symm hur, if_false, hr]
      have g1u : (StringRangeLine.decode rune ref counter).run (pre ++ w :: rest1) s rune
          = .rune pre.sum w := by
        simp only [StringRangeLine.run, assignVar, if_true, hc, hr,
          decodeWidth_at_start pre w rest1 hpre]
      have h2 := hrest ((StringRangeLine.decode rune ref counter).run (pre ++ w :: rest1) s)
      rw [g1c, g1r, g1u] at h2
      have g3c : ∀ s2 : String → RuneVal, s2 counter = .number pre.sum →
          s2 rune = .rune pre.sum w →
          (StringRangeLine.header label counter ref rune).run (pre ++ w :: rest1) s2 counter
            = .number (pre.sum + w) := by
        intro s2 h2c h2u
        simp only [StringRangeLine.run, assignVar, if_true, h2c, h2u]
      have g3r : ∀ s2 : String → RuneVal,
          (StringRangeLine.header label counter ref rune).run (pre ++ w :: rest1) s2 ref
            = s2 ref := by
        intro s2
        simp only [StringRangeLine.run, assignVar, hrc, if_false]
      have h3c := g3c _ h2.1 h2.2.2
      have h3r := (g3r (rest ((StringRangeLine.decode rune ref counter).run
        (pre ++ w :: rest1) s))).trans h2.2.1
      have h3 := ih (pre ++ [w]) fuel
        ((StringRangeLine.header label counter ref rune).run (pre ++ w :: rest1)
          (rest ((StringRangeLine.decode rune ref counter).run (pre ++ w :: rest1) s)))
        (by simpa using h) (by simpa using hf)
        (by simpa using h3c) (by simpa using h3r)
      simp only [List.append_assoc, List.singleton_append, List.sum_append, List.sum_cons,
        List.sum_nil, Nat.add_zero] at h3
      simp only [runStringRange, StringRangeLine.test, hc, hr, hlt, decide_True, if_true,
        List.map_cons, startOffsets, List.zipWith_cons_cons, g1c, g1u, h3]

/-- C16: a range statement over a string returns whenever the writes of its
value and key targets and the statements of its body are lowered, and fails
only with them.  It prints the ranged expression stored into the fresh `ref`
and the counter set to `0`; then the loop header
`for (; counter < ref.length; counter += rune[1]) {`; as the first line of the
loop body the decoding `rune = Go$decodeRune(ref, counter);`, then the write of
`rune[0]` to the value target and of the counter to the key target, then the
lowered body; and the closing brace.  Run on variables in which the counter,
`ref` and `rune` are stored like any other, with the fresh names different from
one another and a loop body that assigns none of the three, on a string whose
code points have the positive widths `w1..wn`, the loop calls the body `n`
times, with the counter at `0, w1, w1 + w2, ..` and `rune` holding the code
point that starts there; for the widths 1, 2, 2 the keys are 0, 1, 3. -/
theorem translateStmt_range_string (E : Externals σ) (fuel : Nat) (key value : Option Expr)
    (x : Expr) (body : List Stmt) (label : String) (c : PkgContext σ) (t : GoType)
    (name : String)
    (ht : E.typeOf (rangeCounter E c.ext x).2 x = some t) (hu : t.Underlying = .basic name) :
    (translateStmt E (fuel + 1) (some (.rangeStmt key value x body)) label c =
      match translateAssign E value ((rangeRune E c.ext x).1 ++ "[0]")
          (stringRangeStart E x label c) with
      | .error e => .error e
      | .ok c4 =>
        match translateAssign E key (rangeCounter E c.ext x).1 c4 with
        | .error e => .error e
        | .ok c5 =>
          match translateStmtList E fuel body c5 with
          | .error e => .error e
          | .ok c6 => .ok (rangeEnd c c6)) ∧
    (∀ (widths : List Nat) (rest : (String → RuneVal) → (String → RuneVal))
      (s0 : String → RuneVal) (n : Nat),
      (rangeRef E c.ext).1 ≠ (rangeCounter E c.ext x).1 →
      (rangeRune E c.ext x).1 ≠ (rangeRef E c.ext).1 →
      (rangeRune E c.ext x).1 ≠ (rangeCounter E c.ext x).1 →
      (∀ s, rest s (rangeCounter E c.ext x).1 = s (rangeCounter E c.ext x).1 ∧
        rest s (rangeRef E c.ext).1 = s (rangeRef E c.ext).1 ∧
        rest s (rangeRune E c.ext x).1 = s (rangeRune E c.ext x).1) →
      (∀ w ∈ widths, 0 < w) → widths.length ≤ n →
      (runStringRange widths
        (.header label (rangeCounter E c.ext x).1 (rangeRef E c.ext).1 (rangeRune E c.ext x).1)
        (.decode (rangeRune E c.ext x).1 (rangeRef E c.ext).1 (rangeCounter E c.ext x).1)
        rest n
        ([ StringRangeLine.setRef (rangeRef E c.ext).1 (rangeExpr E c.ext x).1,
            .setCounter (rangeCounter E c.ext x).1 ].foldl
          (fun s l => l.run widths s) s0)).map
          (fun s1 => (s1 (rangeCounter E c.ext x).1, s1 (rangeRune E c.ext x).1)) =
        List.zipWith (fun o w => (RuneVal.number o, RuneVal.rune o w))
          (startOffsets 0 widths) widths ∧
      (runStringRange widths
        (.header label (rangeCounter E c.ext x).1 (rangeRef E c.ext).1 (rangeRune E c.ext x).1)
        (.decode (rangeRune E c.ext x).1 (rangeRef E c.ext).1 (rangeCounter E c.ext x).1)
        rest n
        ([ StringRangeLine.setRef (rangeRef E c.ext).1 (rangeExpr E c.ext x).1,
            .setCounter (rangeCounter E c.ext x).1 ].foldl
          (fun s l => l.run widths s) s0)).length = widths.length) ∧
    startOffsets 0 [1, 2, 2] = [0, 1, 3] ∧
    outputTexts (translateStmt sampleExternals 3 (some sampleStringRange) "" sampleContext) =
      some ["_ref0 = text;", "_i1 = 0;", "for (; _i1 < _ref0.length; _i1 += _rune2[1]) \x7b",
        "_rune2 = Go$decodeRune(_ref0, _i1);", "b = _rune2[0];", "a = _i1;", "f();",
        "\x7d"] := by
  refine ⟨translateStmt_range_string_eq E fuel key value x body label c t name ht hu, ?_, rfl,
    by decide⟩
  intro widths rest s0 n hrc hur huc hrest hw hn
  have h := runStringRange_visits label _ _ _ rest hrc hur huc hrest widths [] n
    ([ StringRangeLine.setRef (rangeRef E c.ext).1 (rangeExpr E c.ext x).1,
        .setCounter (rangeCounter E c.ext x).1 ].foldl (fun s l => l.run widths s) s0)
    (by simpa using hw) hn
    (by simp [StringRangeLine.run, assignVar])
    (by simp [StringRangeLine.run, assignVar, hrc])
  simp only [List.nil_append, List.sum_nil] at h
  refine ⟨h, ?_⟩
  have hl := congrArg List.length h
  simpa [startOffsets_length] using hl

/-- The hypotheses of `translateStmt_range_string` hold for
`for a, b = range text { f() }`: the statement is lowered, and the emitted
loop, run on a string whose code points have the widths 1, 2, 2, calls the body
three times, with the counter at 0, 1, 3. -/
theorem translateStmt_range_string_witness :
    sampleExternals.typeOf (rangeCounter sampleExternals sampleContext.ext (.ident "text")).2
      (.ident "text") = some (.basic "string") ∧
    (∃ c1, translateStmt sampleExternals 3 (some sampleStringRange) "" sampleContext = .ok c1 ∧
      c1.output.map Line.text =
        ["_ref0 = text;", "_i1 = 0;", "for (; _i1 < _ref0.length; _i1 += _rune2[1]) \x7b",
          "_rune2 = Go$decodeRune(_ref0, _i1);", "b = _rune2[0];", "a = _i1;", "f();",
          "\x7d"]) ∧
    (runStringRange [1, 2, 2] (.header "" "_i1" "_ref0" "_rune2")
      (.decode "_rune2" "_ref0" "_i1") (fun s => s) 5
      ([StringRangeLine.setRef "_ref0" "text", .setCounter "_i1"].foldl
        (fun s l => l.run [1, 2, 2] s) (fun _ => .undefined))).map
        (fun s1 => (s1 "_i1", s1 "_rune2")) =
      [(.number 0, .rune 0 1), (.number 1, .rune 1 2), (.number 3, .rune 3 2)] := by
  have hw := translateStmt_range_string sampleExternals 2 (some (.ident "a"))
    (some (.ident "b")) (.ident "text") [.exprStmt (.call (.ident "f") [] false)]
    "" sampleContext (.basic "string") "string" rfl rfl
  refine ⟨rfl, ?_, ?_⟩
  · cases hr : translateStmt sampleExternals 3 (some sampleStringRange) "" sampleContext with
    | error e =>
      have hd := hw.2.2.2
      rw [hr] at hd
      simp [outputTexts] at hd
    | ok c1 =>
      have hd := hw.2.2.2
      rw [hr] at hd
      simp only [outputTexts, Option.some.injEq] at hd
      exact ⟨c1, rfl, hd⟩
  · exact (hw.2.1 [1, 2, 2] (fun s => s) (fun _ => .undefined) 5
      (by decide) (by decide) (by decide) (fun s => ⟨rfl, rfl, rfl⟩) (by decide)
      (by decide)).1

/-- C17: with fuel for one call, `translateStmt` returns on a send statement,
a go statement, a select statement and a goto statement, whatever their
contents, and its whole output is the line `throw new Go$Panic("..");` with the
message of the construct; on a range statement over a channel-typed expression
it returns too, and prints that line with the message `Channels not supported`
after the two lines that store the ranged expression and set the counter. -/
theorem translateStmt_unsupported (E : Externals σ) (fuel : Nat) (label : String)
    (c : PkgContext σ) :
    (∀ ch value : Expr, translateStmt E (fuel + 1) (some (.send ch value)) label c =
      .ok (c.Printf (unsupportedLine "Statement not supported: send"))) ∧
    (∀ call : Expr, translateStmt E (fuel + 1) (some (.goStmt call)) label c =
      .ok (c.Printf (unsupportedLine "Statement not supported: go"))) ∧
    (∀ body : List Stmt, translateStmt E (fuel + 1) (some (.selectStmt body)) label c =
      .ok (c.Printf (unsupportedLine "Statement not supported: select"))) ∧
    (∀ target : Option String,
      translateStmt E (fuel + 1) (some (.branch Token.GOTO target)) label c =
        .ok (c.Printf (unsupportedLine "Statement not supported: goto"))) ∧
    (∀ (key value : Option Expr) (x : Expr) (body : List Stmt) (t elem : GoType),
      E.typeOf (rangeCounter E c.ext x).2 x = some t → t.Underlying = .chan elem →
      ∃ c1, translateStmt E (fuel + 1) (some (.rangeStmt key value x body)) label c = .ok c1 ∧
        c1.output = c.output ++
          [ ⟨c.indentation, (rangeRef E c.ext).1 ++ " = " ++ (rangeExpr E c.ext x).1 ++ ";"⟩,
            ⟨c.indentation, (rangeCounter E c.ext x).1 ++ " = 0;"⟩,
            ⟨c.indentation, unsupportedLine "Channels not supported"⟩ ]) := by
  refine ⟨fun _ _ => rfl, fun _ => rfl, fun _ => rfl, ?_, ?_⟩
  · intro target
    cases target <;> rfl
  · intro key value x body t elem ht hu
    have ht' : E.typeOf
        (E.newVariable (E.translateExpr (E.newVariable c.ext "_ref").2 x).2 "_i").2 x
        = some t := ht
    simp only [translateStmt, translateStmtVia, translateRangeWith, PkgContext.Printf,
      PkgContext.withExt, ht', hu, translateRangeBody]
    refine ⟨_, rfl, ?_⟩
    simp [rangeRef, rangeExpr, rangeCounter, unsupportedLine]

/-- The hypotheses of `translateStmt_unsupported` on a range statement hold
for `for range ch { f() }`, `ch` a channel; its lowering and that of a send
statement print the fixed lines. -/
theorem translateStmt_unsupported_witness :
    sampleChanExternals.typeOf (rangeCounter sampleChanExternals sampleContext.ext
      (.ident "ch")).2 (.ident "ch") = some (.chan (.basic "int")) ∧
    (∃ c1, translateStmt sampleChanExternals 1
        (some (.rangeStmt none none (.ident "ch") [.exprStmt (.call (.ident "f") [] false)]))
        "" sampleContext = .ok c1 ∧
      c1.output = [⟨0, "_ref0 = ch;"⟩, ⟨0, "_i1 = 0;"⟩,
        ⟨0, "throw new Go$Panic(\"Channels not supported\");"⟩]) ∧
    outputTexts (translateStmt sampleExternals 1 (some (.send (.ident "ch") (.ident "a"))) ""
      sampleContext) = some ["throw new Go$Panic(\"Statement not supported: send\");"] ∧
    outputTexts (translateStmt sampleExternals 1 (some (.branch Token.GOTO (some "L"))) ""
      sampleContext) = some ["throw new Go$Panic(\"Statement not supported: goto\");"] := by
  refine ⟨rfl, ?_, by decide, by decide⟩
  obtain ⟨c1, h1, h2⟩ := (translateStmt_unsupported sampleChanExternals 0 "" sampleContext).2.2.2.2
    none none (.ident "ch") [.exprStmt (.call (.ident "f") [] false)] (.chan (.basic "int"))
    (.basic "int") rfl rfl
  refine ⟨c1, h1, ?_⟩
  rw [h2]
  decide

theorem wrapper_text (p c v : String) :
    "Go$deferred.push(\x7b fun: function(" ++ p ++ ") \x7b " ++ c ++ "; \x7d, args: [" ++ v
        ++ "] \x7d);" =
      (DeferRecord.call ("function(" ++ p ++ ") \x7b " ++ c ++ "; \x7d") v).text := by
  have e1 : "Go$deferred.push(\x7b fun: function(" = "Go$deferred.push(\x7b fun: " ++ "function(" := by
    decide
  have e2 : "; \x7d, args: [" = "; \x7d" ++ ", args: [" := by decide
  rw [e1, e2]
  simp only [DeferRecord.text, String.append_assoc]

theorem translateDeferStmt_record (E : Externals σ) (fn : Expr) (args : List Expr)
    (ellipsis : Bool) (c : PkgContext σ) :
    translateDeferStmt E fn args ellipsis c =
      match deferRecord E c.ext fn args ellipsis with
      | .error err => .error err
      | .ok r => .ok ((c.withExt r.2).Printf r.1.text) := by
  unfold translateDeferStmt deferRecord calleeBuiltin
  cases fn with
  | ident name =>
    simp only
    cases ho : E.objectOf c.ext (.ident name) with
    | none =>
      simp only
      cases (E.typeOf c.ext (.ident name)).map GoType.Underlying with
      | none => rfl
      | some t => cases t <;> rfl
    | some o =>
      cases o with
      | builtin bn =>
        simp only
        by_cases hb : (bn == "recover") = true
        · simp only [hb, if_true]
          rfl
        · simp only [hb, Bool.false_eq_true, if_false, wrapper_text]
      | var vn vt =>
        simp only
        cases (E.typeOf c.ext (.ident name)).map GoType.Underlying with
        | none => rfl
        | some t => cases t <;> rfl
  | selector x sel =>
    simp only
    cases (E.typeOf c.ext (.selector x sel)).map GoType.Underlying with
    | none => rfl
    | some t => cases t <;> rfl
  | _ =>
    simp only
    generalize Option.map GoType.Underlying (E.typeOf c.ext _) = u
    cases u with
    | none => rfl
    | some t => cases t <;> rfl

theorem translateStmtList_defers (E : Externals σ) (fuel : Nat) :
    ∀ (defers : List (Expr × List Expr × Bool)) (c : PkgContext σ),
      translateStmtList E (fuel + 1) (defers.map (fun d => Stmt.deferStmt d.1 d.2.1 d.2.2)) c =
        match deferRecords E c.ext defers with
        | .error err => .error err
        | .ok rs =>
          .ok { c with ext := rs.2,
                       output := c.output ++ rs.1.map (fun r => ⟨c.indentation, r.text⟩) } := by
  intro defers
  induction defers with
  | nil =>
    intro c
    simp [translateStmtList, translateStmtListWith, deferRecords]
  | cons d rest ih =>
    intro c
    have ih1 := fun c1 : PkgContext σ => ih c1
    simp only [translateStmtList] at ih1
    have hd : translateStmt E (fuel + 1) (some (Stmt.deferStmt d.1 d.2.1 d.2.2)) "" c =
        match deferRecord E c.ext d.1 d.2.1 d.2.2 with
        | .error err => .error err
        | .ok r => .ok ((c.withExt r.2).Printf r.1.text) := by
      simp only [translateStmt, translateStmtVia, translateDeferStmt_record]
    simp only [translateStmtList, List.map_cons, translateStmtListWith, deferRecords]
    rw [hd]
    cases hr : deferRecord E c.ext d.1 d.2.1 d.2.2 with
    | error err => rfl
    | ok r =>
      simp only
      rw [ih1]
      have hx : ((c.withExt r.2).Printf r.1.text).ext = r.2 := rfl
      rw [hx]
      cases deferRecords E r.2 rest with
      | error err => rfl
      | ok rs => simp [PkgContext.Printf, PkgContext.withExt]

/-- C18: a defer statement is lowered to exactly one line, the registration of
its record, when the record can be built, and fails otherwise.  The record is
the recover marker exactly when the callee is an identifier bound to the builtin
`recover`; it holds receiver, method name and arguments when the callee is a
selector expression; and it holds callee and arguments in every other case.
The arguments are lowered while the record is built.  A list of defer
statements prints the registrations of its records in source order. -/
theorem translateStmt_defer (E : Externals σ) (fuel : Nat) (label : String) (c : PkgContext σ)
    (fn : Expr) (args : List Expr) (ellipsis : Bool) :
    (translateStmt E (fuel + 1) (some (.deferStmt fn args ellipsis)) label c =
      match deferRecord E c.ext fn args ellipsis with
      | .error err => .error err
      | .ok r => .ok ((c.withExt r.2).Printf r.1.text)) ∧
    (∀ r, deferRecord E c.ext fn args ellipsis = .ok r →
      (r.1 = .recover ↔ calleeBuiltin E c.ext fn = some "recover")) ∧
    (∀ r x sel, fn = .selector x sel → deferRecord E c.ext fn args ellipsis = .ok r →
      ∃ sig, r.1 = .method (E.translateExpr (E.translateArgs c.ext sig args ellipsis).2 x).1 sel
        (E.translateArgs c.ext sig args ellipsis).1) ∧
    (∀ r, deferRecord E c.ext fn args ellipsis = .ok r →
      calleeBuiltin E c.ext fn ≠ some "recover" → (∀ x sel, fn ≠ .selector x sel) →
      ∃ callee a, r.1 = .call callee a) ∧
    (∀ (defers : List (Expr × List Expr × Bool)),
      translateStmtList E (fuel + 1) (defers.map (fun d => Stmt.deferStmt d.1 d.2.1 d.2.2)) c =
        match deferRecords E c.ext defers with
        | .error err => .error err
        | .ok rs =>
          .ok { c with ext := rs.2,
                       output := c.output ++ rs.1.map (fun r => ⟨c.indentation, r.text⟩) }) := by
  refine ⟨?_, ?_, ?_, ?_, fun defers => translateStmtList_defers E fuel defers c⟩
  · simp only [translateStmt, translateStmtVia, translateDeferStmt_record]
  · intro r h
    unfold deferRecord at h
    cases hb : calleeBuiltin E c.ext fn with
    | some name =>
      simp only [hb] at h
      by_cases hn : name = "recover"
      · subst hn
        simp at h
        simp [← h]
      · have hn1 : (name == "recover") = false := by simpa using hn
        simp only [hn1, Bool.false_eq_true, if_false] at h
        cases h
        simp [hn]
    | none =>
      simp only [hb] at h
      constructor
      · intro hr
        split at h
        · split at h <;> cases h <;> cases hr
        · cases h
      · intro hc; cases hc
  · intro r x sel hfn h
    subst hfn
    simp only [deferRecord, calleeBuiltin] at h
    split at h
    · rename_i params results _
      cases h
      exact ⟨.signature params results, rfl⟩
    · cases h
  · intro r h hnr hns
    unfold deferRecord at h
    cases hb : calleeBuiltin E c.ext fn with
    | some name =>
      simp only [hb] at h
      by_cases hn : name = "recover"
      · exact absurd (by rw [hb, hn]) hnr
      · have hn1 : (name == "recover") = false := by simpa using hn
        simp only [hn1, Bool.false_eq_true, if_false] at h
        cases h
        exact ⟨_, _, rfl⟩
    | none =>
      simp only [hb] at h
      split at h
      · cases h
        exact ⟨_, _, rfl⟩
      · cases h

/-- The statements `defer recover(); defer p.close(a); defer f(b)` print their
three registrations in source order, the first the recover marker. -/
theorem translateStmt_defer_witness :
    deferRecord sampleFuncExternals 0 (.ident "recover") [] false = .ok (.recover, 0) ∧
    (DeferRecord.recover = .recover ↔
      calleeBuiltin sampleFuncExternals 0 (.ident "recover") = some "recover") ∧
    outputTexts (translateStmtList sampleFuncExternals 1
      (sampleDefers.map (fun d => Stmt.deferStmt d.1 d.2.1 d.2.2)) sampleContext) =
      some ["Go$deferred.push(\x7b fun: Go$recover, args: [] \x7d);",
        "Go$deferred.push(\x7b recv: p, method: \"close\", args: [a] \x7d);",
        "Go$deferred.push(\x7b fun: f, args: [b] \x7d);"] :=
  ⟨rfl,
    (translateStmt_defer sampleFuncExternals 0 "" sampleContext (.ident "recover") [] false).2.1
      (.recover, 0) rfl,
    by decide⟩

mutual
theorem walk_eq : ∀ (s : Stmt) (b : Bool), Walk b s = (b || hasFreeBreak s)
  | .block list, b => by
    cases b <;> simp [Walk, HasBreakVisitor.Visit, hasFreeBreak, walkList_eq list]
  | .ifStmt init cond body els, b => by
    cases b <;>
      simp [Walk, HasBreakVisitor.Visit, hasFreeBreak, walkOpt_eq init, walkList_eq body,
        walkOpt_eq els]
    cases hasFreeBreakOpt init <;> simp
  | .caseClause list body, b => by
    cases b <;> simp [Walk, HasBreakVisitor.Visit, hasFreeBreak, walkList_eq body]
  | .labeled label stmt, b => by
    cases b <;> simp [Walk, HasBreakVisitor.Visit, hasFreeBreak, walkOpt_eq stmt]
  | .branch tok label, b => by
    cases b <;> cases label <;> simp [Walk, HasBreakVisitor.Visit, hasFreeBreak]
    split <;> simp_all
  | .switchStmt _ _ _, b => by cases b <;> simp [Walk, HasBreakVisitor.Visit, hasFreeBreak]
  | .typeSwitchStmt _ _ _, b => by cases b <;> simp [Walk, HasBreakVisitor.Visit, hasFreeBreak]
  | .forStmt _ _ _ _, b => by cases b <;> simp [Walk, HasBreakVisitor.Visit, hasFreeBreak]
  | .rangeStmt _ _ _ _, b => by cases b <;> simp [Walk, HasBreakVisitor.Visit, hasFreeBreak]
  | .returnStmt _, b => by cases b <;> simp [Walk, HasBreakVisitor.Visit, hasFreeBreak]
  | .deferStmt _ _ _, b => by cases b <;> simp [Walk, HasBreakVisitor.Visit, hasFreeBreak]
  | .exprStmt _, b => by cases b <;> simp [Walk, HasBreakVisitor.Visit, hasFreeBreak]
  | .declStmt _ _, b => by cases b <;> simp [Walk, HasBreakVisitor.Visit, hasFreeBreak]
  | .assign _ _ _, b => by cases b <;> simp [Walk, HasBreakVisitor.Visit, hasFreeBreak]
  | .incDec _ _, b => by cases b <;> simp [Walk, HasBreakVisitor.Visit, hasFreeBreak]
  | .selectStmt _, b => by cases b <;> simp [Walk, HasBreakVisitor.Visit, hasFreeBreak]
  | .goStmt _, b => by cases b <;> simp [Walk, HasBreakVisitor.Visit, hasFreeBreak]
  | .send _ _, b => by cases b <;> simp [Walk, HasBreakVisitor.Visit, hasFreeBreak]
  | .empty, b => by cases b <;> simp [Walk, HasBreakVisitor.Visit, hasFreeBreak]
  | .bad _, b => by cases b <;> simp [Walk, HasBreakVisitor.Visit, hasFreeBreak]
theorem walkList_eq : ∀ (l : List Stmt) (b : Bool), WalkList b l = (b || hasFreeBreakList l)
  | [], b => by simp [WalkList, hasFreeBreakList]
  | s :: rest, b => by
    simp [WalkList, hasFreeBreakList, walk_eq s, walkList_eq rest, Bool.or_assoc]
theorem walkOpt_eq : ∀ (o : Option Stmt) (b : Bool), WalkOpt b o = (b || hasFreeBreakOpt o)
  | none, b => by simp [WalkOpt, hasFreeBreakOpt]
  | some s, b => by simp [WalkOpt, hasFreeBreakOpt, walk_eq s]
end

/-- C19: the walk of `HasBreakVisitor` over a statement, started with
`hasBreak` false, ends with `hasBreak` true exactly when the statement contains
a `break` without a label outside every `for`, range, switch, type switch and
select statement and every function literal of the tree; the same holds for the
walk over the clauses of `translateBranchingStmt`.  A labeled `break`, a
`continue`, a nested loop, switch, type switch or select statement and an
expression statement (whose statements lie in function literals) leave it
false, whatever they contain; and once `hasBreak` is true, walking further
statements leaves it true. -/
theorem walk_hasBreak (s : Stmt) :
    (Walk false s = true ↔ hasFreeBreak s = true) ∧
    (∀ clauses : List Stmt, WalkList false clauses = hasFreeBreakList clauses) ∧
    Walk true s = true ∧
    (∀ rest : List Stmt, WalkList true rest = true) ∧
    (∀ label : String, Walk false (.branch Token.BREAK (some label)) = false) ∧
    (∀ label : Option String, Walk false (.branch Token.CONTINUE label) = false) ∧
    (∀ (init post : Option Stmt) (cond : Option Expr) (body : List Stmt),
      Walk false (.forStmt init cond post body) = false) ∧
    (∀ (key value : Option Expr) (x : Expr) (body : List Stmt),
      Walk false (.rangeStmt key value x body) = false) ∧
    (∀ (init : Option Stmt) (tag : Option Expr) (body : List Stmt),
      Walk false (.switchStmt init tag body) = false) ∧
    (∀ (init : Option Stmt) (assign : Stmt) (body : List Stmt),
      Walk false (.typeSwitchStmt init assign body) = false) ∧
    (∀ body : List Stmt, Walk false (.selectStmt body) = false) ∧
    (∀ x : Expr, Walk false (.exprStmt x) = false) ∧
    WalkList false sampleBreakBody = true ∧
    WalkList false sampleBreakBody.tail = false := by
  refine ⟨?_, ?_, ?_, ?_, ?_, ?_, ?_, ?_, ?_, ?_, ?_, ?_, by decide, by decide⟩
  · rw [walk_eq]; simp
  · intro clauses; rw [walkList_eq]; simp
  · rw [walk_eq]; simp
  · intro rest; rw [walkList_eq]; simp
  · intro label; rw [walk_eq]; simp [hasFreeBreak]
  · intro label; rw [walk_eq]; simp [hasFreeBreak]
  · intro init post cond body; rw [walk_eq]; simp [hasFreeBreak]
  · intro key value x body; rw [walk_eq]; simp [hasFreeBreak]
  · intro init tag body; rw [walk_eq]; simp [hasFreeBreak]
  · intro init assign body; rw [walk_eq]; simp [hasFreeBreak]
  · intro body; rw [walk_eq]; simp [hasFreeBreak]
  · intro x; rw [walk_eq]; simp [hasFreeBreak]

/-- C20, as the code has it: the lowering of an `if` / `else if` chain lowers
the init statement of the first `if` only; the init statement of an `else if`
is not read, so the chain is lowered as if that `else if` had none.  The
statement `if a { f() } else if x := g(); x == b { h(x) }` is lowered without
any line for `x := g()`, which the same init statement gets at the head of a
chain. -/
theorem translateStmt_else_if_init (E : Externals σ) (fuel : Nat) (label : String)
    (c : PkgContext σ) (init init1 : Option Stmt) (cond cond1 : Expr) (body body1 : List Stmt)
    (els1 : Option Stmt) :
    ifClauses cond body (some (.ifStmt init1 cond1 body1 els1)) =
      ifClauses cond body (some (.ifStmt none cond1 body1 els1)) ∧
    translateStmt E fuel
        (some (.ifStmt init cond body (some (.ifStmt init1 cond1 body1 els1)))) label c =
      translateStmt E fuel
        (some (.ifStmt init cond body (some (.ifStmt none cond1 body1 els1)))) label c ∧
    outputTexts (translateStmt sampleExternals 3 (some sampleElseIfInit) "" sampleContext) =
      some ["if (a) \x7b", "f();", "\x7d else if (x === b) \x7b", "h(x);", "\x7d"] ∧
    outputTexts (translateStmt sampleExternals 3 (some sampleIfInit) "" sampleContext) =
      some ["x = g();", "if (x === b) \x7b", "h(x);", "\x7d"] := by
  have h1 : ifClauses cond body (some (.ifStmt init1 cond1 body1 els1)) =
      ifClauses cond body (some (.ifStmt none cond1 body1 els1)) := by
    simp only [ifClauses, ifClausesElse]
  refine ⟨h1, ?_, by decide, by decide⟩
  cases fuel with
  | zero => rfl
  | succ fuel => simp only [translateStmt, translateStmtVia, h1]

end Translator
